import Mathlib

/-!
# docker-status: the view-state machine of the terminal dashboard

A shallow embedding of `tui/*.go`.

Conventions of the embedding.

* A Go `string` is a byte sequence.  It is represented by a Lean `String` in
  which every character stands for one byte (code below 256), so `len(s)` is
  `s.length`, `s[:n]` is a prefix of the character list and `<` on strings is
  the byte-wise order.  Non-ASCII literals of the source are written byte by
  byte (`"\xE2\x9C\x93"` for the check mark).
* A panic (slice out of range, index out of range) is `none`.
* A Go `int` (terminal size, column width, cursor) is an `Int` without
  wraparound: the values of the program stay far from `2^63`.
* A `*Model` receiver that is mutated in place becomes a function returning
  the new model.
* Closures stored in `pendingAction` and the `tea.Cmd` closures returned by
  `Update` are defunctionalised: one constructor per closure of the source,
  carrying the values the closure captured.
* Third-party and standard-library code that is not plain byte manipulation
  (the bubbles table, lipgloss rendering, time formatting, float arithmetic,
  Unicode case mapping and white space) is a field of `Env`; every general
  theorem holds for every `Env`.
-/

namespace DockerStatus

/-! ## Go strings -/

/-- Go `s[:n]`; panics when `n` exceeds `len(s)`. -/
def sliceTo (s : String) (n : Nat) : Option String :=
  if n ≤ s.length then some ⟨s.data.take n⟩ else none

/-- Go `s[a:b]`; panics unless `a ≤ b ≤ len(s)`. -/
def sliceBetween (s : String) (a b : Nat) : Option String :=
  if a ≤ b ∧ b ≤ s.length then some ⟨(s.data.drop a).take (b - a)⟩ else none

/-- Go `s[a:]`; panics when `a` exceeds `len(s)`. -/
def sliceFrom (s : String) (a : Nat) : Option String :=
  if a ≤ s.length then some ⟨s.data.drop a⟩ else none

/-- Go `strings.Join`. -/
def joinStrings (parts : List String) (sep : String) : String :=
  sep.intercalate parts

/-- Go `strings.HasPrefix`. -/
def hasPrefix (s pre : String) : Bool :=
  pre.data.isPrefixOf s.data

/-- Whether the character list `pat` occurs in `l` as a contiguous block. -/
def containsChars (pat : List Char) : List Char → Bool
  | [] => pat.isEmpty
  | c :: cs => pat.isPrefixOf (c :: cs) || containsChars pat cs

/-- Go `strings.Contains`. -/
def stringsContains (s sub : String) : Bool :=
  containsChars sub.data s.data

/-- Splitting a character list at every line feed; the accumulator holds the
current piece reversed. -/
def splitLinesAux : List Char → List Char → List String
  | [], acc => [⟨acc.reverse⟩]
  | c :: cs, acc =>
    if c = '\n' then ⟨acc.reverse⟩ :: splitLinesAux cs [] else splitLinesAux cs (c :: acc)

/-- Go `strings.Split(s, "\n")`. -/
def splitLines (s : String) : List String :=
  splitLinesAux s.data []

/-- A loop that builds one result per element and panics as soon as one
element does. -/
def mapOpt {α β : Type} (f : α → Option β) : List α → Option (List β)
  | [] => some []
  | a :: rest =>
    match f a with
    | none => none
    | some b => (mapOpt f rest).map (fun bs => b :: bs)

/-! ## Records of the container runtime -/

/-- Go `container.Port`; `Proto` is the field `Type` of the source. -/
structure Port where
  PrivatePort : Nat
  PublicPort : Nat
  Proto : String
deriving DecidableEq, Repr

/-- Go `container.Summary`.  `Labels` is a Go map: a list of key-value pairs
with distinct keys. -/
structure Container where
  ID : String
  Names : List String
  Image : String
  Command : String
  Created : Int
  Ports : List Port
  Labels : List (String × String)
  State : String
  Status : String
deriving DecidableEq, Repr

/-- Go `image.Summary`. -/
structure Image where
  ID : String
  RepoTags : List String
  Created : Int
  Size : Int
deriving DecidableEq, Repr

/-- Go `network.Summary`.  `Created` is a `time.Time`: `none` is the zero
time, `some t` any other instant. -/
structure Network where
  ID : String
  Name : String
  Driver : String
  Scope : String
  Created : Option Int
deriving DecidableEq, Repr

/-- Go `volume.Volume` (the list holds non-nil pointers to such records). -/
structure Volume where
  Name : String
  Driver : String
  Mountpoint : String
  CreatedAt : String
deriving DecidableEq, Repr

/-- Lookup in a Go map. -/
def mapLookup (labels : List (String × String)) (key : String) : Option String :=
  (labels.find? (fun kv => kv.1 == key)).map (fun kv => kv.2)

/-! ## model.go: view modes, groups, key bindings -/

/-- The `ViewMode` enumeration. -/
inductive ViewMode
  | ContainersView
  | ImagesView
  | NetworksView
  | VolumesView
  | LogsView
  | HelpViewMode
deriving DecidableEq, Repr

open ViewMode

/-- The `viewNames` table. -/
def viewNames : ViewMode → String
  | ContainersView => "Containers"
  | ImagesView => "Images"
  | NetworksView => "Networks"
  | VolumesView => "Volumes"
  | LogsView => "Logs"
  | HelpViewMode => "Help"

/-- A group of containers of one compose project. -/
structure ContainerGroup where
  Name : String
  Containers : List Container
deriving DecidableEq, Repr

/-- A `key.Binding`: the key tokens it answers to.  Every binding of the
program is built by `key.NewBinding` and stays enabled. -/
abbrev Binding := List String

/-- The `KeyMap` of model.go.  `Update` also reads a binding `Stop` that the
declaration of `KeyMap` under `src/` does not have; it is a field here and a
parameter of `DefaultKeyMap`. -/
structure KeyMap where
  Up : Binding
  Down : Binding
  Left : Binding
  Right : Binding
  Tab : Binding
  Enter : Binding
  Refresh : Binding
  Quit : Binding
  Help : Binding
  Delete : Binding
  Stop : Binding
  Logs : Binding
  Containers : Binding
  Images : Binding
  Networks : Binding
  Volumes : Binding
  ThemeDefault : Binding
  ThemeDark : Binding
  ThemeLight : Binding
  GroupToggle : Binding
  GroupStop : Binding
  GroupStart : Binding
  GroupDelete : Binding
deriving DecidableEq, Repr

/-- The default key bindings; `stop` is the binding of the stop-container key. -/
def DefaultKeyMap (stop : Binding) : KeyMap where
  Up := ["up", "k"]
  Down := ["down", "j"]
  Left := ["left", "h"]
  Right := ["right", "l"]
  Tab := ["tab"]
  Enter := ["enter"]
  Refresh := ["r", "ctrl+r"]
  Quit := ["q", "ctrl+c"]
  Help := ["?"]
  Delete := ["d", "delete"]
  Stop := stop
  Logs := ["L"]
  Containers := ["1"]
  Images := ["2"]
  Networks := ["3"]
  Volumes := ["4"]
  ThemeDefault := ["t", "1"]
  ThemeDark := ["t", "2"]
  ThemeLight := ["t", "3"]
  GroupToggle := ["g"]
  GroupStop := ["s"]
  GroupStart := ["S"]
  GroupDelete := ["D"]

/-- Go `key.Matches(msg, b)` for a key message whose `String()` is `k`. -/
def keyMatches (k : String) (b : Binding) : Bool :=
  b.contains k

/-! ## Messages and commands -/

/-- The messages `Update` receives: `tea.WindowSizeMsg`, `tickMsg`,
`tea.KeyMsg` (by its `String()`), `dataRefreshedMsg`, `errorMsg`,
`statusMsg`, and any other message of the runtime. -/
inductive Msg
  | windowSize (width height : Int)
  | tick
  | key (k : String)
  | dataRefreshed (containers : List Container) (images : List Image)
      (networks : List Network) (volumes : List Volume)
  | error (err : String)
  | status (text : String)
  | other (tag : Nat)
deriving DecidableEq, Repr

/-- The deferred operations stored in `pendingAction`, one per closure the
source assigns to it, with the value the closure captured. -/
inductive PendingAction
  | deleteContainer (c : Container)
  | deleteImage (i : Image)
  | deleteNetwork (n : Network)
  | deleteVolume (v : Volume)
  | stopContainer (c : Container)
  | deleteGroup (g : ContainerGroup)
deriving DecidableEq, Repr

/-- The commands `Update` and `Init` return, one per `tea.Cmd` the source
builds; `table` is a command handed back by the table library. -/
inductive Cmd
  | refreshData
  | tick (seconds : Nat)
  | quit
  | showLogs
  | deleteContainer (c : Container)
  | deleteImage (i : Image)
  | deleteNetwork (n : Network)
  | deleteVolume (v : Volume)
  | stopContainer (c : Container)
  | stopGroup (g : ContainerGroup)
  | startGroup (g : ContainerGroup)
  | deleteGroup (g : ContainerGroup)
  | table (tag : Nat)
deriving DecidableEq, Repr

/-- Calling the closure stored in `pendingAction`: the command it returns. -/
def PendingAction.run : PendingAction → Cmd
  | .deleteContainer c => .deleteContainer c
  | .deleteImage i => .deleteImage i
  | .deleteNetwork n => .deleteNetwork n
  | .deleteVolume v => .deleteVolume v
  | .stopContainer c => .stopContainer c
  | .deleteGroup g => .deleteGroup g

/-- The commands that execute a destructive or state-changing operation of
the runtime or of the stack client. -/
def Cmd.isAction : Cmd → Bool
  | .deleteContainer _ => true
  | .deleteImage _ => true
  | .deleteNetwork _ => true
  | .deleteVolume _ => true
  | .stopContainer _ => true
  | .stopGroup _ => true
  | .startGroup _ => true
  | .deleteGroup _ => true
  | _ => false

/-- The action commands that the source routes through the confirmation
dialog: the removals, stop-container and delete-group. -/
def Cmd.isGatedAction : Cmd → Bool
  | .deleteContainer _ => true
  | .deleteImage _ => true
  | .deleteNetwork _ => true
  | .deleteVolume _ => true
  | .stopContainer _ => true
  | .deleteGroup _ => true
  | _ => false

/-! ## The environment: libraries outside the repository -/

/-- The three colour palettes of styles.go; the value of the global `Colors`. -/
inductive Theme
  | default
  | dark
  | light
deriving DecidableEq, Repr

/-- The lipgloss styles the program renders with. -/
inductive StyleId
  | title
  | subtitle
  | textMuted
  | textError
  | tabActive
  | tabInactive
  | statusInfo
  | helpTitle
  | helpFooter
  | dialog
deriving DecidableEq, Repr

/-- A `table.Column`. -/
structure Column where
  Title : String
  Width : Int
deriving DecidableEq, Repr

/-- A `table.Row`. -/
abbrev Row := List String

/-- A wall-clock time of day, as `time.Now()` is used by the program. -/
structure Clock where
  hour : Nat
  minute : Nat
  second : Nat
deriving DecidableEq, Repr

/-- The libraries the program calls, over the table type `T` of the bubbles
table component. -/
structure Env (T : Type) where
  /-- `table.New(WithColumns(cols), WithFocused(true), WithHeight(10))`. -/
  tableNew : List Column → T
  /-- `table.Model.Cursor`. -/
  tableCursor : T → Int
  /-- `table.Model.Update`: the new table and the command it returns, if any. -/
  tableUpdate : T → Msg → T × Option Nat
  /-- `table.Model.SetRows`. -/
  tableSetRows : T → List Row → T
  /-- `table.Model.SetHeight`. -/
  tableSetHeight : T → Int → T
  /-- `table.Model.SetColumns`. -/
  tableSetColumns : T → List Column → T
  /-- `table.Model.SetStyles` with the styles `applyStyles` builds from `Colors`. -/
  tableSetStyles : T → Theme → T
  /-- `table.Model.View`. -/
  tableView : T → String
  /-- `lipgloss.Style.Render` of the named style under a palette, with an
  optional `Width`. -/
  render : Theme → StyleId → Option Int → String → String
  /-- `lipgloss.Place(w, h, Center, Center, s, ...)`. -/
  place : Int → Int → String → String
  /-- `time.Unix(sec, 0).Format("2006-01-02 15:04")`. -/
  formatUnix : Int → String
  /-- `t.Format("2006-01-02 15:04")` of a non-zero `time.Time`. -/
  formatTime : Int → String
  /-- `int(float64(w) * (float64(avail) / float64(total)))`. -/
  scaleWidth : Int → Int → Int → Int
  /-- `fmt.Sprintf("%.1f", float64(size) / unit)`. -/
  formatTenths : Int → Int → String
  /-- `strings.ToLower`. -/
  toLower : String → String
  /-- `strings.TrimSpace(s) == ""`. -/
  isBlank : String → Bool

/-! ## tables.go: formatting and grouping -/

/-- One port of `formatPorts`. -/
def formatPort (p : Port) : String :=
  if p.PublicPort > 0 then
    toString p.PublicPort ++ "->" ++ toString p.PrivatePort ++ "/" ++ p.Proto
  else
    toString p.PrivatePort ++ "/" ++ p.Proto

/-- Formats container ports for display. -/
def formatPorts (ports : List Port) : String :=
  if ports.length = 0 then ""
  else
    let result := joinStrings (ports.map formatPort) ", "
    if result.length > 23 then (⟨result.data.take 20⟩ : String) ++ "..." else result

/-- Formats a byte size into human readable form. -/
def formatSize {T : Type} (env : Env T) (size : Int) : String :=
  if size ≥ 1024 * 1024 * 1024 then env.formatTenths size (1024 * 1024 * 1024) ++ "GB"
  else if size ≥ 1024 * 1024 then env.formatTenths size (1024 * 1024) ++ "MB"
  else if size ≥ 1024 then env.formatTenths size 1024 ++ "KB"
  else toString size ++ "B"

/-- Extracts the compose project name from the labels of a container. -/
def getComposeProjectName (c : Container) : String :=
  match mapLookup c.Labels "com.docker.compose.project" with
  | some projectName => projectName
  | none =>
    match mapLookup c.Labels "com.docker.stack.namespace" with
    | some stackName => stackName ++ " (stack)"
    | none =>
      if c.Labels.any (fun kv => hasPrefix kv.1 "com.docker.compose.") then "Unknown Project"
      else "Standalone Containers"

/-- The statement `groups[name] = append(groups[name], c)` on the map
`groups`, kept as a list of entries in order of first insertion. -/
def groupInsert (name : String) (c : Container) :
    List (String × List Container) → List (String × List Container)
  | [] => [(name, [c])]
  | (n, cs) :: rest =>
    if n = name then (n, cs ++ [c]) :: rest else (n, cs) :: groupInsert name c rest

/-- The map `groups` after the first loop of `groupContainersByCompose`. -/
def buildGroups (containers : List Container) : List (String × List Container) :=
  containers.foldl (fun groups c => groupInsert (getComposeProjectName c) c groups) []

/-- One step of an insertion sort: `x` enters the sorted prefix, which is
given last element first, and moves towards the front while `less x y`. -/
def insertBack {α : Type} (less : α → α → Bool) (x : α) : List α → List α
  | [] => [x]
  | y :: ys => if less x y then y :: insertBack less x ys else x :: y :: ys

/-- Go `sort.Slice`, as the insertion sort the library runs on slices of at
most 12 elements.  On longer slices the library sorts with another
algorithm, which returns the same slice whenever no two elements are
equivalent under `less`. -/
def sortSlice {α : Type} (less : α → α → Bool) (data : List α) : List α :=
  (data.foldl (fun sorted x => insertBack less x sorted) []).reverse

/-- The comparison `containers[i].Names[0] < containers[j].Names[0]`. -/
def containerLess (a b : Container) : Bool :=
  decide (a.Names.headD "" < b.Names.headD "")

/-- Sorting the containers of one group by first name.  The comparison
indexes `Names[0]`: with two or more containers, one without a name panics. -/
def sortGroupContainers (containers : List Container) : Option (List Container) :=
  if containers.length < 2 then some containers
  else if containers.all (fun c => !c.Names.isEmpty) then some (sortSlice containerLess containers)
  else none

/-- The comparison that sorts the groups: by name, the standalone group last. -/
def groupLess (a b : ContainerGroup) : Bool :=
  if a.Name = "Standalone Containers" then false
  else if b.Name = "Standalone Containers" then true
  else decide (a.Name < b.Name)

/-- The second half of `groupContainersByCompose`, from an enumeration of
the map `groups`: sort inside each group, then sort the groups. -/
def groupsFromEntries (entries : List (String × List Container)) :
    Option (List ContainerGroup) :=
  (mapOpt (fun e => (sortGroupContainers e.2).map (fun cs => ContainerGroup.mk e.1 cs)) entries).map
    (sortSlice groupLess)

/-- Groups containers by their compose project. -/
def groupContainersByCompose (containers : List Container) : Option (List ContainerGroup) :=
  groupsFromEntries (buildGroups containers)

/-- The inner loop of the cursor walk over one group: the index of the
container on row `cursor`, or the row after the group. -/
def scanGroupRows (cursor : Int) : List Container → Nat → Int → Nat ⊕ Int
  | [], _, currentRow => .inr currentRow
  | _ :: rest, containerIdx, currentRow =>
    if currentRow = cursor then .inl containerIdx
    else scanGroupRows cursor rest (containerIdx + 1) (currentRow + 1)

/-- The outer loop of `getSelectedItem`. -/
def scanGroups (cursor : Int) : List ContainerGroup → Nat → Int → Int × Int × Bool
  | [], _, _ => (-1, -1, false)
  | group :: rest, groupIdx, currentRow =>
    if currentRow = cursor then (groupIdx, -1, true)
    else
      match scanGroupRows cursor group.Containers 0 (currentRow + 1) with
      | .inl containerIdx => (groupIdx, containerIdx, false)
      | .inr nextRow => scanGroups cursor rest (groupIdx + 1) nextRow

/-- The outer loop of `getSelectedContainerGrouped`. -/
def scanGroupsForContainer (cursor : Int) : List ContainerGroup → Int → Option Container
  | [], _ => none
  | group :: rest, currentRow =>
    if cursor = currentRow then none
    else
      match scanGroupRows cursor group.Containers 0 (currentRow + 1) with
      | .inl containerIdx => group.Containers.get? containerIdx
      | .inr nextRow => scanGroupsForContainer cursor rest nextRow

/-- The index of the last colon of a string, from its characters in reverse
order: the backward loop of `parseRepoTag`. -/
def lastColon : List Char → Option Nat
  | [] => none
  | c :: rest => if c = ':' then some rest.length else lastColon rest

/-- Splits a `repo:tag` string into repository and tag. -/
def parseRepoTag (repoTag : String) : String × String :=
  if repoTag = "" then ("<none>", "<none>")
  else
    match lastColon repoTag.data.reverse with
    | none => (repoTag, "<none>")
    | some i =>
      let repo : String := ⟨repoTag.data.take i⟩
      let tag : String := ⟨repoTag.data.drop (i + 1)⟩
      (if repo = "" then "<none>" else repo, if tag = "" then "<none>" else tag)

/-! ## update.go: column layout -/

/-- The columns of the first branch of `distributeColumnWidths` (lists of
different lengths): the minimum width where there is one, else 10. -/
def fallbackColumns (minWidths : List Int) : List String → Nat → List Column
  | [], _ => []
  | title :: rest, i =>
    ⟨title, (minWidths.get? i).getD 10⟩ :: fallbackColumns minWidths rest (i + 1)

/-- The columns scaled down from the minimum widths, floored at 8. -/
def shrinkColumns {T : Type} (env : Env T) (availableWidth totalMinWidth : Int) :
    List String → List Int → List Column
  | title :: titles, w :: minWidths =>
    let width := env.scaleWidth w availableWidth totalMinWidth
    ⟨title, if width < 8 then 8 else width⟩ :: shrinkColumns env availableWidth totalMinWidth titles minWidths
  | _, _ => []

/-- The columns grown beyond the preferred widths; the remainder goes to the
leading columns. -/
def growColumns (extraPerColumn remainder : Int) :
    List String → List Int → Nat → List Column
  | title :: titles, w :: preferredWidths, i =>
    ⟨title, if (i : Int) < remainder then w + extraPerColumn + 1 else w + extraPerColumn⟩ ::
      growColumns extraPerColumn remainder titles preferredWidths (i + 1)
  | _, _, _ => []

/-- The columns scaled down from the preferred widths, floored at the
minimum of each column. -/
def fitColumns {T : Type} (env : Env T) (availableWidth totalPreferredWidth : Int) :
    List String → List Int → List Int → List Column
  | title :: titles, lo :: minWidths, w :: preferredWidths =>
    let width := env.scaleWidth w availableWidth totalPreferredWidth
    ⟨title, if width < lo then lo else width⟩ ::
      fitColumns env availableWidth totalPreferredWidth titles minWidths preferredWidths
  | _, _, _ => []

/-- Distributes the available width over the columns.  With no column and a
non-negative width the integer division by `len(titles)` panics. -/
def distributeColumnWidths {T : Type} (env : Env T) (titles : List String)
    (minWidths preferredWidths : List Int) (availableWidth : Int) : Option (List Column) :=
  if titles.length ≠ minWidths.length ∨ titles.length ≠ preferredWidths.length then
    some (fallbackColumns minWidths titles 0)
  else
    let totalMinWidth := minWidths.sum
    if availableWidth < totalMinWidth then
      some (shrinkColumns env availableWidth totalMinWidth titles minWidths)
    else
      let totalPreferredWidth := preferredWidths.sum
      if availableWidth ≥ totalPreferredWidth then
        if titles.length = 0 then none
        else
          let extraSpace := availableWidth - totalPreferredWidth
          let extraPerColumn := Int.tdiv extraSpace titles.length
          let remainder := Int.tmod extraSpace titles.length
          some (growColumns extraPerColumn remainder titles preferredWidths 0)
      else
        some (fitColumns env availableWidth totalPreferredWidth titles minWidths preferredWidths)

/-- Column widths of the container table. -/
def calculateContainerColumnWidths {T : Type} (env : Env T) (availableWidth : Int) :
    Option (List Column) :=
  distributeColumnWidths env ["ID", "Names", "Image", "Command", "Created", "Status", "Ports"]
    [12, 15, 15, 15, 15, 15, 15] [12, 30, 25, 16, 20, 25, 20] availableWidth

/-- Column widths of the image table. -/
def calculateImageColumnWidths {T : Type} (env : Env T) (availableWidth : Int) :
    Option (List Column) :=
  distributeColumnWidths env ["Repository", "Tag", "Image ID", "Created", "Size"]
    [15, 10, 12, 15, 10] [30, 15, 12, 16, 12] availableWidth

/-- Column widths of the network table. -/
def calculateNetworkColumnWidths {T : Type} (env : Env T) (availableWidth : Int) :
    Option (List Column) :=
  distributeColumnWidths env ["ID", "Name", "Driver", "Scope", "Created"]
    [12, 15, 10, 8, 15] [12, 25, 15, 10, 16] availableWidth

/-- Column widths of the volume table. -/
def calculateVolumeColumnWidths {T : Type} (env : Env T) (availableWidth : Int) :
    Option (List Column) :=
  distributeColumnWidths env ["Name", "Driver", "Mountpoint", "Created"]
    [15, 10, 20, 15] [25, 15, 40, 16] availableWidth

/-! ## dialog.go, help.go, model.go: the state -/

/-- The confirmation dialog. -/
structure ConfirmationDialog where
  message : String
  width : Int
  height : Int
  visible : Bool
deriving DecidableEq, Repr

/-- A dialog with a message, visible from the start. -/
def NewConfirmationDialog (message : String) : ConfirmationDialog :=
  { message := message, width := 0, height := 0, visible := true }

/-- Sets the size of the dialog. -/
def ConfirmationDialog.SetSize (c : ConfirmationDialog) (width height : Int) :
    ConfirmationDialog :=
  { c with width := width, height := height }

/-- Shows the dialog. -/
def ConfirmationDialog.Show (c : ConfirmationDialog) : ConfirmationDialog :=
  { c with visible := true }

/-- Hides the dialog. -/
def ConfirmationDialog.Hide (c : ConfirmationDialog) : ConfirmationDialog :=
  { c with visible := false }

/-- Whether the dialog is visible. -/
def ConfirmationDialog.IsVisible (c : ConfirmationDialog) : Bool :=
  c.visible

/-- The help screen. -/
structure HelpView where
  width : Int
  height : Int
deriving DecidableEq, Repr

/-- Sets the size of the help screen. -/
def HelpView.SetSize (_h : HelpView) (width height : Int) : HelpView :=
  { width := width, height := height }

/-- The container table adapter: the library table and the row states. -/
structure ContainerTable (T : Type) where
  table : T
  containerStates : List String
deriving DecidableEq, Repr

/-- The state of the program.  The adapters for images, networks and volumes
hold nothing but their library table.  `tickerStopped` is the state of the
refresh ticker; `theme` is the palette in the global `Colors`, from which
`AppStyles`, `m.styles` and the table styles are built. -/
structure Model (T : Type) where
  currentView : ViewMode
  containerTable : ContainerTable T
  imageTable : T
  networkTable : T
  volumeTable : T
  containers : List Container
  images : List Image
  networks : List Network
  volumes : List Volume
  containerGroups : List ContainerGroup
  groupByCompose : Bool
  selectedGroup : Int
  selectedInGroup : Int
  width : Int
  height : Int
  ready : Bool
  status : String
  err : Option String
  tickerStopped : Bool
  keys : KeyMap
  helpView : HelpView
  showHelp : Bool
  confirmDialog : Option ConfirmationDialog
  pendingAction : Option PendingAction
  theme : Theme
deriving DecidableEq, Repr

variable {T : Type}

/-- The condition `m.confirmDialog != nil && m.confirmDialog.IsVisible()`. -/
def Model.dialogVisible (m : Model T) : Bool :=
  match m.confirmDialog with
  | some d => d.IsVisible
  | none => false

/-- The statement `m.confirmDialog.Hide()`. -/
def Model.hideDialog (m : Model T) : Model T :=
  { m with confirmDialog := m.confirmDialog.map ConfirmationDialog.Hide }

/-- The model `NewModel` builds; `stop` is the binding of the stop key. -/
def NewModel (env : Env T) (stop : Binding) : Model T where
  currentView := ContainersView
  containerTable :=
    { table := env.tableSetStyles (env.tableNew
        [⟨"ID", 12⟩, ⟨"Names", 20⟩, ⟨"Image", 30⟩, ⟨"Command", 20⟩, ⟨"Created", 15⟩,
          ⟨"Status", 20⟩, ⟨"Ports", 25⟩]) Theme.default
      containerStates := [] }
  imageTable := env.tableSetStyles (env.tableNew
    [⟨"Repository", 30⟩, ⟨"Tag", 15⟩, ⟨"Image ID", 12⟩, ⟨"Created", 15⟩, ⟨"Size", 12⟩])
    Theme.default
  networkTable := env.tableSetStyles (env.tableNew
    [⟨"ID", 12⟩, ⟨"Name", 20⟩, ⟨"Driver", 15⟩, ⟨"Scope", 10⟩, ⟨"Created", 15⟩]) Theme.default
  volumeTable := env.tableSetStyles (env.tableNew
    [⟨"Name", 25⟩, ⟨"Driver", 15⟩, ⟨"Mountpoint", 40⟩, ⟨"Created", 15⟩]) Theme.default
  containers := []
  images := []
  networks := []
  volumes := []
  containerGroups := []
  groupByCompose := false
  selectedGroup := 0
  selectedInGroup := 0
  width := 0
  height := 0
  ready := false
  status := ""
  err := none
  tickerStopped := false
  keys := DefaultKeyMap stop
  helpView := { width := 0, height := 0 }
  showHelp := false
  confirmDialog := none
  pendingAction := none
  theme := Theme.default

/-- The theme setters: the global palette changes and every table gets the
styles of the new palette. -/
def Model.SetTheme (env : Env T) (m : Model T) (colors : Theme) : Model T :=
  { m with
    theme := colors
    containerTable := { m.containerTable with table := env.tableSetStyles m.containerTable.table colors }
    imageTable := env.tableSetStyles m.imageTable colors
    networkTable := env.tableSetStyles m.networkTable colors
    volumeTable := env.tableSetStyles m.volumeTable colors }

/-! ## container_table.go and the other table adapters -/

/-- Icon and status text of a container. -/
def StyleContainerStatusText (status state : String) : String :=
  if state = "running" then "\xE2\x9C\x93 " ++ status else "\xE2\x9C\x97 " ++ status

/-- The joined names of a container without the leading slash. -/
def containerNames (c : Container) : String :=
  let names := joinStrings c.Names ", "
  match names.data with
  | '/' :: rest => ⟨rest⟩
  | _ => names

/-- The row of a container in flat mode; `ID[:12]` panics on a short id. -/
def flatRow (env : Env T) (c : Container) : Option Row :=
  (sliceTo c.ID 12).map fun id =>
    [id, containerNames c, c.Image, c.Command, env.formatUnix c.Created,
      StyleContainerStatusText c.Status c.State, formatPorts c.Ports]

/-- Rebuilds the rows of the container table in flat mode. -/
def updateFlat (env : Env T) (m : Model T) : Option (Model T) :=
  (mapOpt (flatRow env) m.containers).map fun rows =>
    { m with containerTable :=
        { table := env.tableSetRows m.containerTable.table rows
          containerStates := m.containers.map (fun c => c.State) } }

/-- Summary status of a group. -/
def getGroupStatus (group : ContainerGroup) : String :=
  if group.Containers.length = 0 then ""
  else
    let running := (group.Containers.filter (fun c => c.State = "running")).length
    let total := group.Containers.length
    if running = total then toString running ++ "/" ++ toString total ++ " running"
    else if running = 0 then toString (total - running) ++ "/" ++ toString total ++ " stopped"
    else toString running ++ "/" ++ toString total ++ " running"

/-- The port strings `getGroupPorts` puts into its set, in order of visit. -/
def groupPortStrings (group : ContainerGroup) : List String :=
  (group.Containers.flatMap fun c =>
    (c.Ports.filter (fun p => p.PublicPort ≠ 0)).map fun p =>
      toString p.PublicPort ++ "->" ++ toString p.PrivatePort)

/-- Summary of the published ports of a group: the distinct port strings,
sorted, at most three of them spelled out. -/
def getGroupPorts (group : ContainerGroup) : String :=
  let ports := sortSlice (fun a b => decide (a < b)) (groupPortStrings group).dedup
  if ports.length = 0 then ""
  else if ports.length > 3 then
    joinStrings (ports.take 3) ", " ++ "... (" ++ toString ports.length ++ " ports)"
  else joinStrings ports ", "

/-- The header row of a group. -/
def groupHeaderRow (group : ContainerGroup) : Row :=
  ["", "\xF0\x9F\x93\x81 " ++ group.Name ++ " (" ++ toString group.Containers.length ++ " containers)",
    "", "", getGroupStatus group, getGroupPorts group, ""]

/-- The row of a container inside a group; `ID[:12]` panics on a short id. -/
def groupedRow (env : Env T) (c : Container) : Option Row :=
  (sliceTo c.ID 12).map fun id =>
    ["  " ++ id, " |" ++ containerNames c, "  " ++ c.Image, "  " ++ c.Command,
      "  " ++ env.formatUnix c.Created, "  " ++ StyleContainerStatusText c.Status c.State,
      "  " ++ formatPorts c.Ports]

/-- The rows of one group: its header, then its containers. -/
def groupRows (env : Env T) (group : ContainerGroup) : Option (List Row) :=
  (mapOpt (groupedRow env) group.Containers).map fun rows => groupHeaderRow group :: rows

/-- The row states of one group. -/
def groupStates (group : ContainerGroup) : List String :=
  "group" :: group.Containers.map (fun c => c.State)

/-- Rebuilds the rows of the container table in grouped mode. -/
def updateGrouped (env : Env T) (m : Model T) : Option (Model T) :=
  (mapOpt (groupRows env) m.containerGroups).map fun rows =>
    { m with containerTable :=
        { table := env.tableSetRows m.containerTable.table rows.flatten
          containerStates := (m.containerGroups.map groupStates).flatten } }

/-- Recomputes the groups from the current containers. -/
def UpdateContainerGroups (m : Model T) : Option (Model T) :=
  (groupContainersByCompose m.containers).map fun groups => { m with containerGroups := groups }

/-- Method `Update` of the container table adapter. -/
def ContainerTable.Update (env : Env T) (m : Model T) : Option (Model T) :=
  if m.groupByCompose then (UpdateContainerGroups m).bind (updateGrouped env)
  else updateFlat env m

/-- The row of an image; `ID[7:19]` panics on a short id. -/
def imageRow (env : Env T) (img : Image) : Option Row :=
  let parts : String × String :=
    match img.RepoTags with
    | first :: _ => if first ≠ "<none>:<none>" then parseRepoTag first else ("<none>", "<none>")
    | [] => ("<none>", "<none>")
  (sliceBetween img.ID 7 19).map fun id =>
    [parts.1, parts.2, id, env.formatUnix img.Created, formatSize env img.Size]

/-- Method `Update` of the image table adapter. -/
def ImageTable.Update (env : Env T) (m : Model T) : Option (Model T) :=
  (mapOpt (imageRow env) m.images).map fun rows =>
    { m with imageTable := env.tableSetRows m.imageTable rows }

/-- The row of a network; `ID[:12]` panics on a short id. -/
def networkRow (env : Env T) (net : Network) : Option Row :=
  let created := match net.Created with
    | some t => env.formatTime t
    | none => ""
  (sliceTo net.ID 12).map fun id => [id, net.Name, net.Driver, net.Scope, created]

/-- Method `Update` of the network table adapter. -/
def NetworkTable.Update (env : Env T) (m : Model T) : Option (Model T) :=
  (mapOpt (networkRow env) m.networks).map fun rows =>
    { m with networkTable := env.tableSetRows m.networkTable rows }

/-- The row of a volume; `CreatedAt[:16]` panics on a short non-empty date. -/
def volumeRow (vol : Volume) : Option Row :=
  let created := if vol.CreatedAt ≠ "" then sliceTo vol.CreatedAt 16 else some ""
  created.map fun created => [vol.Name, vol.Driver, vol.Mountpoint, created]

/-- Method `Update` of the volume table adapter. -/
def VolumeTable.Update (env : Env T) (m : Model T) : Option (Model T) :=
  (mapOpt volumeRow m.volumes).map fun rows =>
    { m with volumeTable := env.tableSetRows m.volumeTable rows }

/-- Indexing a slice with a cursor, as the `GetSelected...` methods of the
flat adapters do: `cursor >= 0 && cursor < len(xs)`. -/
def selectAt {α : Type} (xs : List α) (cursor : Int) : Option α :=
  if cursor ≥ 0 ∧ cursor < xs.length then xs.get? cursor.toNat else none

/-- Selected container in flat mode. -/
def getSelectedContainerFlat (env : Env T) (m : Model T) : Option Container :=
  selectAt m.containers (env.tableCursor m.containerTable.table)

/-- Selected container in grouped mode; a header row selects none. -/
def getSelectedContainerGrouped (env : Env T) (m : Model T) : Option Container :=
  let cursor := env.tableCursor m.containerTable.table
  if cursor < 0 then none else scanGroupsForContainer cursor m.containerGroups 0

/-- The currently selected container, if any. -/
def GetSelectedContainer (env : Env T) (m : Model T) : Option Container :=
  if m.groupByCompose then getSelectedContainerGrouped env m else getSelectedContainerFlat env m

/-- The currently selected image, if any. -/
def GetSelectedImage (env : Env T) (m : Model T) : Option Image :=
  selectAt m.images (env.tableCursor m.imageTable)

/-- The currently selected network, if any. -/
def GetSelectedNetwork (env : Env T) (m : Model T) : Option Network :=
  selectAt m.networks (env.tableCursor m.networkTable)

/-- The currently selected volume, if any. -/
def GetSelectedVolume (env : Env T) (m : Model T) : Option Volume :=
  selectAt m.volumes (env.tableCursor m.volumeTable)

/-- Group index, container index and header flag of the cursor row in
grouped mode. -/
def getSelectedItem (env : Env T) (m : Model T) : Int × Int × Bool :=
  if !m.groupByCompose || m.containerGroups.length = 0 then (-1, -1, false)
  else scanGroups (env.tableCursor m.containerTable.table) m.containerGroups 0 0

/-- The group of the cursor row. -/
def getSelectedGroup (env : Env T) (m : Model T) : Option ContainerGroup :=
  let groupIdx := (getSelectedItem env m).1
  if groupIdx ≥ 0 ∧ groupIdx < m.containerGroups.length then m.containerGroups.get? groupIdx.toNat
  else none

/-- The container of the cursor row, by way of `getSelectedItem`. -/
def getSelectedContainer (env : Env T) (m : Model T) : Option Container :=
  let item := getSelectedItem env m
  if item.2.2 ∨ item.1 < 0 ∨ item.2.1 < 0 then none
  else
    match m.containerGroups.get? item.1.toNat with
    | some group => if item.2.1 < group.Containers.length then group.Containers.get? item.2.1.toNat else none
    | none => none

/-! ## update.go: the event handler -/

/-- The view after the current one, for the tab key. -/
def Model.nextView (m : Model T) : Model T :=
  match m.currentView with
  | ContainersView => { m with currentView := ImagesView }
  | ImagesView => { m with currentView := NetworksView }
  | NetworksView => { m with currentView := VolumesView }
  | VolumesView => { m with currentView := ContainersView }
  | _ => m

/-- Sets the columns of the four tables from the terminal width. -/
def updateColumnWidths (env : Env T) (m : Model T) : Option (Model T) := do
  let availableWidth := m.width - 4
  let containerColumns ← calculateContainerColumnWidths env availableWidth
  let imageColumns ← calculateImageColumnWidths env availableWidth
  let networkColumns ← calculateNetworkColumnWidths env availableWidth
  let volumeColumns ← calculateVolumeColumnWidths env availableWidth
  pure { m with
    containerTable :=
      { m.containerTable with table := env.tableSetColumns m.containerTable.table containerColumns }
    imageTable := env.tableSetColumns m.imageTable imageColumns
    networkTable := env.tableSetColumns m.networkTable networkColumns
    volumeTable := env.tableSetColumns m.volumeTable volumeColumns }

/-- Sets the height and the columns of the four tables from the terminal size. -/
def updateTableSizes (env : Env T) (m : Model T) : Option (Model T) :=
  if m.height ≤ 0 ∨ m.width ≤ 0 then some m
  else
    let tableHeight := if m.height - 10 < 5 then 5 else m.height - 10
    updateColumnWidths env { m with
      containerTable :=
        { m.containerTable with table := env.tableSetHeight m.containerTable.table tableHeight }
      imageTable := env.tableSetHeight m.imageTable tableHeight
      networkTable := env.tableSetHeight m.networkTable tableHeight
      volumeTable := env.tableSetHeight m.volumeTable tableHeight }

/-- The statements that arm the dialog: a new dialog with the message, sized
to the terminal and shown. -/
def Model.armDialog (m : Model T) (message : String) : Model T :=
  let dialog := ((NewConfirmationDialog message).SetSize m.width m.height).Show
  { m with confirmDialog := some dialog }

/-- The delete key: a message and a pending action for the selected row of
the current view, and the dialog if there is a selection. -/
def showDeleteConfirmation (env : Env T) (m : Model T) : Option (Model T) :=
  match m.currentView with
  | ContainersView =>
    match GetSelectedContainer env m with
    | some container =>
      (sliceTo container.ID 12).map fun id =>
        { m with pendingAction := some (.deleteContainer container) }.armDialog
          ("Are you sure you want to delete container \x27" ++ id ++ "\x27?")
    | none => some m
  | ImagesView =>
    match GetSelectedImage env m with
    | some img =>
      let repoTag := match img.RepoTags with
        | first :: _ => first
        | [] => "<none>:<none>"
      some ({ m with pendingAction := some (.deleteImage img) }.armDialog
        ("Are you sure you want to delete image \x27" ++ repoTag ++ "\x27?"))
    | none => some m
  | NetworksView =>
    match GetSelectedNetwork env m with
    | some net =>
      some ({ m with pendingAction := some (.deleteNetwork net) }.armDialog
        ("Are you sure you want to delete network \x27" ++ net.Name ++ "\x27?"))
    | none => some m
  | VolumesView =>
    match GetSelectedVolume env m with
    | some vol =>
      some ({ m with pendingAction := some (.deleteVolume vol) }.armDialog
        ("Are you sure you want to delete volume \x27" ++ vol.Name ++ "\x27?"))
    | none => some m
  | _ => some m

/-- The stop key on the containers view: a status line for a container that
is already stopped, otherwise the dialog and the pending stop. -/
def showStopConfirmation (env : Env T) (m : Model T) : Option (Model T) :=
  match GetSelectedContainer env m with
  | some container =>
    if stringsContains (env.toLower container.Status) "exited" ||
        stringsContains (env.toLower container.Status) "created" then
      (sliceTo container.ID 12).map fun id =>
        { m with status := "Container " ++ id ++ " is already stopped" }
    else
      (sliceTo container.ID 12).map fun id =>
        let armed := m.armDialog ("Are you sure you want to stop container \x27" ++ id ++ "\x27?")
        { armed with pendingAction := some (.stopContainer container) }
  | none => some m

/-- The clock in the layout `15:04:05`. -/
def formatClock (now : Clock) : String :=
  let two (n : Nat) : String := if n < 10 then "0" ++ toString n else toString n
  two now.hour ++ ":" ++ two now.minute ++ ":" ++ two now.second

/-- A successful fetch: the four lists are replaced, the four adapters are
rebuilt, the status line carries the time and the error is cleared. -/
def handleDataRefresh (env : Env T) (now : Clock) (m : Model T)
    (containers : List Container) (images : List Image) (networks : List Network)
    (volumes : List Volume) : Option (Model T) := do
  let m1 := { m with
    containers := containers, images := images, networks := networks, volumes := volumes }
  let m2 ← ContainerTable.Update env m1
  let m3 ← ImageTable.Update env m2
  let m4 ← NetworkTable.Update env m3
  let m5 ← VolumeTable.Update env m4
  pure { m5 with status := "Last updated: " ++ formatClock now, err := none }

/-- The branch of `Update` for a key while the dialog is visible: confirm
runs and clears the pending action and hides the dialog, cancel hides and
clears, any other key does nothing; the function returns at once. -/
def confirmKey (m : Model T) (k : String) : Model T × List Cmd :=
  if k = "y" ∨ k = "Y" then
    match m.pendingAction with
    | some action => ({ m with pendingAction := none }.hideDialog, [action.run])
    | none => (m.hideDialog, [])
  else if k = "n" ∨ k = "N" ∨ k = "esc" then
    ({ m.hideDialog with pendingAction := none }, [])
  else (m, [])

/-- How a branch of the message switch of `Update` ends: with a `return`, or
by falling through to the table update at the end of `Update`. -/
inductive Branch (T : Type)
  | returned (m : Model T) (cmd : List Cmd)
  | next (m : Model T) (cmds : List Cmd)

/-- The key switch of `Update` when no dialog is visible, in source order. -/
def keySwitch (env : Env T) (m : Model T) (k : String) : Option (Branch T) :=
  if keyMatches k m.keys.Quit then
    some (.returned { m with tickerStopped := true } [.quit])
  else if keyMatches k m.keys.Tab then some (.next m.nextView [])
  else if keyMatches k m.keys.Containers then some (.next { m with currentView := ContainersView } [])
  else if keyMatches k m.keys.Images then some (.next { m with currentView := ImagesView } [])
  else if keyMatches k m.keys.Networks then some (.next { m with currentView := NetworksView } [])
  else if keyMatches k m.keys.Volumes then some (.next { m with currentView := VolumesView } [])
  else if keyMatches k m.keys.Refresh then some (.next m [.refreshData])
  else if keyMatches k m.keys.Delete then
    (showDeleteConfirmation env m).map fun m1 => .next m1 []
  else if keyMatches k m.keys.Stop then
    if m.currentView = ContainersView then (showStopConfirmation env m).map fun m1 => .next m1 []
    else some (.next m [])
  else if keyMatches k m.keys.Help then some (.next { m with showHelp := !m.showHelp } [])
  else if keyMatches k m.keys.Logs then
    if m.currentView = ContainersView then some (.next m [.showLogs]) else some (.next m [])
  else if keyMatches k m.keys.ThemeDefault then some (.next (m.SetTheme env Theme.default) [])
  else if keyMatches k m.keys.ThemeDark then some (.next (m.SetTheme env Theme.dark) [])
  else if keyMatches k m.keys.ThemeLight then some (.next (m.SetTheme env Theme.light) [])
  else if keyMatches k m.keys.GroupToggle then
    if m.currentView = ContainersView then
      (ContainerTable.Update env { m with groupByCompose := !m.groupByCompose }).map fun m1 =>
        .next m1 []
    else some (.next m [])
  else if keyMatches k m.keys.GroupStop then
    if m.currentView = ContainersView ∧ m.groupByCompose = true then
      match getSelectedGroup env m with
      | some group => some (.next m [.stopGroup group])
      | none => some (.next m [])
    else some (.next m [])
  else if keyMatches k m.keys.GroupStart then
    if m.currentView = ContainersView ∧ m.groupByCompose = true then
      match getSelectedGroup env m with
      | some group => some (.next m [.startGroup group])
      | none => some (.next m [])
    else some (.next m [])
  else if keyMatches k m.keys.GroupDelete then
    if m.currentView = ContainersView ∧ m.groupByCompose = true then
      match getSelectedGroup env m with
      | some group =>
        let armed := m.armDialog ("Are you sure you want to delete the entire compose stack \x27" ++
          group.Name ++ "\x27? This will remove all containers, networks, volumes, and images.")
        some (.next { armed with pendingAction := some (.deleteGroup group) } [])
      | none => some (.next m [])
    else some (.next m [])
  else some (.next m [])

/-- The message switch of `Update`. -/
def msgSwitch (env : Env T) (now : Clock) (m : Model T) : Msg → Option (Branch T)
  | .windowSize width height =>
    (updateTableSizes env { m with width := width, height := height, ready := true }).map fun m1 =>
      .next { m1 with helpView := m1.helpView.SetSize width height } []
  | .tick => some (.next m [.refreshData, .tick 5])
  | .key k =>
    if m.dialogVisible then
      let r := confirmKey m k
      some (.returned r.1 r.2)
    else keySwitch env m k
  | .dataRefreshed containers images networks volumes =>
    (handleDataRefresh env now m containers images networks volumes).map fun m1 => .next m1 []
  | .error err => some (.next { m with err := some err, status := "" } [])
  | .status text => some (.next { m with status := text, err := none } [])
  | .other _ => some (.next m [])

/-- The end of `Update`: unless the dialog is visible, the message goes to
the table of the current view, and the command of the table, if any, joins
the commands. -/
def passToTable (env : Env T) (m : Model T) (msg : Msg) (cmds : List Cmd) : Model T × List Cmd :=
  if m.dialogVisible then (m, cmds)
  else
    let tail (cmd : Option Nat) : List Cmd :=
      match cmd with
      | some tag => cmds ++ [.table tag]
      | none => cmds
    match m.currentView with
    | ContainersView =>
      let r := env.tableUpdate m.containerTable.table msg
      ({ m with containerTable := { m.containerTable with table := r.1 } }, tail r.2)
    | ImagesView =>
      let r := env.tableUpdate m.imageTable msg
      ({ m with imageTable := r.1 }, tail r.2)
    | NetworksView =>
      let r := env.tableUpdate m.networkTable msg
      ({ m with networkTable := r.1 }, tail r.2)
    | VolumesView =>
      let r := env.tableUpdate m.volumeTable msg
      ({ m with volumeTable := r.1 }, tail r.2)
    | _ => (m, cmds)

/-- The event handler: the new model and the commands batched into the
returned command; `none` when the handler panics.  `now` is the reading of
the clock during the call. -/
def Update (env : Env T) (now : Clock) (m : Model T) (msg : Msg) : Option (Model T × List Cmd) :=
  (msgSwitch env now m msg).map fun
    | .returned m1 cmd => (m1, cmd)
    | .next m1 cmds => passToTable env m1 msg cmds

/-- The commands of `Init`: the first refresh and the first tick. -/
def Init : List Cmd :=
  [.refreshData, .tick 1]

/-! ## Rendering -/

/-- Renders the dialog. -/
def ConfirmationDialog.Render (env : Env T) (theme : Theme) (c : ConfirmationDialog) : String :=
  if !c.visible then ""
  else
    let content := c.message ++ "\n\nPress \x27y\x27 to confirm, \x27n\x27 to cancel"
    let dialog := env.render theme StyleId.dialog (some 60) content
    if c.width > 0 ∧ c.height > 0 then env.place c.width c.height dialog else dialog

/-- Renders one section of the help screen. -/
def renderSection (env : Env T) (theme : Theme) (title : String) (items : List String) : String :=
  env.render theme StyleId.subtitle none title ++ "\n" ++
    String.join (items.map fun item => "  " ++ item ++ "\n") ++ "\n"

/-- Renders the help screen. -/
def HelpView.Render (env : Env T) (theme : Theme) (h : HelpView) : String :=
  env.render theme StyleId.helpTitle (some h.width) "Docker TUI - Help" ++ "\n\n" ++
  renderSection env theme "General Navigation"
    ["\xE2\x86\x91/k, \xE2\x86\x93/j         Navigate up/down in tables",
      "\xE2\x86\x90/h, \xE2\x86\x92/l         Navigate left/right (future use)",
      "Tab              Switch between views",
      "1-4              Jump directly to view (1=Containers, 2=Images, 3=Networks, 4=Volumes)",
      "r, Ctrl+R        Refresh data",
      "q, Ctrl+C        Quit application",
      "?                Show/hide this help"] ++
  renderSection env theme "Container Management"
    ["d                Delete selected container (with confirmation)",
      "g                Toggle grouping by Docker Compose project",
      "L                View logs for selected container (coming soon)",
      "Enter            Inspect selected container (coming soon)",
      "s                Start/stop selected container (coming soon)"] ++
  renderSection env theme "Image Management"
    ["d                Delete selected image (with confirmation)",
      "Enter            Inspect selected image (coming soon)",
      "p                Pull new image (coming soon)"] ++
  renderSection env theme "Network Management"
    ["d                Delete selected network (with confirmation)",
      "Enter            Inspect selected network (coming soon)",
      "n                Create new network (coming soon)"] ++
  renderSection env theme "Volume Management"
    ["d                Delete selected volume (with confirmation)",
      "Enter            Inspect selected volume (coming soon)",
      "v                Create new volume (coming soon)"] ++
  renderSection env theme "Features"
    ["\xE2\x80\xA2 Real-time updates every 5 seconds",
      "\xE2\x80\xA2 Color-coded status indicators",
      "\xE2\x80\xA2 Keyboard-driven navigation (like k9s)",
      "\xE2\x80\xA2 Resource management (containers, images, networks, volumes)",
      "\xE2\x80\xA2 Safety confirmations for destructive operations"] ++
  "\n" ++ env.render theme StyleId.helpFooter (some h.width) "Press ? to close help"

/-- The row loop of the view of the container table: header, blank and
border lines pass, every other line is styled by the state of its row. -/
def styleLines (env : Env T) (theme : Theme) : List String → Nat → List String → List String
  | [], _, _ => []
  | line :: rest, i, states =>
    if i = 0 ∨ i = 1 ∨ env.isBlank line = true ∨ stringsContains line "\xE2\x94\x80" = true ∨
        stringsContains line "\xE2\x94\x82" = true then
      line :: styleLines env theme rest (i + 1) states
    else
      match states with
      | state :: more =>
        (if state = "running" then line
          else if state = "exited" then env.render theme StyleId.textMuted none line
          else if state = "group" then line
          else env.render theme StyleId.textError none line) ::
          styleLines env theme rest (i + 1) more
      | [] => line :: styleLines env theme rest (i + 1) []

/-- The view of the container table. -/
def ContainerTable.View (env : Env T) (theme : Theme) (ct : ContainerTable T) : String :=
  joinStrings (styleLines env theme (splitLines (env.tableView ct.table)) 0 ct.containerStates) "\n"

/-- The header: the title and the tab strip. -/
def renderHeader (env : Env T) (m : Model T) : String :=
  let tabs := [ContainersView, ImagesView, NetworksView, VolumesView].map fun view =>
    env.render m.theme (if view = m.currentView then StyleId.tabActive else StyleId.tabInactive)
      none (viewNames view)
  env.render m.theme StyleId.title none
      ("Docker TUI (Beta v0.1.0 - Bugs are expected) - " ++
        "Made by github.com/ngnhng, \xC2\xA9MIT License") ++
    "\n\n" ++ joinStrings tabs " \xE2\x94\x82 "

/-- The footer: the key legend and the status or error line. -/
def renderFooter (env : Env T) (m : Model T) : String :=
  let help : List String :=
    match m.currentView with
    | ContainersView =>
      ["1-4: switch views", "\xE2\x86\x91/\xE2\x86\x93: navigate", "r: refresh", "g: group toggle",
        "ctrl+s: stop", "d: delete", "L: logs", "q: quit"] ++
      (if m.groupByCompose then
        ["[grouped by compose]", "s: stop group", "S: start group", "D: delete group"]
      else [])
    | _ =>
      ["1-4: switch views", "\xE2\x86\x91/\xE2\x86\x93: navigate", "r: refresh", "d: delete", "q: quit"]
  let helpText := env.render m.theme StyleId.textMuted none (joinStrings help " \xE2\x80\xA2 ")
  let status := if m.status ≠ "" then env.render m.theme StyleId.statusInfo none m.status else ""
  let status := match m.err with
    | some err => env.render m.theme StyleId.textError none ("Error: " ++ err)
    | none => status
  helpText ++ "\n" ++ status

/-- The frame: the loading text until the first resize, the help screen
while it is toggled on, else the dialog if it is visible, else header, table
and footer. -/
def Model.View (env : Env T) (m : Model T) : String :=
  if !m.ready then "Loading..."
  else if m.showHelp then m.helpView.Render env m.theme
  else
    let body := match m.currentView with
      | ContainersView => ContainerTable.View env m.theme m.containerTable
      | ImagesView => env.tableView m.imageTable
      | NetworksView => env.tableView m.networkTable
      | VolumesView => env.tableView m.volumeTable
      | LogsView => "Container logs view (coming soon)"
      | HelpViewMode => ""
    let view := renderHeader env m ++ "\n\n" ++ body ++ "\n\n" ++ renderFooter env m
    match m.confirmDialog with
    | some d => if d.IsVisible then d.Render env m.theme else view
    | none => view

/-! ## The refresh command -/

/-- The runtime client as the refresh command uses it: four list calls, each
reading and changing the world `W`, each returning a list or an error. -/
structure DockerClient (W : Type) where
  /-- `ContainerList` with the option `All`. -/
  ContainerList : Bool → W → Except String (List Container) × W
  ImageList : W → Except String (List Image) × W
  NetworkList : W → Except String (List Network) × W
  /-- `VolumeList`, projected to the field `Volumes` of its response. -/
  VolumeList : W → Except String (List Volume) × W

/-- Running the command `refreshData` returns: the message it produces and
the world after its calls. -/
def refreshData {W : Type} (client : DockerClient W) (w : W) : Msg × W :=
  match client.ContainerList true w with
  | (.error err, w1) => (.error err, w1)
  | (.ok containers, w1) =>
    match client.ImageList w1 with
    | (.error err, w2) => (.error err, w2)
    | (.ok images, w2) =>
      match client.NetworkList w2 with
      | (.error err, w3) => (.error err, w3)
      | (.ok networks, w3) =>
        match client.VolumeList w3 with
        | (.error err, w4) => (.error err, w4)
        | (.ok volumes, w4) => (.dataRefreshed containers images networks volumes, w4)

/-- The list calls of the runtime client. -/
inductive ApiCall
  | containerList (all : Bool)
  | imageList
  | networkList
  | volumeList
deriving DecidableEq, Repr

/-- A client that answers each list call with a fixed result and writes the
call into a log. -/
def scriptedClient (containers : Except String (List Container))
    (images : Except String (List Image)) (networks : Except String (List Network))
    (volumes : Except String (List Volume)) : DockerClient (List ApiCall) where
  ContainerList all log := (containers, log ++ [.containerList all])
  ImageList log := (images, log ++ [.imageList])
  NetworkList log := (networks, log ++ [.networkList])
  VolumeList log := (volumes, log ++ [.volumeList])

/-! ## Runs of the state machine -/

/-- The handler applied to a sequence of messages, all at the same clock
reading; the commands of the steps are dropped. -/
def runEvents (env : Env T) (now : Clock) : Model T → List Msg → Option (Model T)
  | m, [] => some m
  | m, msg :: rest =>
    match Update env now m msg with
    | some r => runEvents env now r.1 rest
    | none => none

/-- The states the program reaches from `NewModel`. -/
inductive Reachable (env : Env T) (stop : Binding) : Model T → Prop
  | init : Reachable env stop (NewModel env stop)
  | step {m m1 : Model T} {cmds : List Cmd} (now : Clock) (msg : Msg) :
      Reachable env stop m → Update env now m msg = some (m1, cmds) → Reachable env stop m1

/-! ## A concrete environment

For evaluating the handler on concrete inputs: a table that keeps its rows
and a cursor and moves the cursor on the navigation keys as the bubbles table
does, rendering without styles, and integer stand-ins for the float and time
functions. -/

/-- A table of the concrete environment. -/
structure PlainTable where
  cursor : Int
  rows : List Row
  height : Int
  columns : List Column
  styles : Theme
deriving DecidableEq, Repr

/-- The library function `clamp(v, low, high) = min(max(v, low), high)`. -/
def clamp (v low high : Int) : Int :=
  min (max v low) high

/-- The cursor of a plain table moved by `n` rows (negative: upwards). -/
def PlainTable.move (t : PlainTable) (n : Int) : PlainTable :=
  { t with cursor := clamp (t.cursor + n) 0 (t.rows.length - 1) }

/-- The key handling of a plain table: line, page, half-page, top, bottom. -/
def PlainTable.update (t : PlainTable) : Msg → PlainTable
  | .key k =>
    if k = "up" ∨ k = "k" then t.move (-1)
    else if k = "down" ∨ k = "j" then t.move 1
    else if k = "b" ∨ k = "pgup" then t.move (-t.height)
    else if k = "f" ∨ k = "pgdown" ∨ k = " " then t.move t.height
    else if k = "u" ∨ k = "ctrl+u" then t.move (-(Int.tdiv t.height 2))
    else if k = "d" ∨ k = "ctrl+d" then t.move (Int.tdiv t.height 2)
    else if k = "home" ∨ k = "g" then { t with cursor := clamp 0 0 (t.rows.length - 1) }
    else if k = "end" ∨ k = "G" then
      { t with cursor := clamp (t.rows.length - 1) 0 (t.rows.length - 1) }
    else t
  | _ => t

/-- ASCII lower case of one byte. -/
def lowerChar (c : Char) : Char :=
  if 'A' ≤ c ∧ c ≤ 'Z' then Char.ofNat (c.toNat + 32) else c

/-- The concrete environment. -/
def plainEnv : Env PlainTable where
  tableNew cols := { cursor := 0, rows := [], height := 10, columns := cols, styles := Theme.default }
  tableCursor t := t.cursor
  tableUpdate t msg := (t.update msg, none)
  tableSetRows t rows := { t with rows := rows }
  tableSetHeight t h := { t with height := h }
  tableSetColumns t cols := { t with columns := cols }
  tableSetStyles t theme := { t with styles := theme }
  tableView t := joinStrings (t.rows.map fun row => joinStrings row " ") "\n"
  render _ _ _ text := text
  place _ _ text := text
  formatUnix sec := toString sec
  formatTime t := toString t
  scaleWidth w avail total := Int.tdiv (w * avail) total
  formatTenths size unit := toString (Int.tdiv size unit)
  toLower s := ⟨s.data.map lowerChar⟩
  isBlank s := s.data.all fun c => c = ' ' ∨ c = '\t' ∨ c = '\n' ∨ c = '\r'

/-- A clock reading for the examples. -/
def noon : Clock :=
  { hour := 12, minute := 0, second := 0 }

/-- A running container without labels, for the examples. -/
def sampleContainer : Container where
  ID := "abc123456789"
  Names := ["/web"]
  Image := "nginx"
  Command := "nginx"
  Created := 0
  Ports := []
  Labels := []
  State := "running"
  Status := "Up 2 hours"

/-- A fetch result with the sample container and nothing else. -/
def sampleRefresh : Msg :=
  .dataRefreshed [sampleContainer] [] [] []

/-- The initial model of the examples: the stop key is `ctrl+s`, as the
footer of the containers view announces it. -/
def startModel : Model PlainTable :=
  NewModel plainEnv ["ctrl+s"]

/-- The sample model after a fetch and the delete key: the dialog is armed
for the sample container. -/
def armedModel : Model PlainTable :=
  (runEvents plainEnv noon startModel [sampleRefresh, .key "d"]).getD startModel

/-- The model of a branch of the message switch. -/
def Branch.model : Branch T → Model T
  | .returned m _ => m
  | .next m _ => m

/-- The commands of a branch of the message switch. -/
def Branch.cmds : Branch T → List Cmd
  | .returned _ cmd => cmd
  | .next _ cmds => cmds

/-- The fetch results whose records the four adapters can project to rows:
ids long enough for the slices `ID[:12]` and `ID[7:19]`, creation dates of
volumes empty or long enough for `CreatedAt[:16]`, and, in grouped mode, a
first name on every container for the sort inside the groups. -/
def rowsProjectable (grouped : Bool) (containers : List Container) (images : List Image)
    (networks : List Network) (volumes : List Volume) : Prop :=
  (∀ c ∈ containers, 12 ≤ c.ID.length) ∧ (∀ i ∈ images, 19 ≤ i.ID.length) ∧
    (∀ n ∈ networks, 12 ≤ n.ID.length) ∧
    (∀ v ∈ volumes, v.CreatedAt = "" ∨ 16 ≤ v.CreatedAt.length) ∧
    (grouped = true → ∀ c ∈ containers, c.Names ≠ [])

/-- A fetch result whose only container has an id of three bytes. -/
def shortIdRefresh : List Container :=
  [{ sampleContainer with ID := "abc" }]

/-- The sample model after a fetch and the group toggle: grouped mode, the
cursor on the header of the only group. -/
def groupedModel : Model PlainTable :=
  (runEvents plainEnv noon startModel [sampleRefresh, .key "g"]).getD startModel

/-- The only group of the grouped sample model. -/
def sampleGroup : ContainerGroup :=
  { Name := "Standalone Containers", Containers := [sampleContainer] }

/-- The rows of the grouped container table as cursor targets, in the order
`updateGrouped` lays them out: `none` for the header of a group, then its
containers. -/
def rowTargets (groups : List ContainerGroup) : List (Option Container) :=
  groups.flatMap fun g => none :: g.Containers.map some

/-- A cursor that selects no element of a list: the list is empty or the
cursor lies outside it. -/
def cursorOutside {α : Type} (xs : List α) (cursor : Int) : Prop :=
  xs = [] ∨ cursor < 0 ∨ cursor ≥ xs.length

/-- The cursor of the current view resolves to no target: on one of the four
resource views, the list of the view is empty or the cursor lies outside it,
or, on the grouped containers view, the cursor row is the header of a group. -/
def noTarget (env : Env T) (m : Model T) : Prop :=
  match m.currentView with
  | ContainersView =>
    if m.groupByCompose = true then
      cursorOutside (rowTargets m.containerGroups) (env.tableCursor m.containerTable.table) ∨
        (rowTargets m.containerGroups).get? (env.tableCursor m.containerTable.table).toNat =
          some none
    else cursorOutside m.containers (env.tableCursor m.containerTable.table)
  | ImagesView => cursorOutside m.images (env.tableCursor m.imageTable)
  | NetworksView => cursorOutside m.networks (env.tableCursor m.networkTable)
  | VolumesView => cursorOutside m.volumes (env.tableCursor m.volumeTable)
  | _ => False

/-- The sample model after a resize, a fetch, the help key and the delete
key: the help screen is on and the dialog is armed. -/
def helpArmedModel : Model PlainTable :=
  (runEvents plainEnv noon startModel
    [.windowSize 80 24, sampleRefresh, .key "?", .key "d"]).getD startModel

/-! ## The action commands -/

/-- Go `container.RemoveOptions`. -/
structure RemoveOptions where
  RemoveVolumes : Bool
  RemoveLinks : Bool
  Force : Bool
deriving DecidableEq, Repr

/-- Go `api.DownOptions` of the stack client, as far as the program sets it. -/
structure DownOptions where
  RemoveOrphans : Bool
  Volumes : Bool
  Images : String
deriving DecidableEq, Repr

/-- The runtime client and the stack client as the pending actions use them:
each call reads and changes the world `W` and returns an error or nothing.
`ImageRemove` takes the flag `Force` of its options, `VolumeRemove` its
`force` argument, `ContainerStop` the timeout in seconds, `ComposeDown` the
project name and the options of the tear-down. -/
structure DockerActions (W : Type) where
  ContainerRemove : String → RemoveOptions → W → Option String × W
  ImageRemove : String → Bool → W → Option String × W
  NetworkRemove : String → W → Option String × W
  VolumeRemove : String → Bool → W → Option String × W
  ContainerStop : String → Int → W → Option String × W
  ComposeDown : String → DownOptions → W → Option String × W

/-- Running the command `deleteContainer` returns: the forced removal by the
full id, then the error message or the status message with `ID[:12]`. -/
def deleteContainer {W : Type} (client : DockerActions W) (cont : Container) (w : W) :
    Option (Msg × W) :=
  match client.ContainerRemove cont.ID
      { RemoveVolumes := false, RemoveLinks := false, Force := true } w with
  | (some err, w1) => some (.error err, w1)
  | (none, w1) =>
    (sliceTo cont.ID 12).map fun id => (.status ("Container " ++ id ++ " deleted"), w1)

/-- Running the command `deleteImage` returns. -/
def deleteImage {W : Type} (client : DockerActions W) (img : Image) (w : W) :
    Option (Msg × W) :=
  match client.ImageRemove img.ID true w with
  | (some err, w1) => some (.error err, w1)
  | (none, w1) =>
    (sliceTo img.ID 12).map fun id => (.status ("Image " ++ id ++ " deleted"), w1)

/-- Running the command `deleteNetwork` returns. -/
def deleteNetwork {W : Type} (client : DockerActions W) (net : Network) (w : W) : Msg × W :=
  match client.NetworkRemove net.ID w with
  | (some err, w1) => (.error err, w1)
  | (none, w1) => (.status ("Network " ++ net.Name ++ " deleted"), w1)

/-- Running the command `deleteVolume` returns. -/
def deleteVolume {W : Type} (client : DockerActions W) (vol : Volume) (w : W) : Msg × W :=
  match client.VolumeRemove vol.Name true w with
  | (some err, w1) => (.error err, w1)
  | (none, w1) => (.status ("Volume " ++ vol.Name ++ " deleted"), w1)

/-- Running the command `stopContainer` returns: the stop with a timeout of
30 seconds. -/
def stopContainer {W : Type} (client : DockerActions W) (cont : Container) (w : W) :
    Option (Msg × W) :=
  match client.ContainerStop cont.ID 30 w with
  | (some err, w1) => some (.error err, w1)
  | (none, w1) =>
    (sliceTo cont.ID 12).map fun id => (.status ("Container " ++ id ++ " stopped"), w1)

/-- Running the command `deleteGroup` returns: the tear-down of the stack
named like the group, with orphans, volumes and all images. -/
def deleteGroup {W : Type} (client : DockerActions W) (group : ContainerGroup) (w : W) :
    Msg × W :=
  match client.ComposeDown group.Name
      { RemoveOrphans := true, Volumes := true, Images := "all" } w with
  | (some err, w1) => (.error err, w1)
  | (none, w1) => (.status ("Compose stack \x27" ++ group.Name ++ "\x27 deleted"), w1)

/-- Running the command a pending action returned: `none` is a panic. -/
def PendingAction.exec {W : Type} (client : DockerActions W) :
    PendingAction → W → Option (Msg × W)
  | .deleteContainer c, w => DockerStatus.deleteContainer client c w
  | .deleteImage i, w => DockerStatus.deleteImage client i w
  | .deleteNetwork n, w => some (DockerStatus.deleteNetwork client n w)
  | .deleteVolume v, w => some (DockerStatus.deleteVolume client v w)
  | .stopContainer c, w => DockerStatus.stopContainer client c w
  | .deleteGroup g, w => some (DockerStatus.deleteGroup client g w)

/-- The action calls of the runtime client and of the stack client. -/
inductive ActionCall
  | containerRemove (id : String) (options : RemoveOptions)
  | imageRemove (id : String) (force : Bool)
  | networkRemove (id : String)
  | volumeRemove (name : String) (force : Bool)
  | containerStop (id : String) (timeout : Int)
  | composeDown (project : String) (options : DownOptions)
deriving DecidableEq, Repr

/-- A client that answers every action call with the same result and writes
the call into a log. -/
def scriptedActions (result : Option String) : DockerActions (List ActionCall) where
  ContainerRemove id options log := (result, log ++ [.containerRemove id options])
  ImageRemove id force log := (result, log ++ [.imageRemove id force])
  NetworkRemove id log := (result, log ++ [.networkRemove id])
  VolumeRemove name force log := (result, log ++ [.volumeRemove name force])
  ContainerStop id timeout log := (result, log ++ [.containerStop id timeout])
  ComposeDown project options log := (result, log ++ [.composeDown project options])

/-- The sample model after a fetch: flat mode, the cursor on the sample
container, no dialog. -/
def loadedModel : Model PlainTable :=
  (runEvents plainEnv noon startModel [sampleRefresh]).getD startModel

/-- A container of the compose project `web` in the given state. -/
def webContainer (id name state : String) : Container where
  ID := id
  Names := [name]
  Image := "nginx"
  Command := "nginx"
  Created := 0
  Ports := []
  Labels := [("com.docker.compose.project", "web"), ("com.docker.compose.service", name)]
  State := state
  Status := state

/-- What a row of the grouped container table shows: the header of a group
or a container of a group. -/
inductive RowSource
  | header (g : ContainerGroup)
  | member (c : Container)
deriving DecidableEq, Repr

/-- The container a row stands for; a header row stands for none. -/
def RowSource.container : RowSource → Option Container
  | .header _ => none
  | .member c => some c

/-- The row flattening of `updateGrouped`: per group its header, then its
containers. -/
def rowSources (groups : List ContainerGroup) : List RowSource :=
  groups.flatMap fun g => .header g :: g.Containers.map .member

/-- The table row `updateGrouped` builds for a row source. -/
def renderRowSource (env : Env T) : RowSource → Option Row
  | .header g => some (groupHeaderRow g)
  | .member c => groupedRow env c

/-- The containers of the grouping scenario: two of the project `web`, one
running and one exited, and the sample container, which has no labels. -/
def scenarioContainers : List Container :=
  [webContainer "0123456789abcdef" "/api" "running",
    webContainer "fedcba9876543210" "/db" "exited", sampleContainer]

/-- Two containers of the project `web` that have no name, and the sample
container. -/
def namelessWebContainers : List Container :=
  [{ webContainer "0123456789abcdef" "/api" "running" with Names := [] },
    { webContainer "fedcba9876543210" "/db" "exited" with Names := [] }, sampleContainer]

/-! ## Float arithmetic of the column layout

Go `float64` is IEEE 754 binary64.  A finite float is written `m * 2^e` with
integers `m` and `e`; every operation rounds its exact result to 53
significant bits, to nearest, ties to even.  Values stay far from the
overflow and underflow thresholds when the operands come from 64-bit
integers, so those are not modelled. -/

/-- A finite float `mant * 2^exp`. -/
structure F64 where
  mant : Int
  exp : Int
deriving DecidableEq, Repr

/-- Scales the fraction `n / d` by powers of two until it lies in
`[2^52, 2^53)`; returns the scaled fraction and the exponent taken out. -/
def f64Normalize : Nat → Nat → Nat → Int → Nat × Nat × Int
  | 0, n, d, e => (n, d, e)
  | fuel + 1, n, d, e =>
    if n < d * 4503599627370496 then f64Normalize fuel (2 * n) d (e - 1)
    else if d * 9007199254740992 ≤ n then f64Normalize fuel n (2 * d) (e + 1)
    else (n, d, e)

/-- The integer nearest to `n / d`, ties to even. -/
def roundHalfEven (n d : Nat) : Nat :=
  if 2 * (n % d) < d then n / d
  else if d < 2 * (n % d) then n / d + 1
  else if (n / d) % 2 = 0 then n / d
  else n / d + 1

/-- The float nearest to `(num / den) * 2^e`, for `den > 0`. -/
def f64Round (num : Int) (den : Nat) (e : Int) : F64 :=
  if num = 0 then ⟨0, 0⟩
  else
    let r := f64Normalize 2200 num.natAbs den e
    let m : Int := roundHalfEven r.1 r.2.1
    ⟨if num < 0 then -m else m, r.2.2⟩

/-- Go `float64(x)` of an integer. -/
def f64OfInt (x : Int) : F64 :=
  f64Round x 1 0

/-- Go `a / b` on floats, for `b` other than zero. -/
def f64Div (a b : F64) : F64 :=
  f64Round (if b.mant < 0 then -a.mant else a.mant) b.mant.natAbs (a.exp - b.exp)

/-- Go `a * b` on floats. -/
def f64Mul (a b : F64) : F64 :=
  f64Round (a.mant * b.mant) 1 (a.exp + b.exp)

/-- Go `int(x)` of a float: truncation towards zero. -/
def f64ToInt (x : F64) : Int :=
  if 0 ≤ x.exp then x.mant * 2 ^ x.exp.toNat else Int.tdiv x.mant (2 ^ (-x.exp).toNat)

/-- The expression `int(float64(w) * scale)` with
`scale := float64(avail) / float64(total)`, for `total` other than zero. -/
def ieeeScaleWidth (w avail total : Int) : Int :=
  f64ToInt (f64Mul (f64OfInt w) (f64Div (f64OfInt avail) (f64OfInt total)))

/-- The concrete environment with the float arithmetic of the language in
place of its integer stand-in. -/
def ieeeEnv : Env PlainTable :=
  { plainEnv with scaleWidth := ieeeScaleWidth }

/-! ## What a handler leaves alone -/

/-- The fields of the model that no resize, no status line and no table
adapter writes: the container list, the groups, the grouping flag, the
dialog, the pending action, the palette and the key map agree in `m` and
`m1`. -/
def Model.sameCore (m m1 : Model T) : Prop :=
  m1.containers = m.containers ∧ m1.containerGroups = m.containerGroups ∧
    m1.groupByCompose = m.groupByCompose ∧ m1.confirmDialog = m.confirmDialog ∧
    m1.pendingAction = m.pendingAction ∧ m1.theme = m.theme ∧ m1.keys = m.keys

/-- The stored groups are the groups of the stored containers whenever
grouping is on. -/
def Model.groupsCurrent (m : Model T) : Prop :=
  m.groupByCompose = true → groupContainersByCompose m.containers = some m.containerGroups

/-- The dialog is visible exactly when a pending action is set. -/
def Model.gateConsistent (m : Model T) : Prop :=
  m.dialogVisible = m.pendingAction.isSome

/-- What a key does to the core fields when no dialog is visible: nothing; or
it arms the dialog and sets a pending action; or it is a key of the grouping
toggle, flips the flag and, when grouping is now on, stores the groups of
the containers; or it sets a palette, the dark and the light one only when
the case of the default palette and the view switch with the same digit did
not take the key. -/
def Model.keyStep (m : Model T) (k : String) (m1 : Model T) : Prop :=
  m.sameCore m1 ∨
  (m1.dialogVisible = true ∧ m1.pendingAction.isSome = true ∧
    m.sameCore { m1 with confirmDialog := m.confirmDialog, pendingAction := m.pendingAction }) ∨
  (keyMatches k m.keys.GroupToggle = true ∧ m1.groupByCompose = !m.groupByCompose ∧
    m.sameCore { m1 with groupByCompose := m.groupByCompose, containerGroups := m.containerGroups } ∧
    (m1.groupByCompose = true →
      groupContainersByCompose m1.containers = some m1.containerGroups) ∧
    (m1.groupByCompose = false → m1.containerGroups = m.containerGroups)) ∨
  (m.sameCore { m1 with theme := m.theme } ∧
    (m1.theme = Theme.default ∨
      (m1.theme = Theme.dark ∧ keyMatches k m.keys.ThemeDark = true ∧
        keyMatches k m.keys.Images = false ∧ keyMatches k m.keys.ThemeDefault = false) ∨
      (m1.theme = Theme.light ∧ keyMatches k m.keys.ThemeLight = true ∧
        keyMatches k m.keys.Networks = false ∧ keyMatches k m.keys.ThemeDefault = false)))

/-- What an event does to the core fields: nothing; or it is a key with no
dialog visible and does what `keyStep` says; or it is a key with the dialog
visible that hides the dialog and clears the pending action; or it is a
fetch result, which replaces the containers and, when grouping is on, stores
their groups. -/
def Model.eventStep (m : Model T) (msg : Msg) (m1 : Model T) : Prop :=
  m.sameCore m1 ∨
  (∃ k, msg = .key k ∧ m.dialogVisible = false ∧ m.keyStep k m1) ∨
  (∃ k, msg = .key k ∧ m.dialogVisible = true ∧ m1.dialogVisible = false ∧
    m1.pendingAction = none ∧
    m.sameCore { m1 with confirmDialog := m.confirmDialog, pendingAction := m.pendingAction }) ∨
  (∃ cs is ns vs, msg = .dataRefreshed cs is ns vs ∧ m1.containers = cs ∧
    m.sameCore { m1 with containers := m.containers, containerGroups := m.containerGroups } ∧
    (m1.groupByCompose = true → groupContainersByCompose cs = some m1.containerGroups) ∧
    (m1.groupByCompose = false → m1.containerGroups = m.containerGroups))

/-! ## Rows and values for the statements -/

/-- The group each row of the grouped container table belongs to, in the
order of `rowSources`: per group one entry for its header and one for each
of its containers. -/
def rowOwners (groups : List ContainerGroup) : List ContainerGroup :=
  groups.flatMap fun g => List.replicate (g.Containers.length + 1) g

/-- The rational value `mant * 2^exp` of a float. -/
def F64.val (x : F64) : ℚ :=
  x.mant * (2 : ℚ) ^ x.exp

/-! # Theorems -/

/-! ## The confirmation gate -/

theorem update_key_dialog (env : Env T) (now : Clock) (m : Model T) (k : String)
    (hv : m.dialogVisible = true) :
    Update env now m (.key k) = some (confirmKey m k) := by
  simp [Update, msgSwitch, hv]

theorem hideDialog_not_visible (m : Model T) : m.hideDialog.dialogVisible = false := by
  unfold Model.hideDialog Model.dialogVisible
  cases m.confirmDialog <;> simp [ConfirmationDialog.Hide, ConfirmationDialog.IsVisible]

/-- C2: while the dialog is visible, a key other than y, Y, n, N and esc
leaves the whole model as it is (view mode, grouping flag, help flag,
snapshot, tables and their cursors, pending action, dialog) and emits no
command. -/
theorem dialog_swallows_other_keys (env : Env T) (now : Clock) (m : Model T) (k : String)
    (hv : m.dialogVisible = true) (hk : k ∉ ["y", "Y", "n", "N", "esc"]) :
    Update env now m (.key k) = some (m, []) := by
  simp only [List.mem_cons, List.mem_singleton, List.not_mem_nil, or_false, not_or] at hk
  rw [update_key_dialog env now m k hv]
  simp [confirmKey, hk]

theorem dialog_swallows_other_keys_witness :
    armedModel.dialogVisible = true ∧
      Update plainEnv noon armedModel (.key "q") = some (armedModel, []) :=
  ⟨by decide, dialog_swallows_other_keys plainEnv noon armedModel "q" (by decide) (by decide)⟩

theorem passToTable_cmds (env : Env T) (m : Model T) (msg : Msg) (cmds : List Cmd) (c : Cmd)
    (hc : c ∈ (passToTable env m msg cmds).2) : c ∈ cmds ∨ ∃ tag, c = .table tag := by
  unfold passToTable at hc
  split at hc
  · exact Or.inl hc
  · split at hc <;> first
      | exact Or.inl hc
      | (dsimp only at hc
         split at hc
         · rcases List.mem_append.1 hc with h | h
           · exact Or.inl h
           · exact Or.inr ⟨_, List.mem_singleton.1 h⟩
         · exact Or.inl hc)

theorem keySwitch_confirm_key (env : Env T) (m : Model T) (stop : Binding) (k : String)
    (hkeys : m.keys = DefaultKeyMap stop) (hk : k = "y" ∨ k = "Y") :
    keySwitch env m k =
      if keyMatches k stop then
        if m.currentView = ContainersView then
          (showStopConfirmation env m).map fun m1 => .next m1 []
        else some (.next m [])
      else some (.next m []) := by
  unfold keySwitch
  rw [hkeys]
  rcases hk with rfl | rfl <;> simp [keyMatches, DefaultKeyMap]

/-- C4: with the dialog visible and a pending action set, a confirm key (y
or Y) makes `Update` return exactly the command of the pending action, once,
with the pending action cleared and the dialog hidden; a second confirm key
right after it emits no action command, and `Update` does return on it
whenever the stop binding holds no confirm key.  The key map is the default
one, the only one the program ever installs. -/
theorem confirm_runs_pending_action_once (env : Env T) (now : Clock) (m : Model T)
    (stop : Binding) (action : PendingAction) (k k2 : String)
    (hkeys : m.keys = DefaultKeyMap stop)
    (hv : m.dialogVisible = true) (hp : m.pendingAction = some action)
    (hk : k = "y" ∨ k = "Y") (hk2 : k2 = "y" ∨ k2 = "Y") :
    ∃ m1, Update env now m (.key k) = some (m1, [action.run]) ∧
      m1.pendingAction = none ∧ m1.dialogVisible = false ∧
      (∀ m2 cmds, Update env now m1 (.key k2) = some (m2, cmds) →
        ∀ c ∈ cmds, c.isAction = false) ∧
      (k2 ∉ stop → ∃ m2 cmds, Update env now m1 (.key k2) = some (m2, cmds)) := by
  have hnv : ({ m with pendingAction := none } : Model T).hideDialog.dialogVisible = false :=
    hideDialog_not_visible _
  have hkeys1 : ({ m with pendingAction := none } : Model T).hideDialog.keys = DefaultKeyMap stop :=
    hkeys
  have hsw := keySwitch_confirm_key env _ stop k2 hkeys1 hk2
  refine ⟨{ m with pendingAction := none }.hideDialog, ?_, rfl, hnv, ?_, ?_⟩
  · rw [update_key_dialog env now m k hv]
    simp [confirmKey, hk, hp]
  · intro m2 cmds h c hc
    have hnone : ∀ b, keySwitch env ({ m with pendingAction := none } : Model T).hideDialog k2 = some b →
        b = .next b.model [] := by
      intro b hb
      rw [hsw] at hb
      split_ifs at hb
      · rcases Option.map_eq_some'.1 hb with ⟨m3, -, rfl⟩
        rfl
      · cases hb
        rfl
      · cases hb
        rfl
    simp only [Update, msgSwitch, hnv, Bool.false_eq_true, if_false] at h
    rcases Option.map_eq_some'.1 h with ⟨b, hb, hres⟩
    rw [hnone b hb] at hres
    dsimp only at hres
    have hc2 : c ∈ (passToTable env b.model (.key k2) []).2 := by
      rw [hres]
      exact hc
    rcases passToTable_cmds env _ _ _ c hc2 with h1 | ⟨tag, rfl⟩
    · cases h1
    · rfl
  · intro hnot
    have hm : keyMatches k2 stop = false := by
      simpa [keyMatches] using hnot
    simp only [Update, msgSwitch, hnv, Bool.false_eq_true, if_false]
    rw [hsw, hm]
    exact ⟨_, _, rfl⟩

theorem confirm_runs_pending_action_once_witness :
    ∃ m1, Update plainEnv noon armedModel (.key "y") =
        some (m1, [(PendingAction.deleteContainer sampleContainer).run]) ∧
      m1.pendingAction = none ∧ m1.dialogVisible = false ∧
      (∀ m2 cmds, Update plainEnv noon m1 (.key "Y") = some (m2, cmds) →
        ∀ c ∈ cmds, c.isAction = false) ∧
      ("Y" ∉ ["ctrl+s"] → ∃ m2 cmds, Update plainEnv noon m1 (.key "Y") = some (m2, cmds)) :=
  confirm_runs_pending_action_once plainEnv noon armedModel ["ctrl+s"]
    (.deleteContainer sampleContainer) "y" "Y" (by decide) (by decide) (by decide)
    (by decide) (by decide)

/-- C5: with the dialog visible, a cancel key (n, N or esc) hides the dialog,
drops the pending action without running it, emits no command and leaves
the four resource lists as they were. -/
theorem cancel_discards_pending_action (env : Env T) (now : Clock) (m : Model T) (k : String)
    (hv : m.dialogVisible = true) (hk : k = "n" ∨ k = "N" ∨ k = "esc") :
    ∃ m1, Update env now m (.key k) = some (m1, []) ∧
      m1.dialogVisible = false ∧ m1.pendingAction = none ∧
      m1.containers = m.containers ∧ m1.images = m.images ∧
      m1.networks = m.networks ∧ m1.volumes = m.volumes := by
  refine ⟨{ m.hideDialog with pendingAction := none }, ?_, hideDialog_not_visible m,
    rfl, rfl, rfl, rfl, rfl⟩
  rw [update_key_dialog env now m k hv]
  rcases hk with rfl | rfl | rfl <;> simp [confirmKey]

theorem cancel_discards_pending_action_witness :
    armedModel.pendingAction = some (.deleteContainer sampleContainer) ∧
    ∃ m1, Update plainEnv noon armedModel (.key "n") = some (m1, []) ∧
      m1.dialogVisible = false ∧ m1.pendingAction = none ∧
      m1.containers = armedModel.containers ∧ m1.images = armedModel.images ∧
      m1.networks = armedModel.networks ∧ m1.volumes = armedModel.volumes :=
  ⟨by decide,
    cancel_discards_pending_action plainEnv noon armedModel "n" (by decide) (Or.inl rfl)⟩

/-! ## Events that are not keys -/

theorem passToTable_frame (env : Env T) (m : Model T) (msg : Msg) (cmds : List Cmd) :
    let m1 := (passToTable env m msg cmds).1
    m1.containers = m.containers ∧ m1.images = m.images ∧ m1.networks = m.networks ∧
      m1.volumes = m.volumes ∧ m1.containerGroups = m.containerGroups ∧ m1.err = m.err ∧
      m1.status = m.status ∧ m1.currentView = m.currentView ∧
      m1.confirmDialog = m.confirmDialog ∧ m1.pendingAction = m.pendingAction ∧
      m1.groupByCompose = m.groupByCompose ∧ m1.keys = m.keys := by
  unfold passToTable
  split
  · simp
  · split <;> simp

/-- C8: an error event, from a failed refresh or a failed action, leaves the
containers, images, networks and volumes and the container groups as they
were, stores the delivered error and clears the status message. -/
theorem error_event_keeps_snapshot (env : Env T) (now : Clock) (m : Model T) (err : String) :
    ∃ m1 cmds, Update env now m (.error err) = some (m1, cmds) ∧
      m1.containers = m.containers ∧ m1.images = m.images ∧ m1.networks = m.networks ∧
      m1.volumes = m.volumes ∧ m1.containerGroups = m.containerGroups ∧
      m1.err = some err ∧ m1.status = "" := by
  obtain ⟨h1, h2, h3, h4, h5, h6, h7, -⟩ :=
    passToTable_frame env { m with err := some err, status := "" } (.error err) []
  exact ⟨_, _, rfl, h1, h2, h3, h4, h5, h6, h7⟩

/-! ## The refresh command -/

/-- C9: the refresh command is all-or-nothing.  Against a client that
answers the four list calls with fixed results and logs them, the command
returns the data message with the four fetched lists when all four succeed,
having called containers, images, networks, volumes in this order; when a
call fails it returns the error message with the error of the first failing
call, and the log ends with that call: no later fetch is issued.  The data
message comes back exactly when all four calls succeed; an error message
carries no list. -/
theorem refresh_all_or_nothing (rc : Except String (List Container))
    (ri : Except String (List Image)) (rn : Except String (List Network))
    (rv : Except String (List Volume)) (log : List ApiCall) :
    (∀ cs is ns vs, rc = .ok cs → ri = .ok is → rn = .ok ns → rv = .ok vs →
      refreshData (scriptedClient rc ri rn rv) log =
        (.dataRefreshed cs is ns vs,
          log ++ [.containerList true, .imageList, .networkList, .volumeList])) ∧
    (∀ e, rc = .error e →
      refreshData (scriptedClient rc ri rn rv) log = (.error e, log ++ [.containerList true])) ∧
    (∀ cs e, rc = .ok cs → ri = .error e →
      refreshData (scriptedClient rc ri rn rv) log =
        (.error e, log ++ [.containerList true, .imageList])) ∧
    (∀ cs is e, rc = .ok cs → ri = .ok is → rn = .error e →
      refreshData (scriptedClient rc ri rn rv) log =
        (.error e, log ++ [.containerList true, .imageList, .networkList])) ∧
    (∀ cs is ns e, rc = .ok cs → ri = .ok is → rn = .ok ns → rv = .error e →
      refreshData (scriptedClient rc ri rn rv) log =
        (.error e, log ++ [.containerList true, .imageList, .networkList, .volumeList])) ∧
    ((∃ cs is ns vs, (refreshData (scriptedClient rc ri rn rv) log).1 =
        .dataRefreshed cs is ns vs) ↔
      (rc.isOk = true ∧ ri.isOk = true ∧ rn.isOk = true ∧ rv.isOk = true)) := by
  refine ⟨?_, ?_, ?_, ?_, ?_, ?_⟩
  · rintro cs is ns vs rfl rfl rfl rfl
    simp [refreshData, scriptedClient]
  · rintro e rfl
    simp [refreshData, scriptedClient]
  · rintro cs e rfl rfl
    simp [refreshData, scriptedClient]
  · rintro cs is e rfl rfl rfl
    simp [refreshData, scriptedClient]
  · rintro cs is ns e rfl rfl rfl rfl
    simp [refreshData, scriptedClient]
  · rcases rc with e1 | cs <;> rcases ri with e2 | is <;> rcases rn with e3 | ns <;>
      rcases rv with e4 | vs <;>
      simp [refreshData, scriptedClient, Except.isOk, Except.toBool]

theorem refresh_all_or_nothing_witness :
    refreshData (scriptedClient (.ok [sampleContainer]) (.error "images down") (.ok []) (.ok []))
        [] = (.error "images down", [.containerList true, .imageList]) :=
  (refresh_all_or_nothing (.ok [sampleContainer]) (.error "images down") (.ok []) (.ok [])
    []).2.2.1 [sampleContainer] "images down" rfl rfl

/-! ## Loops, sorting and grouping: membership -/

theorem mapOpt_isSome {α β : Type} (f : α → Option β) (l : List α)
    (h : ∀ x ∈ l, ∃ y, f x = some y) : ∃ l1, mapOpt f l = some l1 := by
  induction l with
  | nil => exact ⟨[], rfl⟩
  | cons a rest ih =>
    obtain ⟨b, hb⟩ := h a (List.mem_cons_self a rest)
    obtain ⟨bs, hbs⟩ := ih (fun x hx => h x (List.mem_cons_of_mem a hx))
    exact ⟨b :: bs, by simp [mapOpt, hb, hbs]⟩

theorem mapOpt_mem {α β : Type} (f : α → Option β) (l : List α) (l1 : List β)
    (h : mapOpt f l = some l1) : ∀ y ∈ l1, ∃ x ∈ l, f x = some y := by
  induction l generalizing l1 with
  | nil =>
    simp only [mapOpt, Option.some.injEq] at h
    subst h
    intro y hy
    cases hy
  | cons a rest ih =>
    unfold mapOpt at h
    split at h
    · cases h
    · rename_i b hb
      rcases Option.map_eq_some'.1 h with ⟨bs, hbs, rfl⟩
      intro y hy
      rcases List.mem_cons.1 hy with rfl | hy
      · exact ⟨a, List.mem_cons_self a rest, hb⟩
      · obtain ⟨x, hx, hfx⟩ := ih bs hbs y hy
        exact ⟨x, List.mem_cons_of_mem a hx, hfx⟩

theorem insertBack_mem {α : Type} (less : α → α → Bool) (x y : α) (l : List α) :
    y ∈ insertBack less x l ↔ y = x ∨ y ∈ l := by
  induction l with
  | nil => simp [insertBack]
  | cons z zs ih =>
    unfold insertBack
    split
    · simp only [List.mem_cons, ih]
      tauto
    · simp only [List.mem_cons]

theorem foldl_insertBack_mem {α : Type} (less : α → α → Bool) (y : α) (l acc : List α) :
    y ∈ l.foldl (fun sorted x => insertBack less x sorted) acc ↔ y ∈ l ∨ y ∈ acc := by
  induction l generalizing acc with
  | nil => simp
  | cons a rest ih =>
    simp only [List.foldl_cons, ih, insertBack_mem, List.mem_cons]
    tauto

theorem sortSlice_mem {α : Type} (less : α → α → Bool) (y : α) (l : List α) :
    y ∈ sortSlice less l ↔ y ∈ l := by
  simp [sortSlice, foldl_insertBack_mem]

theorem groupInsert_mem (name : String) (c : Container) (groups : List (String × List Container))
    (e : String × List Container) (he : e ∈ groupInsert name c groups) (x : Container)
    (hx : x ∈ e.2) : x = c ∨ ∃ e1 ∈ groups, x ∈ e1.2 := by
  induction groups with
  | nil =>
    simp only [groupInsert, List.mem_singleton] at he
    subst he
    exact Or.inl (List.mem_singleton.1 hx)
  | cons g rest ih =>
    obtain ⟨n, cs⟩ := g
    unfold groupInsert at he
    split at he
    · rcases List.mem_cons.1 he with rfl | he
      · rcases List.mem_append.1 hx with h | h
        · exact Or.inr ⟨(n, cs), List.mem_cons_self _ _, h⟩
        · exact Or.inl (List.mem_singleton.1 h)
      · exact Or.inr ⟨e, List.mem_cons_of_mem _ he, hx⟩
    · rcases List.mem_cons.1 he with rfl | he
      · exact Or.inr ⟨(n, cs), List.mem_cons_self _ _, hx⟩
      · rcases ih he with h | ⟨e1, he1, h⟩
        · exact Or.inl h
        · exact Or.inr ⟨e1, List.mem_cons_of_mem _ he1, h⟩

theorem foldl_groupInsert_mem (containers : List Container)
    (groups : List (String × List Container)) (e : String × List Container)
    (he : e ∈ containers.foldl (fun gs c => groupInsert (getComposeProjectName c) c gs) groups)
    (x : Container) (hx : x ∈ e.2) : x ∈ containers ∨ ∃ e1 ∈ groups, x ∈ e1.2 := by
  induction containers generalizing groups with
  | nil => exact Or.inr ⟨e, he, hx⟩
  | cons c rest ih =>
    rcases ih _ he with h | ⟨e1, he1, h⟩
    · exact Or.inl (List.mem_cons_of_mem c h)
    · rcases groupInsert_mem _ c groups e1 he1 x h with rfl | h2
      · exact Or.inl (List.mem_cons_self _ _)
      · exact Or.inr h2

theorem buildGroups_mem (containers : List Container) (e : String × List Container)
    (he : e ∈ buildGroups containers) (x : Container) (hx : x ∈ e.2) : x ∈ containers := by
  rcases foldl_groupInsert_mem containers [] e he x hx with h | ⟨e1, he1, -⟩
  · exact h
  · cases he1

theorem sortGroupContainers_mem (cs cs1 : List Container) (h : sortGroupContainers cs = some cs1)
    (x : Container) (hx : x ∈ cs1) : x ∈ cs := by
  unfold sortGroupContainers at h
  split_ifs at h
  · cases h
    exact hx
  · cases h
    exact (sortSlice_mem _ _ _).1 hx

theorem sortGroupContainers_isSome (cs : List Container) (h : ∀ c ∈ cs, c.Names ≠ []) :
    ∃ cs1, sortGroupContainers cs = some cs1 := by
  unfold sortGroupContainers
  split_ifs with h1 h2
  · exact ⟨_, rfl⟩
  · exact ⟨_, rfl⟩
  · exfalso
    apply h2
    rw [List.all_eq_true]
    intro c hc
    have := h c hc
    cases hn : c.Names with
    | nil => exact absurd hn this
    | cons a b => rfl

theorem groupContainersByCompose_mem (containers : List Container) (groups : List ContainerGroup)
    (h : groupContainersByCompose containers = some groups) (g : ContainerGroup) (hg : g ∈ groups)
    (x : Container) (hx : x ∈ g.Containers) : x ∈ containers := by
  unfold groupContainersByCompose groupsFromEntries at h
  rcases Option.map_eq_some'.1 h with ⟨gs, hgs, rfl⟩
  have hg1 : g ∈ gs := (sortSlice_mem _ _ _).1 hg
  obtain ⟨e, he, hfe⟩ := mapOpt_mem _ _ _ hgs g hg1
  rcases Option.map_eq_some'.1 hfe with ⟨cs1, hcs1, rfl⟩
  exact buildGroups_mem containers e he x (sortGroupContainers_mem _ _ hcs1 x hx)

theorem groupContainersByCompose_isSome (containers : List Container)
    (h : ∀ c ∈ containers, c.Names ≠ []) :
    ∃ groups, groupContainersByCompose containers = some groups := by
  unfold groupContainersByCompose groupsFromEntries
  have h1 : ∃ gs, mapOpt (fun e : String × List Container =>
      (sortGroupContainers e.2).map (fun cs => ContainerGroup.mk e.1 cs))
      (buildGroups containers) = some gs := by
    apply mapOpt_isSome
    intro e he
    obtain ⟨cs1, hcs1⟩ := sortGroupContainers_isSome e.2
      (fun c hc => h c (buildGroups_mem containers e he c hc))
    exact ⟨_, by rw [hcs1]; rfl⟩
  obtain ⟨gs, hgs⟩ := h1
  exact ⟨_, by rw [hgs]; rfl⟩

/-! ## The table adapters: what they change and when they return -/

theorem sliceTo_isSome (s : String) (n : Nat) (h : n ≤ s.length) : ∃ r, sliceTo s n = some r :=
  ⟨_, if_pos h⟩

theorem updateFlat_eq (env : Env T) (m m1 : Model T) (h : updateFlat env m = some m1) :
    ∃ ct, m1 = { m with containerTable := ct } := by
  unfold updateFlat at h
  rcases Option.map_eq_some'.1 h with ⟨rows, -, rfl⟩
  exact ⟨_, rfl⟩

theorem updateGrouped_eq (env : Env T) (m m1 : Model T) (h : updateGrouped env m = some m1) :
    ∃ ct, m1 = { m with containerTable := ct } := by
  unfold updateGrouped at h
  rcases Option.map_eq_some'.1 h with ⟨rows, -, rfl⟩
  exact ⟨_, rfl⟩

theorem containerTable_update_eq (env : Env T) (m m1 : Model T)
    (h : ContainerTable.Update env m = some m1) :
    ∃ ct groups, m1 = { m with containerTable := ct, containerGroups := groups } := by
  unfold ContainerTable.Update at h
  split_ifs at h
  · rcases Option.bind_eq_some.1 h with ⟨m2, h2, h3⟩
    unfold UpdateContainerGroups at h2
    rcases Option.map_eq_some'.1 h2 with ⟨groups, -, rfl⟩
    obtain ⟨ct, rfl⟩ := updateGrouped_eq env _ _ h3
    exact ⟨ct, groups, rfl⟩
  · obtain ⟨ct, rfl⟩ := updateFlat_eq env _ _ h
    exact ⟨ct, m.containerGroups, rfl⟩

theorem imageTable_update_eq (env : Env T) (m m1 : Model T)
    (h : ImageTable.Update env m = some m1) : ∃ t, m1 = { m with imageTable := t } := by
  unfold ImageTable.Update at h
  rcases Option.map_eq_some'.1 h with ⟨rows, -, rfl⟩
  exact ⟨_, rfl⟩

theorem networkTable_update_eq (env : Env T) (m m1 : Model T)
    (h : NetworkTable.Update env m = some m1) : ∃ t, m1 = { m with networkTable := t } := by
  unfold NetworkTable.Update at h
  rcases Option.map_eq_some'.1 h with ⟨rows, -, rfl⟩
  exact ⟨_, rfl⟩

theorem volumeTable_update_eq (env : Env T) (m m1 : Model T)
    (h : VolumeTable.Update env m = some m1) : ∃ t, m1 = { m with volumeTable := t } := by
  unfold VolumeTable.Update at h
  rcases Option.map_eq_some'.1 h with ⟨rows, -, rfl⟩
  exact ⟨_, rfl⟩

theorem handleDataRefresh_eq (env : Env T) (now : Clock) (m m1 : Model T)
    (cs : List Container) (is : List Image) (ns : List Network) (vs : List Volume)
    (h : handleDataRefresh env now m cs is ns vs = some m1) :
    ∃ ct groups it nt vt, m1 = { m with
      containers := cs, images := is, networks := ns, volumes := vs
      containerTable := ct, containerGroups := groups
      imageTable := it, networkTable := nt, volumeTable := vt
      status := "Last updated: " ++ formatClock now, err := none } := by
  unfold handleDataRefresh at h
  simp only [bind, Option.bind_eq_some, pure, Option.some.injEq] at h
  obtain ⟨m2, h2, m3, h3, m4, h4, m5, h5, rfl⟩ := h
  obtain ⟨ct, groups, rfl⟩ := containerTable_update_eq env _ _ h2
  obtain ⟨it, rfl⟩ := imageTable_update_eq env _ _ h3
  obtain ⟨nt, rfl⟩ := networkTable_update_eq env _ _ h4
  obtain ⟨vt, rfl⟩ := volumeTable_update_eq env _ _ h5
  exact ⟨ct, groups, it, nt, vt, rfl⟩

theorem updateFlat_isSome (env : Env T) (m : Model T) (h : ∀ c ∈ m.containers, 12 ≤ c.ID.length) :
    ∃ m1, updateFlat env m = some m1 := by
  unfold updateFlat
  obtain ⟨rows, hrows⟩ := mapOpt_isSome (flatRow env) m.containers (fun c hc => by
    obtain ⟨r, hr⟩ := sliceTo_isSome c.ID 12 (h c hc)
    exact ⟨_, by unfold flatRow; rw [hr]; rfl⟩)
  exact ⟨_, by rw [hrows]; rfl⟩

theorem updateGrouped_isSome (env : Env T) (m : Model T)
    (h : ∀ g ∈ m.containerGroups, ∀ c ∈ g.Containers, 12 ≤ c.ID.length) :
    ∃ m1, updateGrouped env m = some m1 := by
  unfold updateGrouped
  obtain ⟨rows, hrows⟩ := mapOpt_isSome (groupRows env) m.containerGroups (fun g hg => by
    obtain ⟨rs, hrs⟩ := mapOpt_isSome (groupedRow env) g.Containers (fun c hc => by
      obtain ⟨r, hr⟩ := sliceTo_isSome c.ID 12 (h g hg c hc)
      exact ⟨_, by unfold groupedRow; rw [hr]; rfl⟩)
    exact ⟨_, by unfold groupRows; rw [hrs]; rfl⟩)
  exact ⟨_, by rw [hrows]; rfl⟩

theorem containerTable_update_isSome (env : Env T) (m : Model T)
    (hid : ∀ c ∈ m.containers, 12 ≤ c.ID.length)
    (hnames : m.groupByCompose = true → ∀ c ∈ m.containers, c.Names ≠ []) :
    ∃ m1, ContainerTable.Update env m = some m1 := by
  unfold ContainerTable.Update
  split_ifs with hg
  · obtain ⟨groups, hgroups⟩ := groupContainersByCompose_isSome m.containers (hnames hg)
    obtain ⟨m1, hm1⟩ := updateGrouped_isSome env { m with containerGroups := groups }
      (fun g hg1 c hc => hid c (groupContainersByCompose_mem _ _ hgroups g hg1 c hc))
    exact ⟨m1, by simp only [UpdateContainerGroups, hgroups, Option.map_some', Option.some_bind, hm1]⟩
  · exact updateFlat_isSome env m hid

theorem imageTable_update_isSome (env : Env T) (m : Model T)
    (h : ∀ i ∈ m.images, 19 ≤ i.ID.length) : ∃ m1, ImageTable.Update env m = some m1 := by
  unfold ImageTable.Update
  obtain ⟨rows, hrows⟩ := mapOpt_isSome (imageRow env) m.images (fun i hi => by
    have hs : sliceBetween i.ID 7 19 = some ⟨(i.ID.data.drop 7).take (19 - 7)⟩ :=
      if_pos ⟨by decide, h i hi⟩
    exact ⟨_, by unfold imageRow; rw [hs]; rfl⟩)
  exact ⟨_, by rw [hrows]; rfl⟩

theorem networkTable_update_isSome (env : Env T) (m : Model T)
    (h : ∀ n ∈ m.networks, 12 ≤ n.ID.length) : ∃ m1, NetworkTable.Update env m = some m1 := by
  unfold NetworkTable.Update
  obtain ⟨rows, hrows⟩ := mapOpt_isSome (networkRow env) m.networks (fun n hn => by
    obtain ⟨r, hr⟩ := sliceTo_isSome n.ID 12 (h n hn)
    exact ⟨_, by unfold networkRow; rw [hr]; rfl⟩)
  exact ⟨_, by rw [hrows]; rfl⟩

theorem volumeTable_update_isSome (env : Env T) (m : Model T)
    (h : ∀ v ∈ m.volumes, v.CreatedAt = "" ∨ 16 ≤ v.CreatedAt.length) :
    ∃ m1, VolumeTable.Update env m = some m1 := by
  unfold VolumeTable.Update
  obtain ⟨rows, hrows⟩ := mapOpt_isSome volumeRow m.volumes (fun v hv => by
    by_cases h2 : v.CreatedAt = ""
    · exact ⟨[v.Name, v.Driver, v.Mountpoint, ""], by simp [volumeRow, h2]⟩
    · rcases h v hv with h1 | h1
      · exact absurd h1 h2
      · obtain ⟨r, hr⟩ := sliceTo_isSome v.CreatedAt 16 h1
        exact ⟨[v.Name, v.Driver, v.Mountpoint, r], by simp [volumeRow, h2, hr]⟩)
  exact ⟨_, by rw [hrows]; rfl⟩

/-! ## A successful fetch -/

theorem handleDataRefresh_isSome (env : Env T) (now : Clock) (m : Model T)
    (cs : List Container) (is : List Image) (ns : List Network) (vs : List Volume)
    (hp : rowsProjectable m.groupByCompose cs is ns vs) :
    ∃ m1, handleDataRefresh env now m cs is ns vs = some m1 := by
  obtain ⟨hc, hi, hn, hv, hnames⟩ := hp
  obtain ⟨m2, h2⟩ := containerTable_update_isSome env
    { m with containers := cs, images := is, networks := ns, volumes := vs } hc hnames
  obtain ⟨ct, groups, rfl⟩ := containerTable_update_eq env _ _ h2
  obtain ⟨m3, h3⟩ := imageTable_update_isSome env _ (show ∀ i ∈ ({ m with
    containers := cs, images := is, networks := ns, volumes := vs,
    containerTable := ct, containerGroups := groups } : Model T).images, 19 ≤ i.ID.length from hi)
  obtain ⟨it, rfl⟩ := imageTable_update_eq env _ _ h3
  obtain ⟨m4, h4⟩ := networkTable_update_isSome env _ (show ∀ n ∈ ({ m with
    containers := cs, images := is, networks := ns, volumes := vs,
    containerTable := ct, containerGroups := groups, imageTable := it } : Model T).networks,
    12 ≤ n.ID.length from hn)
  obtain ⟨nt, rfl⟩ := networkTable_update_eq env _ _ h4
  obtain ⟨m5, h5⟩ := volumeTable_update_isSome env _ (show ∀ v ∈ ({ m with
    containers := cs, images := is, networks := ns, volumes := vs,
    containerTable := ct, containerGroups := groups, imageTable := it,
    networkTable := nt } : Model T).volumes, v.CreatedAt = "" ∨ 16 ≤ v.CreatedAt.length from hv)
  unfold handleDataRefresh
  simp only [bind, pure]
  rw [h2]
  simp only [Option.some_bind]
  rw [h3]
  simp only [Option.some_bind]
  rw [h4]
  simp only [Option.some_bind]
  rw [h5]
  exact ⟨_, rfl⟩

/-- C10, amended: whenever `handleDataRefresh` returns, the four lists of the
model are the four lists of the message, the error is cleared and the status
is `Last updated: ` followed by the clock reading; and it does return on
every fetch result whose records can be projected to rows (`rowsProjectable`:
container and network ids of at least 12 bytes, image ids of at least 19
bytes, volume dates empty or of at least 16 bytes and, in grouped mode, a
name on every container). -/
theorem handleDataRefresh_replaces_snapshot (env : Env T) (now : Clock) (m : Model T)
    (cs : List Container) (is : List Image) (ns : List Network) (vs : List Volume) :
    (∀ m1, handleDataRefresh env now m cs is ns vs = some m1 →
      m1.containers = cs ∧ m1.images = is ∧ m1.networks = ns ∧ m1.volumes = vs ∧
        m1.err = none ∧ m1.status = "Last updated: " ++ formatClock now) ∧
    (rowsProjectable m.groupByCompose cs is ns vs →
      ∃ m1, handleDataRefresh env now m cs is ns vs = some m1) := by
  constructor
  · intro m1 h
    obtain ⟨ct, groups, it, nt, vt, rfl⟩ := handleDataRefresh_eq env now m m1 cs is ns vs h
    exact ⟨rfl, rfl, rfl, rfl, rfl, rfl⟩
  · exact handleDataRefresh_isSome env now m cs is ns vs

/-- C10, as stated, fails: on a fetch result with a container whose id has
three bytes the handler panics in the row projection `ID[:12]`. -/
theorem handleDataRefresh_short_id_panics :
    handleDataRefresh plainEnv noon startModel shortIdRefresh [] [] [] = none := by
  decide

theorem handleDataRefresh_replaces_snapshot_witness :
    rowsProjectable startModel.groupByCompose [sampleContainer] [] [] [] ∧
      ∃ m1, handleDataRefresh plainEnv noon startModel [sampleContainer] [] [] [] = some m1 ∧
        m1.containers = [sampleContainer] ∧ m1.status = "Last updated: 12:00:00" := by
  have hp : rowsProjectable startModel.groupByCompose [sampleContainer] [] [] [] :=
    ⟨by decide, by simp, by simp, by simp, by decide⟩
  have h := handleDataRefresh_replaces_snapshot plainEnv noon startModel [sampleContainer] [] [] []
  obtain ⟨m1, hm1⟩ := h.2 hp
  obtain ⟨h1, -, -, -, -, h6⟩ := h.1 m1 hm1
  exact ⟨hp, m1, hm1, h1, by rw [h6]; decide⟩

/-! ## Which events emit action commands -/

theorem ite_some_cases {α : Type} (p : Prop) [Decidable p] (a b : Option α) (r : α)
    (h : (if p then a else b) = some r) : (p ∧ a = some r) ∨ (¬p ∧ b = some r) := by
  by_cases hp : p
  · exact Or.inl ⟨hp, by rwa [if_pos hp] at h⟩
  · exact Or.inr ⟨hp, by rwa [if_neg hp] at h⟩

theorem branch_no_cmds (m1 : Model T) (b : Branch T) (c : Cmd)
    (hb : some (Branch.next m1 []) = some b) (hc : c ∈ b.cmds) : False := by
  cases hb
  cases hc

theorem branch_map_no_cmds (o : Option (Model T)) (b : Branch T) (c : Cmd)
    (hb : o.map (fun m1 => Branch.next m1 []) = some b) (hc : c ∈ b.cmds) : False := by
  rcases Option.map_eq_some'.1 hb with ⟨_, -, rfl⟩
  cases hc

theorem branch_one_cmd (m1 : Model T) (x : Cmd) (b : Branch T) (c : Cmd)
    (hb : some (Branch.next m1 [x]) = some b) (hc : c ∈ b.cmds) : c = x := by
  cases hb
  exact List.mem_singleton.1 hc

theorem branch_returned_cmd (m1 : Model T) (x : Cmd) (b : Branch T) (c : Cmd)
    (hb : some (Branch.returned m1 [x]) = some b) (hc : c ∈ b.cmds) : c = x := by
  cases hb
  exact List.mem_singleton.1 hc

theorem keySwitch_action (env : Env T) (m : Model T) (k : String) (b : Branch T)
    (hb : keySwitch env m k = some b) (c : Cmd) (hc : c ∈ b.cmds) (ha : c.isAction = true) :
    m.currentView = ContainersView ∧ m.groupByCompose = true ∧
      ∃ g, getSelectedGroup env m = some g ∧
        ((keyMatches k m.keys.GroupStop = true ∧ c = .stopGroup g) ∨
          (keyMatches k m.keys.GroupStart = true ∧ c = .startGroup g)) := by
  unfold keySwitch at hb
  -- Quit
  rcases ite_some_cases _ _ _ _ hb with ⟨-, hb⟩ | ⟨-, hb⟩
  · rw [branch_returned_cmd _ _ _ _ hb hc] at ha
    cases ha
  -- Tab, Containers, Images, Networks, Volumes
  rcases ite_some_cases _ _ _ _ hb with ⟨-, hb⟩ | ⟨-, hb⟩
  · exact (branch_no_cmds _ _ _ hb hc).elim
  rcases ite_some_cases _ _ _ _ hb with ⟨-, hb⟩ | ⟨-, hb⟩
  · exact (branch_no_cmds _ _ _ hb hc).elim
  rcases ite_some_cases _ _ _ _ hb with ⟨-, hb⟩ | ⟨-, hb⟩
  · exact (branch_no_cmds _ _ _ hb hc).elim
  rcases ite_some_cases _ _ _ _ hb with ⟨-, hb⟩ | ⟨-, hb⟩
  · exact (branch_no_cmds _ _ _ hb hc).elim
  rcases ite_some_cases _ _ _ _ hb with ⟨-, hb⟩ | ⟨-, hb⟩
  · exact (branch_no_cmds _ _ _ hb hc).elim
  -- Refresh
  rcases ite_some_cases _ _ _ _ hb with ⟨-, hb⟩ | ⟨-, hb⟩
  · rw [branch_one_cmd _ _ _ _ hb hc] at ha
    cases ha
  -- Delete
  rcases ite_some_cases _ _ _ _ hb with ⟨-, hb⟩ | ⟨-, hb⟩
  · exact (branch_map_no_cmds _ _ _ hb hc).elim
  -- Stop
  rcases ite_some_cases _ _ _ _ hb with ⟨-, hb⟩ | ⟨-, hb⟩
  · rcases ite_some_cases _ _ _ _ hb with ⟨-, hb⟩ | ⟨-, hb⟩
    · exact (branch_map_no_cmds _ _ _ hb hc).elim
    · exact (branch_no_cmds _ _ _ hb hc).elim
  -- Help
  rcases ite_some_cases _ _ _ _ hb with ⟨-, hb⟩ | ⟨-, hb⟩
  · exact (branch_no_cmds _ _ _ hb hc).elim
  -- Logs
  rcases ite_some_cases _ _ _ _ hb with ⟨-, hb⟩ | ⟨-, hb⟩
  · rcases ite_some_cases _ _ _ _ hb with ⟨-, hb⟩ | ⟨-, hb⟩
    · rw [branch_one_cmd _ _ _ _ hb hc] at ha
      cases ha
    · exact (branch_no_cmds _ _ _ hb hc).elim
  -- ThemeDefault, ThemeDark, ThemeLight
  rcases ite_some_cases _ _ _ _ hb with ⟨-, hb⟩ | ⟨-, hb⟩
  · exact (branch_no_cmds _ _ _ hb hc).elim
  rcases ite_some_cases _ _ _ _ hb with ⟨-, hb⟩ | ⟨-, hb⟩
  · exact (branch_no_cmds _ _ _ hb hc).elim
  rcases ite_some_cases _ _ _ _ hb with ⟨-, hb⟩ | ⟨-, hb⟩
  · exact (branch_no_cmds _ _ _ hb hc).elim
  -- GroupToggle
  rcases ite_some_cases _ _ _ _ hb with ⟨-, hb⟩ | ⟨-, hb⟩
  · rcases ite_some_cases _ _ _ _ hb with ⟨-, hb⟩ | ⟨-, hb⟩
    · exact (branch_map_no_cmds _ _ _ hb hc).elim
    · exact (branch_no_cmds _ _ _ hb hc).elim
  -- GroupStop
  rcases ite_some_cases _ _ _ _ hb with ⟨hk, hb⟩ | ⟨-, hb⟩
  · rcases ite_some_cases _ _ _ _ hb with ⟨hv, hb⟩ | ⟨-, hb⟩
    · cases hg : getSelectedGroup env m with
      | none =>
        rw [hg] at hb
        exact (branch_no_cmds _ _ _ hb hc).elim
      | some g =>
        rw [hg] at hb
        exact ⟨hv.1, hv.2, g, rfl, Or.inl ⟨hk, branch_one_cmd _ _ _ _ hb hc⟩⟩
    · exact (branch_no_cmds _ _ _ hb hc).elim
  -- GroupStart
  rcases ite_some_cases _ _ _ _ hb with ⟨hk, hb⟩ | ⟨-, hb⟩
  · rcases ite_some_cases _ _ _ _ hb with ⟨hv, hb⟩ | ⟨-, hb⟩
    · cases hg : getSelectedGroup env m with
      | none =>
        rw [hg] at hb
        exact (branch_no_cmds _ _ _ hb hc).elim
      | some g =>
        rw [hg] at hb
        exact ⟨hv.1, hv.2, g, rfl, Or.inr ⟨hk, branch_one_cmd _ _ _ _ hb hc⟩⟩
    · exact (branch_no_cmds _ _ _ hb hc).elim
  -- GroupDelete
  rcases ite_some_cases _ _ _ _ hb with ⟨-, hb⟩ | ⟨-, hb⟩
  · rcases ite_some_cases _ _ _ _ hb with ⟨-, hb⟩ | ⟨-, hb⟩
    · cases hg : getSelectedGroup env m with
      | none =>
        rw [hg] at hb
        exact (branch_no_cmds _ _ _ hb hc).elim
      | some g =>
        rw [hg] at hb
        exact (branch_no_cmds _ _ _ hb hc).elim
    · exact (branch_no_cmds _ _ _ hb hc).elim
  exact (branch_no_cmds _ _ _ hb hc).elim

theorem pendingAction_run_isGated (a : PendingAction) : a.run.isGatedAction = true := by
  cases a <;> rfl

theorem confirmKey_cmds (m : Model T) (k : String) (c : Cmd) (hc : c ∈ (confirmKey m k).2) :
    (k = "y" ∨ k = "Y") ∧ m.pendingAction.map PendingAction.run = some c ∧
      (confirmKey m k).2 = [c] := by
  unfold confirmKey at hc ⊢
  split_ifs at hc ⊢ with h1 h2
  · cases hp : m.pendingAction with
    | none =>
      rw [hp] at hc
      cases hc
    | some a =>
      rw [hp] at hc
      have := List.mem_singleton.1 hc
      subst this
      exact ⟨h1, rfl, rfl⟩
  · cases hc
  · cases hc

theorem reachable_runEvents (env : Env T) (stop : Binding) (now : Clock) (msgs : List Msg)
    (m m1 : Model T) (hm : Reachable env stop m) (h : runEvents env now m msgs = some m1) :
    Reachable env stop m1 := by
  induction msgs generalizing m with
  | nil =>
    cases h
    exact hm
  | cons msg rest ih =>
    unfold runEvents at h
    split at h
    · rename_i r hr
      exact ih r.1 (Reachable.step now msg hm hr) h
    · cases h

/-- C1, amended: every action command `Update` emits comes from one of two
places.  A command of the gated kinds (remove container, image, network or
volume, stop container, delete group) is emitted only when the dialog was
visible before the event and the event is the key y or Y; it is then the
command of the pending action and the only command emitted, so no action
key emits it directly.  The stop-group and start-group commands are not
gated: they are emitted only by a key of the group-stop or group-start
binding, with no dialog visible, on the containers view in grouped mode, for
the group of the cursor row. -/
theorem action_commands_and_the_gate (env : Env T) (now : Clock) (m m1 : Model T) (msg : Msg)
    (cmds : List Cmd) (h : Update env now m msg = some (m1, cmds)) (c : Cmd) (hc : c ∈ cmds)
    (ha : c.isAction = true) :
    (c.isGatedAction = true →
      m.dialogVisible = true ∧ (msg = .key "y" ∨ msg = .key "Y") ∧
        m.pendingAction.map PendingAction.run = some c ∧ cmds = [c]) ∧
    (c.isGatedAction = false →
      m.dialogVisible = false ∧ m.currentView = ContainersView ∧ m.groupByCompose = true ∧
        ∃ k g, msg = .key k ∧ getSelectedGroup env m = some g ∧
          ((keyMatches k m.keys.GroupStop = true ∧ c = .stopGroup g) ∨
            (keyMatches k m.keys.GroupStart = true ∧ c = .startGroup g))) := by
  have key : (m.dialogVisible = true ∧ (msg = .key "y" ∨ msg = .key "Y") ∧
        m.pendingAction.map PendingAction.run = some c ∧ cmds = [c] ∧ c.isGatedAction = true) ∨
      (m.dialogVisible = false ∧ m.currentView = ContainersView ∧ m.groupByCompose = true ∧
        c.isGatedAction = false ∧
        ∃ k g, msg = .key k ∧ getSelectedGroup env m = some g ∧
          ((keyMatches k m.keys.GroupStop = true ∧ c = .stopGroup g) ∨
            (keyMatches k m.keys.GroupStart = true ∧ c = .startGroup g))) := by
    unfold Update at h
    rcases Option.map_eq_some'.1 h with ⟨b, hb, hres⟩
    -- a command of the table library is no action
    have htail : ∀ m2 cs, b = .next m2 cs → c ∈ cs := by
      intro m2 cs hbe
      subst hbe
      dsimp only at hres
      have hc2 : c ∈ (passToTable env m2 msg cs).2 := by
        rw [hres]
        exact hc
      rcases passToTable_cmds env _ _ _ c hc2 with h1 | ⟨tag, rfl⟩
      · exact h1
      · cases ha
    cases msg with
    | windowSize w ht =>
      simp only [msgSwitch] at hb
      rcases Option.map_eq_some'.1 hb with ⟨m2, -, rfl⟩
      cases htail _ _ rfl
    | tick =>
      simp only [msgSwitch, Option.some.injEq] at hb
      subst hb
      have := htail _ _ rfl
      simp only [List.mem_cons, List.mem_singleton, List.not_mem_nil, or_false] at this
      rcases this with rfl | rfl <;> cases ha
    | key k =>
      simp only [msgSwitch] at hb
      by_cases hv : m.dialogVisible = true
      · rw [if_pos hv] at hb
        simp only [Option.some.injEq] at hb
        subst hb
        simp only [Prod.mk.injEq] at hres
        obtain ⟨-, rfl⟩ := hres
        obtain ⟨hk, hp, hcmds⟩ := confirmKey_cmds m k c hc
        refine Or.inl ⟨hv, ?_, hp, hcmds, ?_⟩
        · rcases hk with rfl | rfl
          · exact Or.inl rfl
          · exact Or.inr rfl
        · rcases Option.map_eq_some'.1 hp with ⟨a, -, rfl⟩
          exact pendingAction_run_isGated a
      · rw [if_neg hv] at hb
        have hcb : c ∈ b.cmds := by
          cases b with
          | returned m2 cs =>
            simp only [Prod.mk.injEq] at hres
            obtain ⟨-, rfl⟩ := hres
            exact hc
          | next m2 cs => exact htail _ _ rfl
        obtain ⟨h1, h2, g, hg, hcase⟩ := keySwitch_action env m k b hb c hcb ha
        refine Or.inr ⟨by simpa using hv, h1, h2, ?_, k, g, rfl, hg, hcase⟩
        rcases hcase with ⟨-, rfl⟩ | ⟨-, rfl⟩ <;> rfl
    | dataRefreshed cs is ns vs =>
      simp only [msgSwitch] at hb
      rcases Option.map_eq_some'.1 hb with ⟨m2, -, rfl⟩
      cases htail _ _ rfl
    | error e =>
      simp only [msgSwitch, Option.some.injEq] at hb
      subst hb
      cases htail _ _ rfl
    | status t =>
      simp only [msgSwitch, Option.some.injEq] at hb
      subst hb
      cases htail _ _ rfl
    | other tag =>
      simp only [msgSwitch, Option.some.injEq] at hb
      subst hb
      cases htail _ _ rfl
  constructor
  · intro hg
    rcases key with ⟨h1, h2, h3, h4, -⟩ | ⟨-, -, -, h4, -⟩
    · exact ⟨h1, h2, h3, h4⟩
    · rw [hg] at h4
      cases h4
  · intro hg
    rcases key with ⟨-, -, -, -, h5⟩ | ⟨h1, h2, h3, -, h5⟩
    · rw [hg] at h5
      cases h5
    · exact ⟨h1, h2, h3, h5⟩

theorem action_commands_and_the_gate_witness :
    armedModel.dialogVisible = true ∧
      armedModel.pendingAction.map PendingAction.run = some (.deleteContainer sampleContainer) ∧
      (confirmKey armedModel "y").2 = [.deleteContainer sampleContainer] :=
  have h := (action_commands_and_the_gate plainEnv noon armedModel (confirmKey armedModel "y").1
    (.key "y") (confirmKey armedModel "y").2
    (update_key_dialog plainEnv noon armedModel "y" (by decide))
    (.deleteContainer sampleContainer) (by decide) rfl).1 rfl
  ⟨h.1, h.2.2.1, h.2.2.2⟩

/-- C1, as stated, fails: after a fetch and the group toggle (a reachable
state with no dialog visible) the key S emits the start-group command and
the key s the stop-group command, both action commands, directly. -/
theorem group_keys_bypass_the_gate :
    Reachable plainEnv ["ctrl+s"] groupedModel ∧ groupedModel.dialogVisible = false ∧
      (Update plainEnv noon groupedModel (.key "S")).map Prod.snd =
        some [.startGroup sampleGroup] ∧
      (Update plainEnv noon groupedModel (.key "s")).map Prod.snd =
        some [.stopGroup sampleGroup] ∧
      (Cmd.startGroup sampleGroup).isAction = true ∧
      (Cmd.stopGroup sampleGroup).isAction = true :=
  ⟨reachable_runEvents plainEnv ["ctrl+s"] noon [sampleRefresh, .key "g"] startModel groupedModel
      Reachable.init (by decide),
    by decide, by decide, by decide, rfl, rfl⟩

/-! ## The armed gate and events that are not keys -/

theorem distributeColumnWidths_isSome (env : Env T) (titles : List String)
    (minWidths preferredWidths : List Int) (availableWidth : Int) (h : titles.length ≠ 0) :
    ∃ cols, distributeColumnWidths env titles minWidths preferredWidths availableWidth =
      some cols := by
  unfold distributeColumnWidths
  dsimp only
  split_ifs <;> exact ⟨_, rfl⟩

theorem updateColumnWidths_eq (env : Env T) (m : Model T) :
    ∃ ct it nt vt, updateColumnWidths env m = some { m with
      containerTable := ct, imageTable := it, networkTable := nt, volumeTable := vt } := by
  obtain ⟨c1, h1⟩ := distributeColumnWidths_isSome env
    ["ID", "Names", "Image", "Command", "Created", "Status", "Ports"]
    [12, 15, 15, 15, 15, 15, 15] [12, 30, 25, 16, 20, 25, 20] (m.width - 4) (by decide)
  obtain ⟨c2, h2⟩ := distributeColumnWidths_isSome env
    ["Repository", "Tag", "Image ID", "Created", "Size"]
    [15, 10, 12, 15, 10] [30, 15, 12, 16, 12] (m.width - 4) (by decide)
  obtain ⟨c3, h3⟩ := distributeColumnWidths_isSome env
    ["ID", "Name", "Driver", "Scope", "Created"]
    [12, 15, 10, 8, 15] [12, 25, 15, 10, 16] (m.width - 4) (by decide)
  obtain ⟨c4, h4⟩ := distributeColumnWidths_isSome env
    ["Name", "Driver", "Mountpoint", "Created"]
    [15, 10, 20, 15] [25, 15, 40, 16] (m.width - 4) (by decide)
  refine ⟨{ m.containerTable with table := env.tableSetColumns m.containerTable.table c1 },
    env.tableSetColumns m.imageTable c2, env.tableSetColumns m.networkTable c3,
    env.tableSetColumns m.volumeTable c4, ?_⟩
  unfold updateColumnWidths calculateContainerColumnWidths calculateImageColumnWidths
    calculateNetworkColumnWidths calculateVolumeColumnWidths
  simp only [bind, pure]
  rw [h1, h2, h3, h4]
  rfl

theorem updateTableSizes_eq (env : Env T) (m : Model T) :
    ∃ ct it nt vt, updateTableSizes env m = some { m with
      containerTable := ct, imageTable := it, networkTable := nt, volumeTable := vt } := by
  unfold updateTableSizes
  split_ifs <;> first
    | exact ⟨m.containerTable, m.imageTable, m.networkTable, m.volumeTable, rfl⟩
    | exact updateColumnWidths_eq env _

theorem passToTable_dialog (env : Env T) (m : Model T) (msg : Msg) (cmds : List Cmd)
    (hv : m.dialogVisible = true) : passToTable env m msg cmds = (m, cmds) := by
  unfold passToTable
  rw [if_pos hv]

theorem update_windowSize_dialog (env : Env T) (now : Clock) (m : Model T) (w h : Int)
    (hv : m.dialogVisible = true) :
    ∃ ct it nt vt, Update env now m (.windowSize w h) = some ({ m with
      width := w, height := h, ready := true, helpView := { width := w, height := h },
      containerTable := ct, imageTable := it, networkTable := nt, volumeTable := vt }, []) := by
  obtain ⟨ct, it, nt, vt, hs⟩ :=
    updateTableSizes_eq env { m with width := w, height := h, ready := true }
  refine ⟨ct, it, nt, vt, ?_⟩
  simp only [Update, msgSwitch, hs, Option.map_some']
  rw [passToTable_dialog]
  · rfl
  · exact hv

theorem update_dataRefreshed_dialog (env : Env T) (now : Clock) (m m1 : Model T)
    (cs : List Container) (is : List Image) (ns : List Network) (vs : List Volume)
    (cmds : List Cmd) (hv : m.dialogVisible = true)
    (h : Update env now m (.dataRefreshed cs is ns vs) = some (m1, cmds)) :
    cmds = [] ∧ handleDataRefresh env now m cs is ns vs = some m1 := by
  simp only [Update, msgSwitch, Option.map_map] at h
  rcases Option.map_eq_some'.1 h with ⟨m2, h2, hres⟩
  obtain ⟨ct, groups, it, nt, vt, rfl⟩ := handleDataRefresh_eq env now m m2 cs is ns vs h2
  simp only [Function.comp] at hres
  rw [passToTable_dialog _ _ _ _ (by exact hv)] at hres
  cases hres
  exact ⟨rfl, h2⟩

/-- C3, amended: while the dialog is visible the gate intercepts keys only.
A key other than y, Y, n, N and esc changes nothing and emits no command.
The other events are handled as without a dialog, except that they are not
passed on to the table of the current view: a tick emits the refresh and the
next tick, a resize sets the terminal dimensions, a fetch result replaces
the four lists and clears the error, an error or status event sets error and
status.  Every event that is not a confirm or cancel key leaves the view
mode, the dialog and the pending action as they were and emits no action
command. -/
theorem armed_gate_intercepts_keys_only (env : Env T) (now : Clock) (m : Model T)
    (hv : m.dialogVisible = true) :
    (∀ k, k ∉ ["y", "Y", "n", "N", "esc"] → Update env now m (.key k) = some (m, [])) ∧
    Update env now m .tick = some (m, [.refreshData, .tick 5]) ∧
    (∀ w h, ∃ m1, Update env now m (.windowSize w h) = some (m1, []) ∧
      m1.width = w ∧ m1.height = h ∧ m1.ready = true) ∧
    (∀ cs is ns vs m1 cmds, Update env now m (.dataRefreshed cs is ns vs) = some (m1, cmds) →
      cmds = [] ∧ m1.containers = cs ∧ m1.images = is ∧ m1.networks = ns ∧ m1.volumes = vs ∧
        m1.err = none) ∧
    (∀ cs is ns vs, rowsProjectable m.groupByCompose cs is ns vs →
      ∃ m1, Update env now m (.dataRefreshed cs is ns vs) = some (m1, [])) ∧
    (∀ e, Update env now m (.error e) = some ({ m with err := some e, status := "" }, [])) ∧
    (∀ t, Update env now m (.status t) = some ({ m with status := t, err := none }, [])) ∧
    (∀ msg m1 cmds, (∀ k, msg = .key k → k ∉ ["y", "Y", "n", "N", "esc"]) →
      Update env now m msg = some (m1, cmds) →
      m1.currentView = m.currentView ∧ m1.confirmDialog = m.confirmDialog ∧
        m1.pendingAction = m.pendingAction ∧ ∀ c ∈ cmds, c.isAction = false) := by
  have hkey : ∀ k, k ∉ ["y", "Y", "n", "N", "esc"] → Update env now m (.key k) = some (m, []) := by
    intro k hk
    simp only [List.mem_cons, List.mem_singleton, List.not_mem_nil, or_false, not_or] at hk
    rw [update_key_dialog env now m k hv]
    simp [confirmKey, hk]
  have htick : Update env now m .tick = some (m, [.refreshData, .tick 5]) := by
    simp only [Update, msgSwitch, Option.map_some']
    rw [passToTable_dialog _ _ _ _ hv]
  have herr : ∀ e, Update env now m (.error e) =
      some ({ m with err := some e, status := "" }, []) := by
    intro e
    simp only [Update, msgSwitch, Option.map_some']
    rw [passToTable_dialog]
    exact hv
  have hstatus : ∀ t, Update env now m (.status t) =
      some ({ m with status := t, err := none }, []) := by
    intro t
    simp only [Update, msgSwitch, Option.map_some']
    rw [passToTable_dialog]
    exact hv
  have hother : ∀ tag, Update env now m (.other tag) = some (m, []) := by
    intro tag
    simp only [Update, msgSwitch, Option.map_some']
    rw [passToTable_dialog _ _ _ _ hv]
  refine ⟨hkey, htick, ?_, ?_, ?_, herr, hstatus, ?_⟩
  · intro w h
    obtain ⟨ct, it, nt, vt, hu⟩ := update_windowSize_dialog env now m w h hv
    exact ⟨_, hu, rfl, rfl, rfl⟩
  · intro cs is ns vs m1 cmds h
    obtain ⟨hcmds, h2⟩ := update_dataRefreshed_dialog env now m m1 cs is ns vs cmds hv h
    obtain ⟨ct, groups, it, nt, vt, rfl⟩ := handleDataRefresh_eq env now m m1 cs is ns vs h2
    exact ⟨hcmds, rfl, rfl, rfl, rfl, rfl⟩
  · intro cs is ns vs hp
    obtain ⟨m2, h2⟩ := handleDataRefresh_isSome env now m cs is ns vs hp
    have hv2 : m2.dialogVisible = true := by
      obtain ⟨ct, groups, it, nt, vt, rfl⟩ := handleDataRefresh_eq env now m m2 cs is ns vs h2
      exact hv
    refine ⟨m2, ?_⟩
    simp only [Update, msgSwitch, h2, Option.map_some']
    rw [passToTable_dialog _ _ _ _ hv2]
  · intro msg m1 cmds hmsg h
    cases msg with
    | windowSize w ht =>
      obtain ⟨ct, it, nt, vt, hu⟩ := update_windowSize_dialog env now m w ht hv
      rw [hu] at h
      cases h
      exact ⟨rfl, rfl, rfl, fun c hc => by cases hc⟩
    | tick =>
      rw [htick] at h
      cases h
      refine ⟨rfl, rfl, rfl, fun c hc => ?_⟩
      simp only [List.mem_cons, List.mem_singleton, List.not_mem_nil, or_false] at hc
      rcases hc with rfl | rfl <;> rfl
    | key k =>
      rw [hkey k (hmsg k rfl)] at h
      cases h
      exact ⟨rfl, rfl, rfl, fun c hc => by cases hc⟩
    | dataRefreshed cs is ns vs =>
      obtain ⟨hcmds, h2⟩ := update_dataRefreshed_dialog env now m m1 cs is ns vs cmds hv h
      obtain ⟨ct, groups, it, nt, vt, rfl⟩ := handleDataRefresh_eq env now m m1 cs is ns vs h2
      subst hcmds
      exact ⟨rfl, rfl, rfl, fun c hc => by cases hc⟩
    | error e =>
      rw [herr e] at h
      cases h
      exact ⟨rfl, rfl, rfl, fun c hc => by cases hc⟩
    | status t =>
      rw [hstatus t] at h
      cases h
      exact ⟨rfl, rfl, rfl, fun c hc => by cases hc⟩
    | other tag =>
      rw [hother tag] at h
      cases h
      exact ⟨rfl, rfl, rfl, fun c hc => by cases hc⟩

theorem armed_gate_intercepts_keys_only_witness :
    armedModel.dialogVisible = true ∧
      Update plainEnv noon armedModel (.key "tab") = some (armedModel, []) ∧
      Update plainEnv noon armedModel .tick = some (armedModel, [.refreshData, .tick 5]) :=
  have h := armed_gate_intercepts_keys_only plainEnv noon armedModel (by decide)
  ⟨by decide, h.1 "tab" (by decide), h.2.1⟩

/-- C3, as stated, fails: with the dialog visible a timer tick emits two
commands, an error event replaces the error, and a resize replaces the
terminal dimensions. -/
theorem armed_gate_lets_events_through :
    armedModel.dialogVisible = true ∧
      (Update plainEnv noon armedModel .tick).map Prod.snd = some [.refreshData, .tick 5] ∧
      armedModel.err = none ∧
      (Update plainEnv noon armedModel (.error "daemon down")).map (fun r => r.1.err) =
        some (some "daemon down") ∧
      (armedModel.width, armedModel.height) = (0, 0) ∧
      (Update plainEnv noon armedModel (.windowSize 80 24)).map
        (fun r => (r.1.width, r.1.height)) = some (80, 24) := by
  decide

/-! ## Cursor resolution -/

theorem scanGroupRows_eq (cs : List Container) (idx : Nat) (r : Int) (j : Nat) :
    scanGroupRows (r + j) cs idx r =
      if j < cs.length then .inl (idx + j) else .inr (r + cs.length) := by
  induction cs generalizing idx r j with
  | nil => simp [scanGroupRows]
  | cons c rest ih =>
    unfold scanGroupRows
    cases j with
    | zero => simp
    | succ j1 =>
      have hne : ¬ (r = r + ((j1 + 1 : Nat) : Int)) := by omega
      rw [if_neg hne]
      have hcur : r + ((j1 + 1 : Nat) : Int) = (r + 1) + (j1 : Int) := by omega
      rw [hcur, ih (idx + 1) (r + 1) j1]
      simp only [List.length_cons, Nat.add_lt_add_iff_right]
      split_ifs
      · congr 1
        omega
      · congr 1
        push_cast
        omega

theorem scanGroupsForContainer_eq (groups : List ContainerGroup) (row : Int) (n : Nat) :
    scanGroupsForContainer (row + n) groups row = ((rowTargets groups).get? n).join := by
  induction groups generalizing row n with
  | nil => simp [scanGroupsForContainer, rowTargets]
  | cons g gs ih =>
    unfold scanGroupsForContainer
    have hrows : rowTargets (g :: gs) = none :: (g.Containers.map some ++ rowTargets gs) := by
      simp [rowTargets]
    rw [hrows]
    cases n with
    | zero => simp
    | succ n1 =>
      have hne : ¬ (row + ((n1 + 1 : Nat) : Int) = row) := by omega
      rw [if_neg hne]
      have hcur : row + ((n1 + 1 : Nat) : Int) = (row + 1) + (n1 : Int) := by omega
      rw [hcur, scanGroupRows_eq]
      by_cases hlt : n1 < g.Containers.length
      · rw [if_pos hlt]
        simp [List.getElem?_append_left, hlt]
      · rw [if_neg hlt]
        dsimp only
        have hsplit : (row + 1) + (n1 : Int) =
            (row + 1 + (g.Containers.length : Int)) + ((n1 - g.Containers.length : Nat) : Int) := by
          omega
        rw [hsplit, ih]
        have hle : (g.Containers.map some).length ≤ n1 := by
          simpa using Nat.le_of_not_lt hlt
        simp [List.getElem?_append_right hle]

theorem selectAt_outside {α : Type} (xs : List α) (cursor : Int) (h : cursorOutside xs cursor) :
    selectAt xs cursor = none := by
  unfold selectAt
  split_ifs with hc
  · exfalso
    rcases h with rfl | h | h
    · simp at hc
      omega
    · omega
    · omega
  · rfl

theorem getSelectedContainerGrouped_header (env : Env T) (m : Model T)
    (h : cursorOutside (rowTargets m.containerGroups) (env.tableCursor m.containerTable.table) ∨
      (rowTargets m.containerGroups).get? (env.tableCursor m.containerTable.table).toNat =
        some none) :
    getSelectedContainerGrouped env m = none := by
  unfold getSelectedContainerGrouped
  dsimp only
  split_ifs with hneg
  · rfl
  · have hcur : env.tableCursor m.containerTable.table =
        0 + (((env.tableCursor m.containerTable.table).toNat : Nat) : Int) := by
      omega
    rw [hcur, scanGroupsForContainer_eq]
    rcases h with h | h
    · rcases h with h | h | h
      · rw [h]
        rfl
      · omega
      · have : (rowTargets m.containerGroups).length ≤
            (env.tableCursor m.containerTable.table).toNat := by
          omega
        rw [List.get?_eq_none.2 this]
        rfl
    · rw [h]
      rfl

theorem showDeleteConfirmation_noTarget (env : Env T) (m : Model T) (h : noTarget env m) :
    showDeleteConfirmation env m = some m := by
  unfold noTarget at h
  unfold showDeleteConfirmation
  split at h
  · rename_i hview
    rw [hview]
    have hsel : GetSelectedContainer env m = none := by
      unfold GetSelectedContainer
      split_ifs at h ⊢
      · exact getSelectedContainerGrouped_header env m h
      · exact selectAt_outside _ _ h
    rw [hsel]
  · rename_i hview
    rw [hview]
    have hsel : GetSelectedImage env m = none := selectAt_outside _ _ h
    rw [hsel]
  · rename_i hview
    rw [hview]
    have hsel : GetSelectedNetwork env m = none := selectAt_outside _ _ h
    rw [hsel]
  · rename_i hview
    rw [hview]
    have hsel : GetSelectedVolume env m = none := selectAt_outside _ _ h
    rw [hsel]
  · exact h.elim

theorem keySwitch_delete_key (env : Env T) (m : Model T) (stop : Binding) (k : String)
    (hkeys : m.keys = DefaultKeyMap stop) (hk : k = "d" ∨ k = "delete") :
    keySwitch env m k = (showDeleteConfirmation env m).map fun m1 => .next m1 [] := by
  unfold keySwitch
  rw [hkeys]
  rcases hk with rfl | rfl <;> simp [keyMatches, DefaultKeyMap]

/-- C6: on each of the four resource views, when the cursor resolves to no
target (empty list, cursor outside the list, or a header row of the grouped
containers view), `showDeleteConfirmation` returns the model as it was: no
dialog is created or shown and the pending action is not set; and the delete
key, pressed with no dialog visible, leaves dialog and pending action as
they were and emits no action command. -/
theorem delete_without_target_stays_idle (env : Env T) (now : Clock) (m : Model T)
    (h : noTarget env m) :
    showDeleteConfirmation env m = some m ∧
      ∀ stop k, m.keys = DefaultKeyMap stop → m.dialogVisible = false →
        (k = "d" ∨ k = "delete") →
        ∃ m1 cmds, Update env now m (.key k) = some (m1, cmds) ∧
          m1.confirmDialog = m.confirmDialog ∧ m1.pendingAction = m.pendingAction ∧
          ∀ c ∈ cmds, c.isAction = false := by
  have hshow := showDeleteConfirmation_noTarget env m h
  refine ⟨hshow, ?_⟩
  intro stop k hkeys hv hk
  have hu : Update env now m (.key k) = some (passToTable env m (.key k) []) := by
    simp only [Update, msgSwitch, hv, Bool.false_eq_true, if_false]
    rw [keySwitch_delete_key env m stop k hkeys hk, hshow]
    rfl
  obtain ⟨-, -, -, -, -, -, -, -, hd, hp, -⟩ := passToTable_frame env m (.key k) []
  refine ⟨_, _, hu, hd, hp, ?_⟩
  intro c hc
  rcases passToTable_cmds env _ _ _ c hc with h1 | ⟨tag, rfl⟩
  · cases h1
  · rfl

theorem delete_without_target_stays_idle_witness :
    noTarget plainEnv groupedModel ∧ showDeleteConfirmation plainEnv groupedModel = some groupedModel :=
  have h : noTarget plainEnv groupedModel := Or.inr (by decide)
  ⟨h, (delete_without_target_stays_idle plainEnv noon groupedModel h).1⟩

/-! ## The frame -/

/-- C7 on the code: with the help screen toggled on, the delete key arms the
dialog, and `View` returns the help screen, not the dialog; before the first
resize it returns the loading text although the dialog is visible. -/
theorem view_hides_armed_dialog :
    Reachable plainEnv ["ctrl+s"] helpArmedModel ∧ helpArmedModel.dialogVisible = true ∧
      helpArmedModel.View plainEnv =
        helpArmedModel.helpView.Render plainEnv helpArmedModel.theme ∧
      helpArmedModel.confirmDialog.map (fun d => d.Render plainEnv helpArmedModel.theme) =
        some ("Are you sure you want to delete container \x27abc123456789\x27?" ++
          "\n\nPress \x27y\x27 to confirm, \x27n\x27 to cancel") ∧
      helpArmedModel.View plainEnv ≠
        "Are you sure you want to delete container \x27abc123456789\x27?" ++
          "\n\nPress \x27y\x27 to confirm, \x27n\x27 to cancel" ∧
      Reachable plainEnv ["ctrl+s"] armedModel ∧ armedModel.dialogVisible = true ∧
      armedModel.View plainEnv = "Loading..." :=
  ⟨reachable_runEvents plainEnv ["ctrl+s"] noon
      [.windowSize 80 24, sampleRefresh, .key "?", .key "d"] startModel helpArmedModel
      Reachable.init (by decide),
    by decide, rfl, by decide, by decide,
    reachable_runEvents plainEnv ["ctrl+s"] noon [sampleRefresh, .key "d"] startModel armedModel
      Reachable.init (by decide),
    by decide, by decide⟩

/-! ## The delete key on a selected container -/

theorem armDialog_visible (m : Model T) (message : String) :
    (m.armDialog message).dialogVisible = true := rfl

theorem showDeleteConfirmation_container (env : Env T) (m : Model T) (c : Container)
    (hview : m.currentView = ContainersView) (hsel : GetSelectedContainer env m = some c)
    (hid : 12 ≤ c.ID.length) :
    showDeleteConfirmation env m =
      some ({ m with pendingAction := some (.deleteContainer c) }.armDialog
        ("Are you sure you want to delete container \x27" ++ (⟨c.ID.data.take 12⟩ : String) ++
          "\x27?")) := by
  unfold showDeleteConfirmation
  rw [hview]
  simp only [hsel, sliceTo, if_pos hid, Option.map_some']

theorem update_confirm_pending (env : Env T) (now : Clock) (m : Model T) (a : PendingAction)
    (k : String) (hv : m.dialogVisible = true) (hp : m.pendingAction = some a)
    (hk : k = "y" ∨ k = "Y") :
    Update env now m (.key k) = some ({ m with pendingAction := none }.hideDialog, [a.run]) := by
  rw [update_key_dialog env now m k hv]
  simp [confirmKey, hk, hp]

/-- C11: on the containers view, with no dialog visible and a selected
container whose id has at least 12 bytes, the delete key arms the dialog
with the message `Are you sure you want to delete container '<ID[:12]>'?`
and binds the pending action to that container; a confirm key then emits
the command of that pending action, and running it issues exactly one call
to the runtime, the forced removal by the full id of that container, and
returns the error of the call or the status `Container <ID[:12]> deleted`. -/
theorem delete_key_arms_for_selected_container (env : Env T) (now : Clock) (m : Model T)
    (stop : Binding) (c : Container) (k k2 : String) (result : Option String)
    (log : List ActionCall)
    (hkeys : m.keys = DefaultKeyMap stop) (hv : m.dialogVisible = false)
    (hview : m.currentView = ContainersView) (hsel : GetSelectedContainer env m = some c)
    (hid : 12 ≤ c.ID.length) (hk : k = "d" ∨ k = "delete") (hk2 : k2 = "y" ∨ k2 = "Y") :
    ∃ m1 action, Update env now m (.key k) = some (m1, []) ∧
      m1.confirmDialog = some
        { message := "Are you sure you want to delete container \x27" ++
            (⟨c.ID.data.take 12⟩ : String) ++ "\x27?"
          width := m.width, height := m.height, visible := true } ∧
      m1.pendingAction = some action ∧
      (∃ m2, Update env now m1 (.key k2) = some (m2, [action.run]) ∧
        m2.dialogVisible = false ∧ m2.pendingAction = none) ∧
      action.exec (scriptedActions result) log =
        some (match result with
          | some err => .error err
          | none => .status ("Container " ++ (⟨c.ID.data.take 12⟩ : String) ++ " deleted"),
          log ++ [.containerRemove c.ID
            { RemoveVolumes := false, RemoveLinks := false, Force := true }]) := by
  have hshow := showDeleteConfirmation_container env m c hview hsel hid
  have hsw := keySwitch_delete_key env m stop k hkeys hk
  refine ⟨Model.armDialog { m with pendingAction := some (.deleteContainer c) }
    ("Are you sure you want to delete container \x27" ++ (⟨c.ID.data.take 12⟩ : String) ++
      "\x27?"), .deleteContainer c, ?_, rfl, rfl, ?_, ?_⟩
  · simp only [Update, msgSwitch, hv, Bool.false_eq_true, if_false]
    rw [hsw, hshow]
    simp only [Option.map_some']
    rw [passToTable_dialog]
    exact armDialog_visible _ _
  · exact ⟨_, update_confirm_pending env now _ (.deleteContainer c) k2 (armDialog_visible _ _)
      rfl hk2, hideDialog_not_visible _, rfl⟩
  · cases result with
    | none => simp [PendingAction.exec, deleteContainer, scriptedActions, sliceTo, hid]
    | some err => simp [PendingAction.exec, deleteContainer, scriptedActions]

theorem delete_key_arms_for_selected_container_witness :
    ∃ m1 action, Update plainEnv noon loadedModel (.key "d") = some (m1, []) ∧
      m1.confirmDialog = some
        { message := "Are you sure you want to delete container \x27" ++
            (⟨sampleContainer.ID.data.take 12⟩ : String) ++ "\x27?"
          width := loadedModel.width, height := loadedModel.height, visible := true } ∧
      m1.pendingAction = some action ∧
      (∃ m2, Update plainEnv noon m1 (.key "y") = some (m2, [action.run]) ∧
        m2.dialogVisible = false ∧ m2.pendingAction = none) ∧
      action.exec (scriptedActions none) [] =
        some (.status ("Container " ++ (⟨sampleContainer.ID.data.take 12⟩ : String) ++
            " deleted"),
          [] ++ [.containerRemove sampleContainer.ID
            { RemoveVolumes := false, RemoveLinks := false, Force := true }]) :=
  delete_key_arms_for_selected_container plainEnv noon loadedModel ["ctrl+s"] sampleContainer
    "d" "y" none [] (by decide) (by decide) (by decide) (by decide) (by decide) (Or.inl rfl)
    (Or.inl rfl)

/-! ## The project name of a container -/

theorem mapLookup_of_mem (labels : List (String × String)) (key v : String)
    (hmap : (labels.map Prod.fst).Nodup) (h : (key, v) ∈ labels) :
    mapLookup labels key = some v := by
  induction labels with
  | nil => cases h
  | cons kv rest ih =>
    obtain ⟨k1, v1⟩ := kv
    simp only [List.map_cons, List.nodup_cons] at hmap
    unfold mapLookup
    by_cases hk : k1 = key
    · subst hk
      rcases List.mem_cons.1 h with heq | hmem
      · cases heq
        simp [List.find?]
      · exact absurd (List.mem_map_of_mem Prod.fst hmem) hmap.1
    · rcases List.mem_cons.1 h with heq | hmem
      · cases heq
        exact absurd rfl hk
      · have := ih hmap.2 hmem
        unfold mapLookup at this
        rw [List.find?_cons_of_neg _ (by simpa using hk)]
        exact this

theorem mapLookup_of_not_mem (labels : List (String × String)) (key : String)
    (h : ∀ v, (key, v) ∉ labels) : mapLookup labels key = none := by
  induction labels with
  | nil => rfl
  | cons kv rest ih =>
    obtain ⟨k1, v1⟩ := kv
    have hk : ¬ k1 = key := by
      intro hk
      subst hk
      exact h v1 (List.mem_cons_self _ _)
    have := ih (fun v hv => h v (List.mem_cons_of_mem _ hv))
    unfold mapLookup at this ⊢
    rw [List.find?_cons_of_neg _ (by simpa using hk)]
    exact this

theorem hasPrefix_iff (s pre : String) : hasPrefix s pre = true ↔ ∃ rest : String, s = pre ++ rest := by
  unfold hasPrefix
  rw [List.isPrefixOf_iff_prefix]
  constructor
  · rintro ⟨t, ht⟩
    exact ⟨⟨t⟩, String.ext (by simp [String.data_append, ht])⟩
  · rintro ⟨rest, rfl⟩
    exact ⟨rest.data, by simp [String.data_append]⟩

/-- C14: the project name of a container, whose labels are a map (distinct
keys).  It is the value of the label `com.docker.compose.project` when that
label is present; else the value of `com.docker.stack.namespace` followed by
` (stack)` when that label is present; else `Standalone Containers` when no
label key starts with `com.docker.compose.`; else `Unknown Project`. -/
theorem getComposeProjectName_spec (c : Container) (hmap : (c.Labels.map Prod.fst).Nodup) :
    (∀ v, ("com.docker.compose.project", v) ∈ c.Labels → getComposeProjectName c = v) ∧
    ((∀ v, ("com.docker.compose.project", v) ∉ c.Labels) →
      ∀ v, ("com.docker.stack.namespace", v) ∈ c.Labels →
        getComposeProjectName c = v ++ " (stack)") ∧
    ((∀ v, ("com.docker.compose.project", v) ∉ c.Labels) →
      (∀ v, ("com.docker.stack.namespace", v) ∉ c.Labels) →
      (∀ kv ∈ c.Labels, ¬ ∃ rest : String, kv.1 = "com.docker.compose." ++ rest) →
        getComposeProjectName c = "Standalone Containers") ∧
    ((∀ v, ("com.docker.compose.project", v) ∉ c.Labels) →
      (∀ v, ("com.docker.stack.namespace", v) ∉ c.Labels) →
      (∃ kv ∈ c.Labels, ∃ rest : String, kv.1 = "com.docker.compose." ++ rest) →
        getComposeProjectName c = "Unknown Project") := by
  refine ⟨?_, ?_, ?_, ?_⟩
  · intro v hv
    unfold getComposeProjectName
    rw [mapLookup_of_mem _ _ _ hmap hv]
  · intro hp v hv
    unfold getComposeProjectName
    rw [mapLookup_of_not_mem _ _ hp, mapLookup_of_mem _ _ _ hmap hv]
  · intro hp hs hnone
    unfold getComposeProjectName
    rw [mapLookup_of_not_mem _ _ hp, mapLookup_of_not_mem _ _ hs]
    have : c.Labels.any (fun kv => hasPrefix kv.1 "com.docker.compose.") = false := by
      rw [List.any_eq_false]
      intro kv hkv hpre
      exact hnone kv hkv ((hasPrefix_iff _ _).1 hpre)
    simp [this]
  · intro hp hs hsome
    unfold getComposeProjectName
    rw [mapLookup_of_not_mem _ _ hp, mapLookup_of_not_mem _ _ hs]
    have : c.Labels.any (fun kv => hasPrefix kv.1 "com.docker.compose.") = true := by
      rw [List.any_eq_true]
      obtain ⟨kv, hkv, hrest⟩ := hsome
      exact ⟨kv, hkv, (hasPrefix_iff _ _).2 hrest⟩
    simp [this]

theorem getComposeProjectName_spec_witness :
    getComposeProjectName (webContainer "0123456789abcdef" "/api" "running") = "web" :=
  (getComposeProjectName_spec (webContainer "0123456789abcdef" "/api" "running")
    (by decide)).1 "web" (by decide)

/-! ## Row flattening and cursor resolution -/

theorem mapOpt_cons_some {α β : Type} (f : α → Option β) (a : α) (b : β) (l : List α)
    (h : f a = some b) : mapOpt f (a :: l) = (mapOpt f l).map (fun bs => b :: bs) := by
  simp only [mapOpt, h]

theorem mapOpt_append {α β : Type} (f : α → Option β) (l1 l2 : List α) (r1 r2 : List β)
    (h1 : mapOpt f l1 = some r1) (h2 : mapOpt f l2 = some r2) :
    mapOpt f (l1 ++ l2) = some (r1 ++ r2) := by
  induction l1 generalizing r1 with
  | nil =>
    cases h1
    exact h2
  | cons a rest ih =>
    unfold mapOpt at h1
    split at h1
    · cases h1
    · rename_i b hb
      rcases Option.map_eq_some'.1 h1 with ⟨bs, hbs, rfl⟩
      rw [List.cons_append, mapOpt_cons_some f a b _ hb, ih bs hbs]
      rfl

theorem mapOpt_map {α β γ : Type} (f : β → Option γ) (g : α → β) (l : List α) :
    mapOpt f (l.map g) = mapOpt (fun x => f (g x)) l := by
  induction l with
  | nil => rfl
  | cons a rest ih => simp only [List.map_cons, mapOpt, ih]

theorem mapOpt_length {α β : Type} (f : α → Option β) (l : List α) (r : List β)
    (h : mapOpt f l = some r) : r.length = l.length := by
  induction l generalizing r with
  | nil =>
    cases h
    rfl
  | cons a rest ih =>
    unfold mapOpt at h
    split at h
    · cases h
    · rcases Option.map_eq_some'.1 h with ⟨bs, hbs, rfl⟩
      simp [ih bs hbs]

theorem mapOpt_get? {α β : Type} (f : α → Option β) (l : List α) (r : List β)
    (h : mapOpt f l = some r) (n : Nat) (x : α) (hx : l.get? n = some x) :
    f x = r.get? n := by
  induction l generalizing r n with
  | nil => cases hx
  | cons a rest ih =>
    unfold mapOpt at h
    split at h
    · cases h
    · rename_i b hb
      rcases Option.map_eq_some'.1 h with ⟨bs, hbs, rfl⟩
      cases n with
      | zero =>
        simp only [List.get?_cons_zero, Option.some.injEq] at hx
        subst hx
        simpa using hb
      | succ n1 =>
        simp only [List.get?_cons_succ] at hx ⊢
        exact ih bs hbs n1 hx

theorem rowSources_render (env : Env T) (groups : List ContainerGroup) (rows : List (List Row))
    (h : mapOpt (groupRows env) groups = some rows) :
    mapOpt (renderRowSource env) (rowSources groups) = some rows.flatten := by
  induction groups generalizing rows with
  | nil =>
    cases h
    rfl
  | cons g rest ih =>
    unfold mapOpt at h
    split at h
    · cases h
    · rename_i grows hg
      rcases Option.map_eq_some'.1 h with ⟨rs, hrs, rfl⟩
      unfold groupRows at hg
      rcases Option.map_eq_some'.1 hg with ⟨crows, hcrows, rfl⟩
      have hhead : mapOpt (renderRowSource env) (.header g :: g.Containers.map .member) =
          some (groupHeaderRow g :: crows) := by
        simp only [mapOpt, renderRowSource, mapOpt_map, Option.map_eq_some']
        exact ⟨crows, hcrows, rfl⟩
      have := mapOpt_append _ _ _ _ _ hhead (ih rs hrs)
      simpa [rowSources] using this

theorem rowSources_length (groups : List ContainerGroup) :
    (rowSources groups).length =
      groups.length + (groups.map fun g => g.Containers.length).sum := by
  induction groups with
  | nil => rfl
  | cons g rest ih =>
    have : rowSources (g :: rest) = (.header g :: g.Containers.map .member) ++ rowSources rest := by
      simp [rowSources]
    rw [this]
    simp only [List.length_append, List.length_cons, List.length_map, ih, List.map_cons,
      List.sum_cons]
    omega

theorem rowTargets_eq (groups : List ContainerGroup) :
    rowTargets groups = (rowSources groups).map RowSource.container := by
  induction groups with
  | nil => rfl
  | cons g rest ih =>
    have h1 : rowTargets (g :: rest) = (none :: g.Containers.map some) ++ rowTargets rest := by
      simp [rowTargets]
    have h2 : rowSources (g :: rest) = (.header g :: g.Containers.map .member) ++ rowSources rest := by
      simp [rowSources]
    rw [h1, h2, ih]
    simp [RowSource.container, Function.comp_def]

theorem getSelectedContainerGrouped_eq (env : Env T) (m : Model T) :
    getSelectedContainerGrouped env m =
      if env.tableCursor m.containerTable.table < 0 then none
      else ((rowSources m.containerGroups).get?
        (env.tableCursor m.containerTable.table).toNat).bind RowSource.container := by
  unfold getSelectedContainerGrouped
  dsimp only
  split_ifs with hneg
  · rfl
  · have hcur : env.tableCursor m.containerTable.table =
        0 + (((env.tableCursor m.containerTable.table).toNat : Nat) : Int) := by
      omega
    have hscan := scanGroupsForContainer_eq m.containerGroups 0
      (env.tableCursor m.containerTable.table).toNat
    rw [← hcur] at hscan
    rw [hscan, rowTargets_eq, List.get?_eq_getElem?, List.get?_eq_getElem?, List.getElem?_map]
    cases (rowSources m.containerGroups)[(env.tableCursor m.containerTable.table).toNat]? <;>
      rfl

/-- C16: in grouped mode cursor resolution inverts the row flattening.  The
flattened sequence `rowSources` (per group the header, then the containers)
has as many entries as there are groups and containers together.  When
`updateGrouped` returns, the rows it hands to the table are the rendering of
that sequence, position by position.  For a cursor `c` inside the range,
`getSelectedContainerGrouped` returns the container of source number `c`:
none for a header row, and for a container row exactly the container whose
row was placed at `c`.  Outside the range it returns none. -/
theorem cursor_resolution_inverts_flattening (env : Env T) (m : Model T) :
    (rowSources m.containerGroups).length =
      m.containerGroups.length + (m.containerGroups.map fun g => g.Containers.length).sum ∧
    (∀ m1, updateGrouped env m = some m1 →
      ∃ rows : List Row,
        m1.containerTable.table = env.tableSetRows m.containerTable.table rows ∧
        rows.length = (rowSources m.containerGroups).length ∧
        ∀ n src, (rowSources m.containerGroups).get? n = some src →
          rows.get? n = renderRowSource env src) ∧
    ((env.tableCursor m.containerTable.table < 0 ∨
        ((rowSources m.containerGroups).length : Int) ≤ env.tableCursor m.containerTable.table) →
      getSelectedContainerGrouped env m = none) ∧
    (0 ≤ env.tableCursor m.containerTable.table →
      env.tableCursor m.containerTable.table < (rowSources m.containerGroups).length →
      ∃ src, (rowSources m.containerGroups).get?
          (env.tableCursor m.containerTable.table).toNat = some src ∧
        getSelectedContainerGrouped env m = src.container) := by
  refine ⟨rowSources_length _, ?_, ?_, ?_⟩
  · intro m1 hu
    unfold updateGrouped at hu
    rcases Option.map_eq_some'.1 hu with ⟨grows, hgrows, rfl⟩
    have hrender := rowSources_render env m.containerGroups grows hgrows
    exact ⟨grows.flatten, rfl, mapOpt_length _ _ _ hrender,
      fun n src hsrc => (mapOpt_get? _ _ _ hrender n src hsrc).symm⟩
  · rw [getSelectedContainerGrouped_eq]
    rintro (hneg | hbig)
    · rw [if_pos hneg]
    · split_ifs
      · rfl
      · have : (rowSources m.containerGroups).length ≤
            (env.tableCursor m.containerTable.table).toNat := by
          omega
        rw [List.get?_eq_none.2 this]
        rfl
  · intro h0 hlt
    rw [getSelectedContainerGrouped_eq]
    have hn : (env.tableCursor m.containerTable.table).toNat <
        (rowSources m.containerGroups).length := by
      omega
    obtain ⟨src, hsrc⟩ : ∃ src, (rowSources m.containerGroups).get?
        (env.tableCursor m.containerTable.table).toNat = some src :=
      ⟨_, List.get?_eq_get hn⟩
    refine ⟨src, hsrc, ?_⟩
    rw [if_neg (by omega), hsrc]
    rfl

theorem cursor_resolution_inverts_flattening_witness :
    (rowSources groupedModel.containerGroups).get?
        (plainEnv.tableCursor groupedModel.containerTable.table).toNat =
      some (.header sampleGroup) ∧
    getSelectedContainerGrouped plainEnv groupedModel = none := by
  have hsrc : (rowSources groupedModel.containerGroups).get?
      (plainEnv.tableCursor groupedModel.containerTable.table).toNat =
      some (.header sampleGroup) := by decide
  obtain ⟨src, hsrc2, hsel⟩ :=
    (cursor_resolution_inverts_flattening plainEnv groupedModel).2.2.2 (by decide) (by decide)
  rw [hsrc] at hsrc2
  cases hsrc2
  exact ⟨hsrc, hsel⟩

/-! ## The insertion sort: permutation and order -/

theorem insertBack_perm {α : Type} (less : α → α → Bool) (x : α) (l : List α) :
    (insertBack less x l).Perm (x :: l) := by
  induction l with
  | nil => exact List.Perm.refl _
  | cons y ys ih =>
    unfold insertBack
    split
    · exact ((List.Perm.cons y ih).trans (List.Perm.swap x y ys))
    · exact List.Perm.refl _

theorem foldl_insertBack_perm {α : Type} (less : α → α → Bool) (l acc : List α) :
    (l.foldl (fun sorted x => insertBack less x sorted) acc).Perm (l ++ acc) := by
  induction l generalizing acc with
  | nil => exact List.Perm.refl _
  | cons a rest ih =>
    simp only [List.foldl_cons, List.cons_append]
    exact (ih _).trans
      ((List.Perm.append_left rest (insertBack_perm less a acc)).trans List.perm_middle)

theorem sortSlice_perm {α : Type} (less : α → α → Bool) (l : List α) :
    (sortSlice less l).Perm l := by
  unfold sortSlice
  have := foldl_insertBack_perm less l []
  rw [List.append_nil] at this
  exact (List.reverse_perm _).trans this

theorem insertBack_sorted {α : Type} (less : α → α → Bool)
    (hasymm : ∀ a b, less a b = true → less b a = false)
    (hneg : ∀ a b c, less a c = true → less a b = true ∨ less b c = true)
    (x : α) (l : List α) (h : l.Pairwise fun a b => less a b = false) :
    (insertBack less x l).Pairwise fun a b => less a b = false := by
  induction l with
  | nil => exact List.pairwise_singleton _ _
  | cons y ys ih =>
    rw [List.pairwise_cons] at h
    unfold insertBack
    split
    · rename_i hxy
      rw [List.pairwise_cons]
      refine ⟨?_, ih h.2⟩
      intro b hb
      rcases (insertBack_mem less x b ys).1 hb with rfl | hb
      · exact hasymm _ _ hxy
      · exact h.1 b hb
    · rename_i hxy
      rw [List.pairwise_cons]
      refine ⟨?_, List.pairwise_cons.2 h⟩
      intro b hb
      rcases List.mem_cons.1 hb with rfl | hb
      · simpa using hxy
      · cases hxb : less x b with
        | false => rfl
        | true =>
          rcases hneg x y b hxb with h1 | h1
          · exact absurd h1 hxy
          · rw [h.1 b hb] at h1
            cases h1

theorem foldl_insertBack_sorted {α : Type} (less : α → α → Bool)
    (hasymm : ∀ a b, less a b = true → less b a = false)
    (hneg : ∀ a b c, less a c = true → less a b = true ∨ less b c = true)
    (l acc : List α) (h : acc.Pairwise fun a b => less a b = false) :
    (l.foldl (fun sorted x => insertBack less x sorted) acc).Pairwise
      fun a b => less a b = false := by
  induction l generalizing acc with
  | nil => exact h
  | cons a rest ih => exact ih _ (insertBack_sorted less hasymm hneg a acc h)

theorem sortSlice_sorted {α : Type} (less : α → α → Bool)
    (hasymm : ∀ a b, less a b = true → less b a = false)
    (hneg : ∀ a b c, less a c = true → less a b = true ∨ less b c = true) (l : List α) :
    (sortSlice less l).Pairwise fun a b => less b a = false := by
  unfold sortSlice
  rw [List.pairwise_reverse]
  exact foldl_insertBack_sorted less hasymm hneg l [] List.Pairwise.nil

theorem groupLess_asymm (a b : ContainerGroup) (h : groupLess a b = true) :
    groupLess b a = false := by
  unfold groupLess at h ⊢
  by_cases ha : a.Name = "Standalone Containers"
  · simp [ha] at h
  · by_cases hb : b.Name = "Standalone Containers"
    · simp [hb]
    · simp only [ha, hb, if_false, decide_eq_true_eq] at h
      simpa [ha, hb] using le_of_lt h

theorem groupLess_negTrans (a b c : ContainerGroup) (h : groupLess a c = true) :
    groupLess a b = true ∨ groupLess b c = true := by
  unfold groupLess at h ⊢
  by_cases ha : a.Name = "Standalone Containers"
  · simp [ha] at h
  · by_cases hb : b.Name = "Standalone Containers"
    · simp [ha, hb]
    · by_cases hc : c.Name = "Standalone Containers"
      · simp [hb, hc]
      · simp only [ha, hb, hc, if_false, decide_eq_true_eq] at h ⊢
        by_contra hcon
        rw [not_or, not_lt, not_lt] at hcon
        exact absurd h (not_lt.2 (le_trans hcon.2 hcon.1))

theorem groupLess_total (a b : ContainerGroup) (hne : a.Name ≠ b.Name) :
    groupLess a b = true ∨ groupLess b a = true := by
  unfold groupLess
  by_cases ha : a.Name = "Standalone Containers"
  · have hb : b.Name ≠ "Standalone Containers" := fun h => hne (ha.trans h.symm)
    simp [ha, hb]
  · by_cases hb : b.Name = "Standalone Containers"
    · simp [ha, hb]
    · simp only [ha, hb, if_false, decide_eq_true_eq]
      exact lt_or_gt_of_ne hne

theorem containerLess_asymm (a b : Container) (h : containerLess a b = true) :
    containerLess b a = false := by
  unfold containerLess at h ⊢
  simp only [decide_eq_true_eq] at h
  simpa using le_of_lt h

theorem containerLess_negTrans (a b c : Container) (h : containerLess a c = true) :
    containerLess a b = true ∨ containerLess b c = true := by
  unfold containerLess at h ⊢
  simp only [decide_eq_true_eq] at h ⊢
  by_contra hcon
  rw [not_or, not_lt, not_lt] at hcon
  exact absurd h (not_lt.2 (le_trans hcon.2 hcon.1))

/-! ## The groups: names, order, independence of the map enumeration -/

theorem groupInsert_keys (name : String) (c : Container)
    (groups : List (String × List Container)) :
    (groupInsert name c groups).map Prod.fst =
      if name ∈ groups.map Prod.fst then groups.map Prod.fst
      else groups.map Prod.fst ++ [name] := by
  induction groups with
  | nil => simp [groupInsert]
  | cons g rest ih =>
    obtain ⟨n, cs⟩ := g
    unfold groupInsert
    by_cases hn : n = name
    · simp [hn]
    · have hn2 : ¬ name = n := fun h => hn h.symm
      simp only [hn, if_false, List.map_cons, ih, List.mem_cons, hn2, false_or]
      split_ifs <;> simp

theorem buildGroups_keys_nodup (containers : List Container) :
    ((buildGroups containers).map Prod.fst).Nodup := by
  unfold buildGroups
  have key : ∀ (cs : List Container) (groups : List (String × List Container)),
      (groups.map Prod.fst).Nodup →
      ((cs.foldl (fun gs c => groupInsert (getComposeProjectName c) c gs) groups).map
        Prod.fst).Nodup := by
    intro cs
    induction cs with
    | nil => exact fun _ h => h
    | cons c rest ih =>
      intro groups h
      apply ih
      rw [groupInsert_keys]
      split_ifs with hmem
      · exact h
      · exact List.Nodup.append h (List.nodup_singleton _)
          (by simpa [List.disjoint_singleton] using hmem)
  exact key containers [] List.nodup_nil

theorem mapOpt_perm {α β : Type} (f : α → Option β) (l1 l2 : List α) (h : l1.Perm l2) :
    ∀ r1, mapOpt f l1 = some r1 → ∃ r2, mapOpt f l2 = some r2 ∧ r1.Perm r2 := by
  induction h with
  | nil => exact fun r1 h1 => ⟨r1, h1, List.Perm.refl _⟩
  | cons x _ ih =>
    intro r1 h1
    unfold mapOpt at h1
    split at h1
    · cases h1
    · rename_i b hb
      rcases Option.map_eq_some'.1 h1 with ⟨bs, hbs, rfl⟩
      obtain ⟨bs2, hbs2, hp⟩ := ih bs hbs
      exact ⟨b :: bs2, by rw [mapOpt_cons_some f x b _ hb, hbs2]; rfl, List.Perm.cons b hp⟩
  | swap x y l =>
    intro r1 h1
    unfold mapOpt at h1
    split at h1
    · cases h1
    · rename_i b hb
      rcases Option.map_eq_some'.1 h1 with ⟨bs, hbs, rfl⟩
      unfold mapOpt at hbs
      split at hbs
      · cases hbs
      · rename_i a ha
        rcases Option.map_eq_some'.1 hbs with ⟨as, has, rfl⟩
        exact ⟨a :: b :: as,
          by rw [mapOpt_cons_some f x a _ ha, mapOpt_cons_some f y b _ hb, has]; rfl,
          List.Perm.swap a b as⟩
  | trans _ _ ih1 ih2 =>
    intro r1 h1
    obtain ⟨r2, h2, hp12⟩ := ih1 r1 h1
    obtain ⟨r3, h3, hp23⟩ := ih2 r2 h2
    exact ⟨r3, h3, hp12.trans hp23⟩

theorem mapOpt_group_names (entries : List (String × List Container)) (gs : List ContainerGroup)
    (h : mapOpt (fun e : String × List Container =>
      (sortGroupContainers e.2).map (fun cs => ContainerGroup.mk e.1 cs)) entries = some gs) :
    gs.map (fun g => g.Name) = entries.map Prod.fst := by
  induction entries generalizing gs with
  | nil =>
    cases h
    rfl
  | cons e rest ih =>
    unfold mapOpt at h
    split at h
    · cases h
    · rename_i g hg
      rcases Option.map_eq_some'.1 h with ⟨gs1, hgs1, rfl⟩
      rcases Option.map_eq_some'.1 hg with ⟨cs1, -, rfl⟩
      simp [ih gs1 hgs1]

theorem sortSlice_groups_eq (gs1 gs2 : List ContainerGroup) (hp : gs1.Perm gs2)
    (hnodup : (gs2.map fun g => g.Name).Nodup) :
    sortSlice groupLess gs1 = sortSlice groupLess gs2 := by
  apply @List.Perm.eq_of_sorted ContainerGroup (fun a b => groupLess b a = false)
  · intro a b ha hb hab hba
    have ha2 : a ∈ gs2 := hp.subset ((sortSlice_mem _ _ _).1 ha)
    have hb2 : b ∈ gs2 := (sortSlice_mem _ _ _).1 hb
    have hname : a.Name = b.Name := by
      by_contra hne
      rcases groupLess_total a b hne with h1 | h1
      · rw [hba] at h1
        cases h1
      · rw [hab] at h1
        cases h1
    exact List.inj_on_of_nodup_map hnodup ha2 hb2 hname
  · exact sortSlice_sorted groupLess groupLess_asymm groupLess_negTrans gs1
  · exact sortSlice_sorted groupLess groupLess_asymm groupLess_negTrans gs2
  · exact (sortSlice_perm _ _).trans (hp.trans (sortSlice_perm _ _).symm)

theorem groups_names_and_order (containers : List Container) (groups : List ContainerGroup)
    (h : groupContainersByCompose containers = some groups) :
    (groups.map fun g => g.Name).Nodup ∧
      groups.Pairwise fun a b => groupLess b a = false := by
  unfold groupContainersByCompose groupsFromEntries at h
  rcases Option.map_eq_some'.1 h with ⟨gs, hgs, rfl⟩
  constructor
  · have hnames := mapOpt_group_names _ _ hgs
    have hnodup : (gs.map fun g => g.Name).Nodup := by
      rw [hnames]
      exact buildGroups_keys_nodup containers
    exact ((sortSlice_perm groupLess gs).map _).nodup_iff.2 hnodup
  · exact sortSlice_sorted groupLess groupLess_asymm groupLess_negTrans gs

theorem getLast_of_no_successor {α : Type} (p : α → Prop) (l : List α)
    (h : l.Pairwise fun a _ => ¬ p a) (g : α) (hg : g ∈ l) (hp : p g) :
    l.getLast? = some g := by
  induction l with
  | nil => cases hg
  | cons a rest ih =>
    rw [List.pairwise_cons] at h
    cases rest with
    | nil =>
      rcases List.mem_cons.1 hg with rfl | h2
      · rfl
      · cases h2
    | cons b rest2 =>
      rcases List.mem_cons.1 hg with rfl | h2
      · exact absurd hp (h.1 b (List.mem_cons_self _ _))
      · rw [List.getLast?_cons_cons]
        exact ih h.2 h2

/-- C12: when every container has a name, `groupContainersByCompose` returns
groups with pairwise distinct names; the group named `Standalone Containers`,
when present, is the last one; and the other groups are in strictly
ascending order of their names, whatever the names are. -/
theorem groups_ascending_standalone_last (containers : List Container)
    (hnames : ∀ c ∈ containers, c.Names ≠ []) :
    ∃ groups, groupContainersByCompose containers = some groups ∧
      (groups.map fun g => g.Name).Nodup ∧
      (∀ g ∈ groups, g.Name = "Standalone Containers" → groups.getLast? = some g) ∧
      (groups.filter fun g => g.Name ≠ "Standalone Containers").Pairwise
        fun a b => a.Name < b.Name := by
  obtain ⟨groups, hgroups⟩ := groupContainersByCompose_isSome containers hnames
  obtain ⟨hnodup, hsorted⟩ := groups_names_and_order containers groups hgroups
  have hne : groups.Pairwise fun a b => a.Name ≠ b.Name := by
    have := hnodup
    rw [List.Nodup, List.pairwise_map] at this
    exact this
  have hboth := hsorted.and hne
  refine ⟨groups, hgroups, hnodup, ?_, ?_⟩
  · intro g hg hname
    apply getLast_of_no_successor (fun a => a.Name = "Standalone Containers") groups _ g hg hname
    refine hboth.imp ?_
    intro a b hab ha
    have hb : b.Name ≠ "Standalone Containers" := fun hb => hab.2 (ha.trans hb.symm)
    have := hab.1
    simp [groupLess, ha, hb] at this
  · refine (hboth.sublist (List.filter_sublist _)).imp_of_mem ?_
    intro a b ha hb hab
    have ha2 : a.Name ≠ "Standalone Containers" := by
      simpa using (List.mem_filter.1 ha).2
    have hb2 : b.Name ≠ "Standalone Containers" := by
      simpa using (List.mem_filter.1 hb).2
    have := hab.1
    simp only [groupLess, ha2, hb2, if_false, decide_eq_false_iff_not, not_lt] at this
    exact lt_of_le_of_ne this hab.2

theorem groups_ascending_standalone_last_witness :
    ∃ groups, groupContainersByCompose scenarioContainers = some groups ∧
      (groups.map fun g => g.Name).Nodup ∧
      (∀ g ∈ groups, g.Name = "Standalone Containers" → groups.getLast? = some g) ∧
      (groups.filter fun g => g.Name ≠ "Standalone Containers").Pairwise
        fun a b => a.Name < b.Name :=
  groups_ascending_standalone_last scenarioContainers (by decide)

/-- C13: grouping does not depend on the order in which the map from names
to containers is enumerated: from every enumeration of the entries of the
map the second half of `groupContainersByCompose` computes the result it
computes from the entries in order of insertion, the same groups with the
same members in the same order, or the same panic. -/
theorem grouping_independent_of_map_order (containers : List Container)
    (entries : List (String × List Container)) (hperm : entries.Perm (buildGroups containers)) :
    groupsFromEntries entries = groupContainersByCompose containers := by
  unfold groupContainersByCompose groupsFromEntries
  cases h1 : mapOpt (fun e : String × List Container =>
      (sortGroupContainers e.2).map (fun cs => ContainerGroup.mk e.1 cs)) entries with
  | none =>
    cases h2 : mapOpt (fun e : String × List Container =>
        (sortGroupContainers e.2).map (fun cs => ContainerGroup.mk e.1 cs))
        (buildGroups containers) with
    | none => rfl
    | some gs2 =>
      obtain ⟨gs1, hgs1, -⟩ := mapOpt_perm _ _ _ hperm.symm gs2 h2
      rw [h1] at hgs1
      cases hgs1
  | some gs1 =>
    obtain ⟨gs2, hgs2, hp⟩ := mapOpt_perm _ _ _ hperm gs1 h1
    rw [hgs2]
    have hnodup : (gs2.map fun g => g.Name).Nodup := by
      rw [mapOpt_group_names _ _ hgs2]
      exact buildGroups_keys_nodup containers
    simp only [Option.map_some', Option.some.injEq]
    exact sortSlice_groups_eq gs1 gs2 hp hnodup

theorem grouping_independent_of_map_order_witness :
    groupsFromEntries (buildGroups scenarioContainers).reverse =
      groupContainersByCompose scenarioContainers :=
  grouping_independent_of_map_order scenarioContainers _ (List.reverse_perm _)

/-- C15: when every container has a name, the containers of every group that
`groupContainersByCompose` returns are in ascending byte-wise order of their
first names. -/
theorem groups_members_sorted_by_first_name (containers : List Container)
    (hnames : ∀ c ∈ containers, c.Names ≠ []) :
    ∃ groups, groupContainersByCompose containers = some groups ∧
      ∀ g ∈ groups, g.Containers.Pairwise fun a b =>
        ∀ x y, a.Names.head? = some x → b.Names.head? = some y → x ≤ y := by
  obtain ⟨groups, hgroups⟩ := groupContainersByCompose_isSome containers hnames
  refine ⟨groups, hgroups, ?_⟩
  intro g hg
  unfold groupContainersByCompose groupsFromEntries at hgroups
  rcases Option.map_eq_some'.1 hgroups with ⟨gs, hgs, rfl⟩
  have hg1 : g ∈ gs := (sortSlice_mem _ _ _).1 hg
  obtain ⟨e, -, hfe⟩ := mapOpt_mem _ _ _ hgs g hg1
  rcases Option.map_eq_some'.1 hfe with ⟨cs1, hcs1, rfl⟩
  dsimp only
  unfold sortGroupContainers at hcs1
  split_ifs at hcs1 with hlen hall
  · cases hcs1
    match e.2, hlen with
    | [], _ => exact List.Pairwise.nil
    | [a], _ => exact List.pairwise_singleton _ _
    | _ :: _ :: _, hlen =>
      simp only [List.length_cons] at hlen
      omega
  · cases hcs1
    refine (sortSlice_sorted containerLess containerLess_asymm containerLess_negTrans e.2).imp ?_
    intro a b hab x y hx hy
    unfold containerLess at hab
    have ha : a.Names.headD "" = x := by
      cases hn : a.Names with
      | nil => simp [hn] at hx
      | cons n ns =>
        simp only [hn, List.head?_cons, Option.some.injEq] at hx
        simpa using hx
    have hb : b.Names.headD "" = y := by
      cases hn : b.Names with
      | nil => simp [hn] at hy
      | cons n ns =>
        simp only [hn, List.head?_cons, Option.some.injEq] at hy
        simpa using hy
    rw [ha, hb] at hab
    simpa using hab

theorem groups_members_sorted_by_first_name_witness :
    ∃ groups, groupContainersByCompose scenarioContainers = some groups ∧
      ∀ g ∈ groups, g.Containers.Pairwise fun a b =>
        ∀ x y, a.Names.head? = some x → b.Names.head? = some y → x ≤ y :=
  groups_members_sorted_by_first_name scenarioContainers (by decide)

/-! ## The grouping scenario -/

theorem perm_three {α : Type} (l : List α) (a b c : α) (h : l.Perm [a, b, c]) :
    l = [a, b, c] ∨ l = [b, a, c] ∨ l = [c, b, a] ∨ l = [b, c, a] ∨ l = [c, a, b] ∨
      l = [a, c, b] := by
  have hmem : l ∈ [a, b, c].permutations := List.mem_permutations.2 h
  simpa [List.permutations, List.permutationsAux_cons, List.permutationsAux2] using hmem

theorem getGroupStatus_web (c1 c2 : Container) (ws : List Container)
    (hs1 : c1.State = "running") (hs2 : c2.State = "exited")
    (hws : ws = [c1, c2] ∨ ws = [c2, c1]) :
    getGroupStatus ⟨"web", ws⟩ = "1/2 running" := by
  rcases hws with rfl | rfl <;> simp [getGroupStatus, hs1, hs2] <;> decide

theorem sortSlice_pair (c1 c2 : Container) :
    sortSlice containerLess [c1, c2] = [c1, c2] ∨ sortSlice containerLess [c1, c2] = [c2, c1] := by
  unfold sortSlice
  simp only [List.foldl_cons, List.foldl_nil, insertBack]
  split_ifs <;> simp

theorem sortGroupContainers_pair (c1 c2 : Container) (hn1 : c1.Names ≠ []) (hn2 : c2.Names ≠ []) :
    sortGroupContainers [c1, c2] = some (sortSlice containerLess [c1, c2]) := by
  have h1 : c1.Names.isEmpty = false := by
    cases h : c1.Names with
    | nil => exact absurd h hn1
    | cons a b => rfl
  have h2 : c2.Names.isEmpty = false := by
    cases h : c2.Names with
    | nil => exact absurd h hn2
    | cons a b => rfl
  simp [sortGroupContainers, h1, h2]

theorem groupsFromEntries_web_standalone (x y c3 : Container) (hx : x.Names ≠ [])
    (hy : y.Names ≠ []) :
    groupsFromEntries [("web", [x, y]), ("Standalone Containers", [c3])] =
        some [⟨"web", sortSlice containerLess [x, y]⟩, ⟨"Standalone Containers", [c3]⟩] ∧
      groupsFromEntries [("Standalone Containers", [c3]), ("web", [x, y])] =
        some [⟨"web", sortSlice containerLess [x, y]⟩, ⟨"Standalone Containers", [c3]⟩] := by
  have hpair := sortGroupContainers_pair x y hx hy
  have hone : sortGroupContainers [c3] = some [c3] := by
    simp [sortGroupContainers]
  unfold groupsFromEntries
  simp only [mapOpt, hpair, hone, Option.map_some']
  generalize sortSlice containerLess [x, y] = ws
  constructor <;> simp [sortSlice, insertBack, groupLess]

/-- C17, amended: for a container list made of two containers labelled
`com.docker.compose.project=web`, one running and one exited, each with at
least one name, and one container with no labels, in any order,
`groupContainersByCompose` returns exactly two groups in this order: `web`
with the two labelled containers, whose `getGroupStatus` is `1/2 running`,
then `Standalone Containers` with the unlabelled container. -/
theorem scenario_web_then_standalone (containers : List Container) (c1 c2 c3 : Container)
    (hperm : containers.Perm [c1, c2, c3])
    (hmap1 : (c1.Labels.map Prod.fst).Nodup) (hmap2 : (c2.Labels.map Prod.fst).Nodup)
    (hl1 : ("com.docker.compose.project", "web") ∈ c1.Labels)
    (hl2 : ("com.docker.compose.project", "web") ∈ c2.Labels) (hl3 : c3.Labels = [])
    (hs1 : c1.State = "running") (hs2 : c2.State = "exited")
    (hn1 : c1.Names ≠ []) (hn2 : c2.Names ≠ []) :
    ∃ ws, groupContainersByCompose containers =
        some [⟨"web", ws⟩, ⟨"Standalone Containers", [c3]⟩] ∧
      (ws = [c1, c2] ∨ ws = [c2, c1]) ∧ ws.length = 2 ∧
      getGroupStatus ⟨"web", ws⟩ = "1/2 running" := by
  have hp1 : getComposeProjectName c1 = "web" := by
    unfold getComposeProjectName
    rw [mapLookup_of_mem _ _ _ hmap1 hl1]
  have hp2 : getComposeProjectName c2 = "web" := by
    unfold getComposeProjectName
    rw [mapLookup_of_mem _ _ _ hmap2 hl2]
  have hp3 : getComposeProjectName c3 = "Standalone Containers" := by
    simp [getComposeProjectName, mapLookup, hl3]
  have h12 := groupsFromEntries_web_standalone c1 c2 c3 hn1 hn2
  have h21 := groupsFromEntries_web_standalone c2 c1 c3 hn2 hn1
  have hsort12 := sortSlice_pair c1 c2
  have hsort21 : sortSlice containerLess [c2, c1] = [c1, c2] ∨
      sortSlice containerLess [c2, c1] = [c2, c1] := (sortSlice_pair c2 c1).symm
  have hlen : ∀ ws : List Container, ws = [c1, c2] ∨ ws = [c2, c1] → ws.length = 2 := by
    rintro ws (rfl | rfl) <;> rfl
  unfold groupContainersByCompose
  rcases perm_three containers c1 c2 c3 hperm with rfl | rfl | rfl | rfl | rfl | rfl
  · have hb : buildGroups [c1, c2, c3] =
        [("web", [c1, c2]), ("Standalone Containers", [c3])] := by
      simp [buildGroups, groupInsert, hp1, hp2, hp3]
    rw [hb]
    exact ⟨_, h12.1, hsort12, hlen _ hsort12, getGroupStatus_web c1 c2 _ hs1 hs2 hsort12⟩
  · have hb : buildGroups [c2, c1, c3] =
        [("web", [c2, c1]), ("Standalone Containers", [c3])] := by
      simp [buildGroups, groupInsert, hp1, hp2, hp3]
    rw [hb]
    exact ⟨_, h21.1, hsort21, hlen _ hsort21, getGroupStatus_web c1 c2 _ hs1 hs2 hsort21⟩
  · have hb : buildGroups [c3, c2, c1] =
        [("Standalone Containers", [c3]), ("web", [c2, c1])] := by
      simp [buildGroups, groupInsert, hp1, hp2, hp3]
    rw [hb]
    exact ⟨_, h21.2, hsort21, hlen _ hsort21, getGroupStatus_web c1 c2 _ hs1 hs2 hsort21⟩
  · have hb : buildGroups [c2, c3, c1] =
        [("web", [c2, c1]), ("Standalone Containers", [c3])] := by
      simp [buildGroups, groupInsert, hp1, hp2, hp3]
    rw [hb]
    exact ⟨_, h21.1, hsort21, hlen _ hsort21, getGroupStatus_web c1 c2 _ hs1 hs2 hsort21⟩
  · have hb : buildGroups [c3, c1, c2] =
        [("Standalone Containers", [c3]), ("web", [c1, c2])] := by
      simp [buildGroups, groupInsert, hp1, hp2, hp3]
    rw [hb]
    exact ⟨_, h12.2, hsort12, hlen _ hsort12, getGroupStatus_web c1 c2 _ hs1 hs2 hsort12⟩
  · have hb : buildGroups [c1, c3, c2] =
        [("web", [c1, c2]), ("Standalone Containers", [c3])] := by
      simp [buildGroups, groupInsert, hp1, hp2, hp3]
    rw [hb]
    exact ⟨_, h12.1, hsort12, hlen _ hsort12, getGroupStatus_web c1 c2 _ hs1 hs2 hsort12⟩

theorem scenario_web_then_standalone_witness :
    ∃ ws, groupContainersByCompose scenarioContainers =
        some [⟨"web", ws⟩, ⟨"Standalone Containers", [sampleContainer]⟩] ∧
      (ws = [webContainer "0123456789abcdef" "/api" "running",
            webContainer "fedcba9876543210" "/db" "exited"] ∨
        ws = [webContainer "fedcba9876543210" "/db" "exited",
            webContainer "0123456789abcdef" "/api" "running"]) ∧
      ws.length = 2 ∧ getGroupStatus ⟨"web", ws⟩ = "1/2 running" :=
  scenario_web_then_standalone scenarioContainers
    (webContainer "0123456789abcdef" "/api" "running")
    (webContainer "fedcba9876543210" "/db" "exited") sampleContainer (List.Perm.refl _)
    (by decide) (by decide) (by decide) (by decide) rfl rfl rfl (by decide) (by decide)

/-- C17, as stated, fails: two containers of the project `web` that have no
name make the comparison `Names[0]` of the sort inside the group panic. -/
theorem scenario_nameless_panics :
    namelessWebContainers.map (fun c => mapLookup c.Labels "com.docker.compose.project") =
        [some "web", some "web", none] ∧
      namelessWebContainers.map (fun c => c.Labels.length) = [2, 2, 0] ∧
      namelessWebContainers.map (fun c => c.State) = ["running", "exited", "running"] ∧
      groupContainersByCompose namelessWebContainers = none := by
  decide

/-! ## The column layout -/

theorem growColumns_sum_after (e r : Int) (titles : List String) (prefs : List Int) (i : Nat)
    (hlen : titles.length = prefs.length) (hr : r ≤ i) :
    ((growColumns e r titles prefs i).map fun col => col.Width).sum =
      prefs.sum + titles.length * e := by
  induction titles generalizing prefs i with
  | nil =>
    cases prefs with
    | nil => simp [growColumns]
    | cons w ws => simp at hlen
  | cons t ts ih =>
    cases prefs with
    | nil => simp at hlen
    | cons w ws =>
      simp only [List.length_cons, Nat.add_right_cancel_iff] at hlen
      have hnot : ¬ ((i : Int) < r) := by omega
      simp only [growColumns, if_neg hnot, List.map_cons, List.sum_cons, List.length_cons]
      rw [ih ws (i + 1) hlen (by omega)]
      push_cast
      ring

theorem growColumns_sum (e r : Int) (titles : List String) (prefs : List Int) (i : Nat)
    (hlen : titles.length = prefs.length) (hlo : (i : Int) ≤ r)
    (hhi : r ≤ (i : Int) + titles.length) :
    ((growColumns e r titles prefs i).map fun col => col.Width).sum =
      prefs.sum + titles.length * e + (r - i) := by
  induction titles generalizing prefs i with
  | nil =>
    cases prefs with
    | nil =>
      simp only [List.length_nil, Nat.cast_zero, add_zero] at hhi
      simp [growColumns]
      omega
    | cons w ws => simp at hlen
  | cons t ts ih =>
    cases prefs with
    | nil => simp at hlen
    | cons w ws =>
      simp only [List.length_cons, Nat.add_right_cancel_iff] at hlen
      simp only [List.length_cons, Nat.cast_add, Nat.cast_one] at hhi
      simp only [growColumns, List.map_cons, List.sum_cons, List.length_cons]
      by_cases hlt : (i : Int) < r
      · rw [if_pos hlt, ih ws (i + 1) hlen (by push_cast; omega) (by push_cast; omega)]
        push_cast
        ring
      · rw [if_neg hlt, growColumns_sum_after e r ts ws (i + 1) hlen (by push_cast; omega)]
        have : r = i := by omega
        rw [this]
        push_cast
        ring

theorem growColumns_length (e r : Int) (titles : List String) (prefs : List Int) (i : Nat)
    (hlen : titles.length = prefs.length) :
    (growColumns e r titles prefs i).length = titles.length := by
  induction titles generalizing prefs i with
  | nil => simp [growColumns]
  | cons t ts ih =>
    cases prefs with
    | nil => simp at hlen
    | cons w ws =>
      simp only [List.length_cons, Nat.add_right_cancel_iff] at hlen
      simp [growColumns, ih ws (i + 1) hlen]

/-- C18, amended: for every non-empty column specification with lists of
equal length and every available width `W` that is at least the sum of the
preferred widths and at least the sum of the minimum widths,
`distributeColumnWidths` returns one column per title and the widths sum to
exactly `W`. -/
theorem grow_branch_fills_width (env : Env T) (titles : List String)
    (minWidths preferredWidths : List Int) (W : Int)
    (hmin : titles.length = minWidths.length) (hpref : titles.length = preferredWidths.length)
    (hne : titles ≠ []) (hW : preferredWidths.sum ≤ W) (hWmin : minWidths.sum ≤ W) :
    ∃ cols, distributeColumnWidths env titles minWidths preferredWidths W = some cols ∧
      cols.length = titles.length ∧ (cols.map fun col => col.Width).sum = W := by
  have hn : titles.length ≠ 0 := fun h => hne (List.length_eq_zero.1 h)
  have hnpos : (0 : Int) < titles.length := by
    have := Nat.pos_of_ne_zero hn
    exact_mod_cast this
  have hextra : 0 ≤ W - preferredWidths.sum := by omega
  refine ⟨growColumns (Int.tdiv (W - preferredWidths.sum) titles.length)
    (Int.tmod (W - preferredWidths.sum) titles.length) titles preferredWidths 0, ?_,
    growColumns_length _ _ _ _ _ hpref, ?_⟩
  · unfold distributeColumnWidths
    have h1 : ¬ (titles.length ≠ minWidths.length ∨ titles.length ≠ preferredWidths.length) := by
      rw [not_or, not_not, not_not]
      exact ⟨hmin, hpref⟩
    have h2 : ¬ (W < minWidths.sum) := by omega
    have h3 : W ≥ preferredWidths.sum := hW
    simp only [if_neg h1, if_neg h2, if_pos h3, if_neg hn]
  · rw [growColumns_sum _ _ _ _ 0 hpref
      (by simpa using Int.tmod_nonneg (titles.length : Int) hextra)
      (by
        have := Int.tmod_lt_of_pos (W - preferredWidths.sum) hnpos
        simp only [Nat.cast_zero, zero_add]
        omega)]
    have h := Int.tmod_add_tdiv (W - preferredWidths.sum) (titles.length : Int)
    simp only [Nat.cast_zero, sub_zero]
    linarith

theorem grow_branch_fills_width_witness :
    ∃ cols, distributeColumnWidths plainEnv ["ID", "Name", "Size"] [12, 15, 15] [12, 30, 25] 80 =
        some cols ∧
      cols.length = ["ID", "Name", "Size"].length ∧ (cols.map fun col => col.Width).sum = 80 :=
  grow_branch_fills_width plainEnv ["ID", "Name", "Size"] [12, 15, 15] [12, 30, 25] 80 rfl rfl
    (by decide) (by decide) (by decide)

set_option maxRecDepth 4000 in
/-- C18, as stated, fails: with one column of minimum width 100 and preferred
width 1 the available width 5 is at least the sum of the preferred widths,
but below the sum of the minimum widths; the function scales down from the
minimum, floors at 8, and the widths sum to 8. -/
theorem minimum_branch_precedes_grow_branch :
    [(1 : Int)].sum ≤ 5 ∧
      distributeColumnWidths ieeeEnv ["Name"] [100] [1] 5 = some [⟨"Name", 8⟩] ∧
      ([(⟨"Name", 8⟩ : Column)].map fun col => col.Width).sum ≠ 5 := by
  decide

theorem fitColumns_floor (env : Env T) (W total : Int) (titles : List String)
    (minWidths preferredWidths : List Int) (hmin : titles.length = minWidths.length)
    (hpref : titles.length = preferredWidths.length) :
    List.Forall₂ (fun (col : Column) (lo : Int) => lo ≤ col.Width)
      (fitColumns env W total titles minWidths preferredWidths) minWidths := by
  induction titles generalizing minWidths preferredWidths with
  | nil =>
    cases minWidths with
    | nil => simp [fitColumns]
    | cons lo los => simp at hmin
  | cons t ts ih =>
    cases minWidths with
    | nil => simp at hmin
    | cons lo los =>
      cases preferredWidths with
      | nil => simp at hpref
      | cons w ws =>
        simp only [List.length_cons, Nat.add_right_cancel_iff] at hmin hpref
        simp only [fitColumns]
        refine List.Forall₂.cons ?_ (ih los ws hmin hpref)
        dsimp only
        split_ifs with h
        · exact le_refl _
        · exact not_lt.1 h

/-- C19: for every column specification with lists of equal length and every
available width `W` with `sum(minimum) ≤ W < sum(preferred)`,
`distributeColumnWidths` returns one column per minimum width, and every
width is at least the minimum width of its column. -/
theorem middle_range_respects_minimum (env : Env T) (titles : List String)
    (minWidths preferredWidths : List Int) (W : Int)
    (hmin : titles.length = minWidths.length) (hpref : titles.length = preferredWidths.length)
    (hlo : minWidths.sum ≤ W) (hhi : W < preferredWidths.sum) :
    ∃ cols, distributeColumnWidths env titles minWidths preferredWidths W = some cols ∧
      List.Forall₂ (fun (col : Column) (lo : Int) => lo ≤ col.Width) cols minWidths := by
  refine ⟨fitColumns env W preferredWidths.sum titles minWidths preferredWidths, ?_,
    fitColumns_floor env W _ titles minWidths preferredWidths hmin hpref⟩
  unfold distributeColumnWidths
  have h1 : ¬ (titles.length ≠ minWidths.length ∨ titles.length ≠ preferredWidths.length) := by
    rw [not_or, not_not, not_not]
    exact ⟨hmin, hpref⟩
  have h2 : ¬ (W < minWidths.sum) := by omega
  have h3 : ¬ (W ≥ preferredWidths.sum) := by omega
  simp only [if_neg h1, if_neg h2, if_neg h3]

theorem middle_range_respects_minimum_witness :
    ∃ cols, distributeColumnWidths plainEnv ["ID", "Name", "Size"] [12, 15, 15] [12, 30, 25] 50 =
        some cols ∧
      List.Forall₂ (fun (col : Column) (lo : Int) => lo ≤ col.Width) cols [12, 15, 15] :=
  middle_range_respects_minimum plainEnv ["ID", "Name", "Size"] [12, 15, 15] [12, 30, 25] 50
    rfl rfl (by decide) (by decide)

set_option maxRecDepth 4000 in
theorem ieeeScaleWidth_scenario :
    ieeeScaleWidth 12 40 42 = 11 ∧ ieeeScaleWidth 15 40 42 = 14 ∧
      ieeeScaleWidth 12 40 67 = 7 ∧ ieeeScaleWidth 30 40 67 = 17 ∧
      ieeeScaleWidth 25 40 67 = 14 := by
  decide

/-- C20: with the float arithmetic of the language, for available width 40,
minimum widths [12, 15, 15] and preferred widths [12, 30, 25],
`distributeColumnWidths` takes the branch that scales down from the minimum
widths and returns the widths [11, 14, 14]; the branch that scales down from
the preferred widths would have given [12, 17, 15]. -/
theorem scenario_scales_from_minimum (env : Env T) (t1 t2 t3 : String)
    (henv : ∀ w avail total, env.scaleWidth w avail total = ieeeScaleWidth w avail total) :
    distributeColumnWidths env [t1, t2, t3] [12, 15, 15] [12, 30, 25] 40 =
        some (shrinkColumns env 40 42 [t1, t2, t3] [12, 15, 15]) ∧
      distributeColumnWidths env [t1, t2, t3] [12, 15, 15] [12, 30, 25] 40 =
        some [⟨t1, 11⟩, ⟨t2, 14⟩, ⟨t3, 14⟩] ∧
      fitColumns env 40 67 [t1, t2, t3] [12, 15, 15] [12, 30, 25] =
        [⟨t1, 12⟩, ⟨t2, 17⟩, ⟨t3, 15⟩] := by
  obtain ⟨h1, h2, h3, h4, h5⟩ := ieeeScaleWidth_scenario
  have hbranch : distributeColumnWidths env [t1, t2, t3] [12, 15, 15] [12, 30, 25] 40 =
      some (shrinkColumns env 40 42 [t1, t2, t3] [12, 15, 15]) := by
    unfold distributeColumnWidths
    simp
  refine ⟨hbranch, ?_, ?_⟩
  · rw [hbranch]
    simp [shrinkColumns, henv, h1, h2]
  · simp [fitColumns, henv, h3, h4, h5]

theorem scenario_scales_from_minimum_witness :
    distributeColumnWidths ieeeEnv ["ID", "Name", "Size"] [12, 15, 15] [12, 30, 25] 40 =
      some [⟨"ID", 11⟩, ⟨"Name", 14⟩, ⟨"Size", 14⟩] :=
  (scenario_scales_from_minimum ieeeEnv "ID" "Name" "Size" (fun _ _ _ => rfl)).2.1

/-! ## The table pass-through -/

theorem passToTable_sameCore (env : Env T) (m : Model T) (msg : Msg) (cmds : List Cmd) :
    m.sameCore (passToTable env m msg cmds).1 := by
  unfold passToTable Model.sameCore
  split
  · simp
  · split <;> simp

theorem passToTable_shape (env : Env T) (m : Model T) (msg : Msg) (cmds : List Cmd) :
    ∃ rest, (passToTable env m msg cmds).2 = cmds ++ rest ∧ ∀ c ∈ rest, ∃ tag, c = Cmd.table tag := by
  have tail : ∀ o : Option Nat, ∃ rest,
      (match o with
        | some tag => cmds ++ [Cmd.table tag]
        | none => cmds) = cmds ++ rest ∧ ∀ c ∈ rest, ∃ tag, c = Cmd.table tag := by
    intro o
    cases o with
    | none => exact ⟨[], (List.append_nil cmds).symm, fun c hc => by cases hc⟩
    | some tag => exact ⟨_, rfl, fun c hc => ⟨_, List.mem_singleton.1 hc⟩⟩
  have same : ∃ rest, cmds = cmds ++ rest ∧ ∀ c ∈ rest, ∃ tag, c = Cmd.table tag :=
    ⟨[], (List.append_nil cmds).symm, fun c hc => by cases hc⟩
  unfold passToTable
  split
  · exact same
  · split
    · exact tail _
    · exact tail _
    · exact tail _
    · exact tail _
    · exact same

/-! ## What one event changes -/

theorem sameCore_refl (m : Model T) : m.sameCore m :=
  ⟨rfl, rfl, rfl, rfl, rfl, rfl, rfl⟩

theorem containerTable_update_groups (env : Env T) (m m1 : Model T)
    (h : ContainerTable.Update env m = some m1) :
    m.sameCore { m1 with containerGroups := m.containerGroups } ∧
      (m.groupByCompose = true →
        groupContainersByCompose m.containers = some m1.containerGroups) ∧
      (m.groupByCompose = false → m1.containerGroups = m.containerGroups) := by
  unfold ContainerTable.Update at h
  split_ifs at h with hg
  · rcases Option.bind_eq_some.1 h with ⟨m2, h2, h3⟩
    unfold UpdateContainerGroups at h2
    rcases Option.map_eq_some'.1 h2 with ⟨groups, hgroups, rfl⟩
    obtain ⟨ct, rfl⟩ := updateGrouped_eq env _ _ h3
    refine ⟨⟨rfl, rfl, rfl, rfl, rfl, rfl, rfl⟩, fun _ => hgroups, fun hf => ?_⟩
    rw [hg] at hf
    cases hf
  · obtain ⟨ct, rfl⟩ := updateFlat_eq env _ _ h
    exact ⟨⟨rfl, rfl, rfl, rfl, rfl, rfl, rfl⟩, fun ht => (hg ht).elim, fun _ => rfl⟩

theorem showDeleteConfirmation_frame (env : Env T) (m m1 : Model T)
    (h : showDeleteConfirmation env m = some m1) :
    m1 = m ∨ (m1.dialogVisible = true ∧ m1.pendingAction.isSome = true ∧
      m.sameCore { m1 with confirmDialog := m.confirmDialog, pendingAction := m.pendingAction }) := by
  unfold showDeleteConfirmation at h
  split at h
  · split at h
    · rcases Option.map_eq_some'.1 h with ⟨id, -, rfl⟩
      exact Or.inr ⟨rfl, rfl, rfl, rfl, rfl, rfl, rfl, rfl, rfl⟩
    · cases h
      exact Or.inl rfl
  · split at h
    · cases h
      exact Or.inr ⟨rfl, rfl, rfl, rfl, rfl, rfl, rfl, rfl, rfl⟩
    · cases h
      exact Or.inl rfl
  · split at h
    · cases h
      exact Or.inr ⟨rfl, rfl, rfl, rfl, rfl, rfl, rfl, rfl, rfl⟩
    · cases h
      exact Or.inl rfl
  · split at h
    · cases h
      exact Or.inr ⟨rfl, rfl, rfl, rfl, rfl, rfl, rfl, rfl, rfl⟩
    · cases h
      exact Or.inl rfl
  · cases h
    exact Or.inl rfl

theorem showStopConfirmation_frame (env : Env T) (m m1 : Model T)
    (h : showStopConfirmation env m = some m1) :
    m.sameCore m1 ∨ (m1.dialogVisible = true ∧ m1.pendingAction.isSome = true ∧
      m.sameCore { m1 with confirmDialog := m.confirmDialog, pendingAction := m.pendingAction }) := by
  unfold showStopConfirmation at h
  split at h
  · split_ifs at h
    · rcases Option.map_eq_some'.1 h with ⟨id, -, rfl⟩
      exact Or.inl ⟨rfl, rfl, rfl, rfl, rfl, rfl, rfl⟩
    · rcases Option.map_eq_some'.1 h with ⟨id, -, rfl⟩
      exact Or.inr ⟨rfl, rfl, rfl, rfl, rfl, rfl, rfl, rfl, rfl⟩
  · cases h
    exact Or.inl (sameCore_refl m)

theorem frame_next (P : Model T → Prop) (m1 : Model T) (cs : List Cmd) (b : Branch T)
    (hb : some (Branch.next m1 cs) = some b) (hcs : ∀ s, Cmd.tick s ∉ cs) (hp : P m1) :
    (∀ s, Cmd.tick s ∉ b.cmds) ∧ P b.model := by
  cases hb
  exact ⟨hcs, hp⟩

theorem frame_map (P : Model T → Prop) (o : Option (Model T)) (b : Branch T)
    (hb : o.map (fun m1 => Branch.next m1 []) = some b) (hp : ∀ m1, o = some m1 → P m1) :
    (∀ s, Cmd.tick s ∉ b.cmds) ∧ P b.model := by
  rcases Option.map_eq_some'.1 hb with ⟨m1, h1, rfl⟩
  exact ⟨fun s hs => (List.not_mem_nil _ hs).elim, hp m1 h1⟩

theorem nextView_sameCore (m : Model T) : m.sameCore m.nextView := by
  unfold Model.nextView
  split <;> exact ⟨rfl, rfl, rfl, rfl, rfl, rfl, rfl⟩

theorem keySwitch_frame (env : Env T) (m : Model T) (k : String) (b : Branch T)
    (hb : keySwitch env m k = some b) :
    (∀ s, Cmd.tick s ∉ b.cmds) ∧ m.keyStep k b.model := by
  have nil : ∀ s, Cmd.tick s ∉ ([] : List Cmd) := fun s hs => (List.not_mem_nil _ hs).elim
  have self : m.keyStep k m := Or.inl (sameCore_refl m)
  have armed : ∀ m1 : Model T, (m1.dialogVisible = true ∧ m1.pendingAction.isSome = true ∧
      m.sameCore { m1 with confirmDialog := m.confirmDialog, pendingAction := m.pendingAction }) →
      m.keyStep k m1 := fun m1 h => Or.inr (Or.inl h)
  unfold keySwitch at hb
  -- Quit
  rcases ite_some_cases _ _ _ _ hb with ⟨-, hb⟩ | ⟨-, hb⟩
  · cases hb
    exact ⟨fun s hs => (by cases List.mem_singleton.1 hs),
      Or.inl ⟨rfl, rfl, rfl, rfl, rfl, rfl, rfl⟩⟩
  -- Tab, Containers, Images, Networks, Volumes
  rcases ite_some_cases _ _ _ _ hb with ⟨-, hb⟩ | ⟨-, hb⟩
  · exact frame_next _ _ _ _ hb nil (Or.inl (nextView_sameCore m))
  rcases ite_some_cases _ _ _ _ hb with ⟨-, hb⟩ | ⟨-, hb⟩
  · exact frame_next _ _ _ _ hb nil (Or.inl ⟨rfl, rfl, rfl, rfl, rfl, rfl, rfl⟩)
  rcases ite_some_cases _ _ _ _ hb with ⟨-, hb⟩ | ⟨hImages, hb⟩
  · exact frame_next _ _ _ _ hb nil (Or.inl ⟨rfl, rfl, rfl, rfl, rfl, rfl, rfl⟩)
  rcases ite_some_cases _ _ _ _ hb with ⟨-, hb⟩ | ⟨hNetworks, hb⟩
  · exact frame_next _ _ _ _ hb nil (Or.inl ⟨rfl, rfl, rfl, rfl, rfl, rfl, rfl⟩)
  rcases ite_some_cases _ _ _ _ hb with ⟨-, hb⟩ | ⟨-, hb⟩
  · exact frame_next _ _ _ _ hb nil (Or.inl ⟨rfl, rfl, rfl, rfl, rfl, rfl, rfl⟩)
  -- Refresh
  rcases ite_some_cases _ _ _ _ hb with ⟨-, hb⟩ | ⟨-, hb⟩
  · exact frame_next _ _ _ _ hb (fun s hs => by cases List.mem_singleton.1 hs) self
  -- Delete
  rcases ite_some_cases _ _ _ _ hb with ⟨-, hb⟩ | ⟨-, hb⟩
  · refine frame_map _ _ _ hb (fun m1 h1 => ?_)
    rcases showDeleteConfirmation_frame env m m1 h1 with rfl | h
    · exact Or.inl (sameCore_refl m1)
    · exact armed m1 h
  -- Stop
  rcases ite_some_cases _ _ _ _ hb with ⟨-, hb⟩ | ⟨-, hb⟩
  · rcases ite_some_cases _ _ _ _ hb with ⟨-, hb⟩ | ⟨-, hb⟩
    · refine frame_map _ _ _ hb (fun m1 h1 => ?_)
      rcases showStopConfirmation_frame env m m1 h1 with h | h
      · exact Or.inl h
      · exact armed m1 h
    · exact frame_next _ _ _ _ hb nil self
  -- Help
  rcases ite_some_cases _ _ _ _ hb with ⟨-, hb⟩ | ⟨-, hb⟩
  · exact frame_next _ _ _ _ hb nil (Or.inl ⟨rfl, rfl, rfl, rfl, rfl, rfl, rfl⟩)
  -- Logs
  rcases ite_some_cases _ _ _ _ hb with ⟨-, hb⟩ | ⟨-, hb⟩
  · rcases ite_some_cases _ _ _ _ hb with ⟨-, hb⟩ | ⟨-, hb⟩
    · exact frame_next _ _ _ _ hb (fun s hs => by cases List.mem_singleton.1 hs) self
    · exact frame_next _ _ _ _ hb nil self
  -- ThemeDefault, ThemeDark, ThemeLight
  rcases ite_some_cases _ _ _ _ hb with ⟨-, hb⟩ | ⟨hDefault, hb⟩
  · exact frame_next _ _ _ _ hb nil
      (Or.inr (Or.inr (Or.inr ⟨⟨rfl, rfl, rfl, rfl, rfl, rfl, rfl⟩, Or.inl rfl⟩)))
  rcases ite_some_cases _ _ _ _ hb with ⟨hk, hb⟩ | ⟨-, hb⟩
  · exact frame_next _ _ _ _ hb nil
      (Or.inr (Or.inr (Or.inr ⟨⟨rfl, rfl, rfl, rfl, rfl, rfl, rfl⟩,
        Or.inr (Or.inl ⟨rfl, hk, Bool.eq_false_iff.2 hImages, Bool.eq_false_iff.2 hDefault⟩)⟩)))
  rcases ite_some_cases _ _ _ _ hb with ⟨hk, hb⟩ | ⟨-, hb⟩
  · exact frame_next _ _ _ _ hb nil
      (Or.inr (Or.inr (Or.inr ⟨⟨rfl, rfl, rfl, rfl, rfl, rfl, rfl⟩,
        Or.inr (Or.inr ⟨rfl, hk, Bool.eq_false_iff.2 hNetworks, Bool.eq_false_iff.2 hDefault⟩)⟩)))
  -- GroupToggle
  rcases ite_some_cases _ _ _ _ hb with ⟨hk, hb⟩ | ⟨-, hb⟩
  · rcases ite_some_cases _ _ _ _ hb with ⟨-, hb⟩ | ⟨-, hb⟩
    · refine frame_map _ _ _ hb (fun m1 h1 => ?_)
      obtain ⟨⟨h1c, -, h1g, h1d, h1p, h1t, h1k⟩, hon, hoff⟩ :=
        containerTable_update_groups env _ m1 h1
      refine Or.inr (Or.inr (Or.inl ⟨hk, h1g, ⟨h1c, rfl, rfl, h1d, h1p, h1t, h1k⟩, ?_, ?_⟩))
      · intro ht
        have h2 := hon (h1g.symm.trans ht)
        rw [h1c]
        exact h2
      · intro hf
        exact hoff (h1g.symm.trans hf)
    · exact frame_next _ _ _ _ hb nil self
  -- GroupStop
  rcases ite_some_cases _ _ _ _ hb with ⟨-, hb⟩ | ⟨-, hb⟩
  · rcases ite_some_cases _ _ _ _ hb with ⟨-, hb⟩ | ⟨-, hb⟩
    · cases hg : getSelectedGroup env m with
      | none =>
        rw [hg] at hb
        exact frame_next _ _ _ _ hb nil self
      | some g =>
        rw [hg] at hb
        exact frame_next _ _ _ _ hb (fun s hs => by cases List.mem_singleton.1 hs) self
    · exact frame_next _ _ _ _ hb nil self
  -- GroupStart
  rcases ite_some_cases _ _ _ _ hb with ⟨-, hb⟩ | ⟨-, hb⟩
  · rcases ite_some_cases _ _ _ _ hb with ⟨-, hb⟩ | ⟨-, hb⟩
    · cases hg : getSelectedGroup env m with
      | none =>
        rw [hg] at hb
        exact frame_next _ _ _ _ hb nil self
      | some g =>
        rw [hg] at hb
        exact frame_next _ _ _ _ hb (fun s hs => by cases List.mem_singleton.1 hs) self
    · exact frame_next _ _ _ _ hb nil self
  -- GroupDelete
  rcases ite_some_cases _ _ _ _ hb with ⟨-, hb⟩ | ⟨-, hb⟩
  · rcases ite_some_cases _ _ _ _ hb with ⟨-, hb⟩ | ⟨-, hb⟩
    · cases hg : getSelectedGroup env m with
      | none =>
        rw [hg] at hb
        exact frame_next _ _ _ _ hb nil self
      | some g =>
        rw [hg] at hb
        exact frame_next _ _ _ _ hb nil
          (armed _ ⟨rfl, rfl, rfl, rfl, rfl, rfl, rfl, rfl, rfl⟩)
    · exact frame_next _ _ _ _ hb nil self
  exact frame_next _ _ _ _ hb nil self

theorem keyStep_congr (m m1 m2 : Model T) (k : String) (hs : m1.sameCore m2)
    (h : m.keyStep k m1) : m.keyStep k m2 := by
  obtain ⟨h1, h2, h3, h4, h5, h6, h7⟩ := hs
  unfold Model.keyStep Model.sameCore Model.dialogVisible at *
  dsimp only at h ⊢
  rw [h1, h2, h3, h4, h5, h6, h7]
  exact h

theorem eventStep_congr (m m1 m2 : Model T) (msg : Msg) (hs : m1.sameCore m2)
    (h : m.eventStep msg m1) : m.eventStep msg m2 := by
  rcases h with h | ⟨k, hk, hv, h⟩ | h | h
  · obtain ⟨h1, h2, h3, h4, h5, h6, h7⟩ := hs
    obtain ⟨g1, g2, g3, g4, g5, g6, g7⟩ := h
    exact Or.inl ⟨h1.trans g1, h2.trans g2, h3.trans g3, h4.trans g4, h5.trans g5,
      h6.trans g6, h7.trans g7⟩
  · exact Or.inr (Or.inl ⟨k, hk, hv, keyStep_congr m m1 m2 k hs h⟩)
  · refine Or.inr (Or.inr (Or.inl ?_))
    obtain ⟨h1, h2, h3, h4, h5, h6, h7⟩ := hs
    unfold Model.sameCore Model.dialogVisible at *
    dsimp only at h ⊢
    rw [h1, h2, h3, h4, h5, h6, h7]
    exact h
  · refine Or.inr (Or.inr (Or.inr ?_))
    obtain ⟨h1, h2, h3, h4, h5, h6, h7⟩ := hs
    unfold Model.sameCore at *
    dsimp only at h ⊢
    rw [h1, h2, h3, h4, h5, h6, h7]
    exact h

theorem confirmKey_step (m : Model T) (k : String) :
    (m.sameCore (confirmKey m k).1 ∨
      ((confirmKey m k).1.dialogVisible = false ∧ (confirmKey m k).1.pendingAction = none ∧
        m.sameCore { (confirmKey m k).1 with
          confirmDialog := m.confirmDialog, pendingAction := m.pendingAction })) ∧
      ∀ s, Cmd.tick s ∉ (confirmKey m k).2 := by
  unfold confirmKey
  split_ifs with h1 h2
  · split
    · rename_i a hp
      refine ⟨Or.inr ⟨hideDialog_not_visible _, rfl, rfl, rfl, rfl, rfl, rfl, rfl, rfl⟩, ?_⟩
      intro s hs
      have := List.mem_singleton.1 hs
      cases a <;> cases this
    · rename_i hp
      refine ⟨Or.inr ⟨hideDialog_not_visible m, hp, rfl, rfl, rfl, rfl, rfl, rfl, rfl⟩, ?_⟩
      intro s hs
      cases hs
  · refine ⟨Or.inr ⟨hideDialog_not_visible m, rfl, rfl, rfl, rfl, rfl, rfl, rfl, rfl⟩, ?_⟩
    intro s hs
    cases hs
  · refine ⟨Or.inl (sameCore_refl m), ?_⟩
    intro s hs
    cases hs

theorem handleDataRefresh_step (env : Env T) (now : Clock) (m m1 : Model T)
    (cs : List Container) (is : List Image) (ns : List Network) (vs : List Volume)
    (h : handleDataRefresh env now m cs is ns vs = some m1) :
    m1.containers = cs ∧
      m.sameCore { m1 with containers := m.containers, containerGroups := m.containerGroups } ∧
      (m1.groupByCompose = true → groupContainersByCompose cs = some m1.containerGroups) ∧
      (m1.groupByCompose = false → m1.containerGroups = m.containerGroups) := by
  unfold handleDataRefresh at h
  simp only [bind, Option.bind_eq_some, pure, Option.some.injEq] at h
  obtain ⟨m2, h2, m3, h3, m4, h4, m5, h5, rfl⟩ := h
  obtain ⟨⟨g1, -, g3, g4, g5, g6, g7⟩, hon, hoff⟩ := containerTable_update_groups env _ _ h2
  obtain ⟨it, rfl⟩ := imageTable_update_eq env _ _ h3
  obtain ⟨nt, rfl⟩ := networkTable_update_eq env _ _ h4
  obtain ⟨vt, rfl⟩ := volumeTable_update_eq env _ _ h5
  exact ⟨g1, ⟨rfl, rfl, g3, g4, g5, g6, g7⟩, fun ht => hon (g3.symm.trans ht),
    fun hf => hoff (g3.symm.trans hf)⟩

theorem update_step (env : Env T) (now : Clock) (m m1 : Model T) (msg : Msg) (cmds : List Cmd)
    (h : Update env now m msg = some (m1, cmds)) :
    m.eventStep msg m1 ∧ ∀ s, Cmd.tick s ∈ cmds → msg = .tick ∧ s = 5 := by
  unfold Update at h
  rcases Option.map_eq_some'.1 h with ⟨b, hb, hres⟩
  -- the table pass-through keeps the core fields and adds no tick
  have pass : ∀ m2 cs, b = .next m2 cs → m.eventStep msg m2 →
      m.eventStep msg m1 ∧ ∀ s, Cmd.tick s ∈ cmds → Cmd.tick s ∈ cs := by
    intro m2 cs hbe hstep
    subst hbe
    dsimp only at hres
    have e1 : (passToTable env m2 msg cs).1 = m1 := by rw [hres]
    have e2 : (passToTable env m2 msg cs).2 = cmds := by rw [hres]
    refine ⟨?_, fun s hs => ?_⟩
    · rw [← e1]
      exact eventStep_congr m m2 _ msg (passToTable_sameCore env m2 msg cs) hstep
    · rw [← e2] at hs
      rcases passToTable_cmds env _ _ _ _ hs with h1 | ⟨tag, h1⟩
      · exact h1
      · cases h1
  cases msg with
  | windowSize w ht =>
    simp only [msgSwitch] at hb
    rcases Option.map_eq_some'.1 hb with ⟨m2, h2, rfl⟩
    obtain ⟨ct, it, nt, vt, hs⟩ :=
      updateTableSizes_eq env { m with width := w, height := ht, ready := true }
    rw [hs] at h2
    cases h2
    obtain ⟨p1, p2⟩ := pass _ _ rfl (Or.inl ⟨rfl, rfl, rfl, rfl, rfl, rfl, rfl⟩)
    exact ⟨p1, fun s hs => by cases p2 s hs⟩
  | tick =>
    simp only [msgSwitch, Option.some.injEq] at hb
    subst hb
    obtain ⟨p1, p2⟩ := pass _ _ rfl (Or.inl (sameCore_refl m))
    refine ⟨p1, fun s hs => ⟨rfl, ?_⟩⟩
    have := p2 s hs
    simp only [List.mem_cons, List.mem_singleton, List.not_mem_nil, or_false] at this
    rcases this with h1 | h1
    · cases h1
    · cases h1
      rfl
  | key k =>
    simp only [msgSwitch] at hb
    by_cases hv : m.dialogVisible = true
    · rw [if_pos hv] at hb
      simp only [Option.some.injEq] at hb
      subst hb
      simp only [Prod.mk.injEq] at hres
      obtain ⟨rfl, rfl⟩ := hres
      obtain ⟨c1, c2⟩ := confirmKey_step m k
      refine ⟨?_, fun s hs => (c2 s hs).elim⟩
      rcases c1 with c1 | ⟨c1, c3, c4⟩
      · exact Or.inl c1
      · exact Or.inr (Or.inr (Or.inl ⟨k, rfl, hv, c1, c3, c4⟩))
    · rw [if_neg hv] at hb
      obtain ⟨f1, f2⟩ := keySwitch_frame env m k b hb
      have hstep : m.eventStep (.key k) b.model :=
        Or.inr (Or.inl ⟨k, rfl, by simpa using hv, f2⟩)
      cases b with
      | returned m2 cs =>
        simp only [Prod.mk.injEq] at hres
        obtain ⟨rfl, rfl⟩ := hres
        exact ⟨hstep, fun s hs => (f1 s hs).elim⟩
      | next m2 cs =>
        obtain ⟨p1, p2⟩ := pass _ _ rfl hstep
        exact ⟨p1, fun s hs => (f1 s (p2 s hs)).elim⟩
  | dataRefreshed cs is ns vs =>
    simp only [msgSwitch] at hb
    rcases Option.map_eq_some'.1 hb with ⟨m2, h2, rfl⟩
    obtain ⟨p1, p2⟩ := pass _ _ rfl
      (Or.inr (Or.inr (Or.inr ⟨cs, is, ns, vs, rfl,
        handleDataRefresh_step env now m m2 cs is ns vs h2⟩)))
    exact ⟨p1, fun s hs => by cases p2 s hs⟩
  | error e =>
    simp only [msgSwitch, Option.some.injEq] at hb
    subst hb
    obtain ⟨p1, p2⟩ := pass _ _ rfl (Or.inl ⟨rfl, rfl, rfl, rfl, rfl, rfl, rfl⟩)
    exact ⟨p1, fun s hs => by cases p2 s hs⟩
  | status t =>
    simp only [msgSwitch, Option.some.injEq] at hb
    subst hb
    obtain ⟨p1, p2⟩ := pass _ _ rfl (Or.inl ⟨rfl, rfl, rfl, rfl, rfl, rfl, rfl⟩)
    exact ⟨p1, fun s hs => by cases p2 s hs⟩
  | other tag =>
    simp only [msgSwitch, Option.some.injEq] at hb
    subst hb
    obtain ⟨p1, p2⟩ := pass _ _ rfl (Or.inl (sameCore_refl m))
    exact ⟨p1, fun s hs => by cases p2 s hs⟩

/-! ## The refresh schedule -/

/-- C21, amended: `Init` emits one refresh request and schedules the first
tick after 1 second; every tick is handled, emits one refresh request and
schedules the next tick after 5 seconds, and whatever else the handled tick
returns is a command of the table library.  No other event schedules a tick:
a tick command returned by `Update` comes from a tick and has a delay of 5
seconds. -/
theorem refresh_schedule (env : Env T) (now : Clock) (m : Model T) :
    Init = [Cmd.refreshData, Cmd.tick 1] ∧
      (∃ m1 rest, Update env now m .tick = some (m1, [Cmd.refreshData, Cmd.tick 5] ++ rest) ∧
        ∀ c ∈ rest, ∃ tag, c = Cmd.table tag) ∧
      ∀ msg m1 cmds s, Update env now m msg = some (m1, cmds) → Cmd.tick s ∈ cmds →
        msg = .tick ∧ s = 5 := by
  refine ⟨rfl, ?_, fun msg m1 cmds s hu hs => (update_step env now m m1 msg cmds hu).2 s hs⟩
  obtain ⟨rest, h1, h2⟩ := passToTable_shape env m .tick [Cmd.refreshData, Cmd.tick 5]
  refine ⟨(passToTable env m .tick [Cmd.refreshData, Cmd.tick 5]).1, rest, ?_, h2⟩
  simp only [Update, msgSwitch, Option.map_some']
  rw [← h1]

/-- C21, as stated, fails: the delay of the tick that `Init` schedules is one
second, not five. -/
theorem init_tick_delay_is_one_second :
    Cmd.tick 1 ∈ Init ∧ ¬ ∀ s, Cmd.tick s ∈ Init → s = 5 := by
  refine ⟨by decide, fun h => ?_⟩
  have := h 1 (by decide)
  omega

/-! ## The groups and the snapshot -/

theorem eventStep_groupsCurrent (m m1 : Model T) (msg : Msg) (hm : m.groupsCurrent)
    (h : m.eventStep msg m1) : m1.groupsCurrent := by
  unfold Model.groupsCurrent at *
  rcases h with ⟨h1, h2, h3, -⟩ | ⟨k, -, -, h⟩ | ⟨k, -, -, -, -, h1, h2, h3, -⟩ |
    ⟨cs, is, ns, vs, -, hc, -, hon, -⟩
  · intro ht
    rw [h1, h2]
    exact hm (h3.symm.trans ht)
  · rcases h with ⟨h1, h2, h3, -⟩ | ⟨-, -, h1, h2, h3, -⟩ | ⟨-, -, -, hon, -⟩ |
      ⟨⟨h1, h2, h3, -⟩, -⟩
    · intro ht
      rw [h1, h2]
      exact hm (h3.symm.trans ht)
    · intro ht
      dsimp only at h1 h2 h3
      rw [h1, h2]
      exact hm (h3.symm.trans ht)
    · exact hon
    · intro ht
      dsimp only at h1 h2 h3
      rw [h1, h2]
      exact hm (h3.symm.trans ht)
  · intro ht
    dsimp only at h1 h2 h3
    rw [h1, h2]
    exact hm (h3.symm.trans ht)
  · intro ht
    rw [hc]
    exact hon ht

theorem eventStep_snapshot (m m1 : Model T) (msg : Msg) (h : m.eventStep msg m1) :
    (m1.containers ≠ m.containers → ∃ cs is ns vs, msg = .dataRefreshed cs is ns vs) ∧
      (m1.containerGroups ≠ m.containerGroups →
        m1.groupByCompose = true ∧
          ((∃ cs is ns vs, msg = .dataRefreshed cs is ns vs) ∨
            ∃ k, msg = .key k ∧ m.dialogVisible = false ∧
              keyMatches k m.keys.GroupToggle = true ∧ m.groupByCompose = false)) := by
  rcases h with ⟨h1, h2, -⟩ | ⟨k, hk, hv, h⟩ | ⟨k, -, -, -, -, h1, h2, -⟩ |
    ⟨cs, is, ns, vs, hmsg, -, -, -, hoff⟩
  · exact ⟨fun hne => (hne h1).elim, fun hne => (hne h2).elim⟩
  · rcases h with ⟨h1, h2, -⟩ | ⟨-, -, h1, h2, -⟩ | ⟨hkey, hflip, ⟨h1, -⟩, -, hoff⟩ |
      ⟨⟨h1, h2, -⟩, -⟩
    · exact ⟨fun hne => (hne h1).elim, fun hne => (hne h2).elim⟩
    · exact ⟨fun hne => (hne h1).elim, fun hne => (hne h2).elim⟩
    · refine ⟨fun hne => (hne h1).elim, fun hne => ?_⟩
      have hon : m1.groupByCompose = true := by
        cases hg : m1.groupByCompose with
        | true => rfl
        | false => exact (hne (hoff hg)).elim
      refine ⟨hon, Or.inr ⟨k, hk, hv, hkey, ?_⟩⟩
      rw [hon] at hflip
      cases hb : m.groupByCompose with
      | false => rfl
      | true =>
        rw [hb] at hflip
        cases hflip
    · exact ⟨fun hne => (hne h1).elim, fun hne => (hne h2).elim⟩
  · exact ⟨fun hne => (hne h1).elim, fun hne => (hne h2).elim⟩
  · refine ⟨fun _ => ⟨cs, is, ns, vs, hmsg⟩, fun hne => ⟨?_, Or.inl ⟨cs, is, ns, vs, hmsg⟩⟩⟩
    cases hg : m1.groupByCompose with
    | true => rfl
    | false => exact (hne (hoff hg)).elim

/-- C22: in every state reachable from the initial state, if grouping is
enabled the stored groups are `groupContainersByCompose` of the current
containers.  One event changes the container list only if it is a fetch
result, and changes the stored groups only by recomputing them with
grouping on, on a fetch result or on a key of the grouping toggle that turns
grouping on; recomputing the groups leaves the container list as it is. -/
theorem groups_follow_the_snapshot (env : Env T) (stop : Binding) (m : Model T)
    (hm : Reachable env stop m) :
    (m.groupByCompose = true →
      groupContainersByCompose m.containers = some m.containerGroups) ∧
    (∀ now msg m1 cmds, Update env now m msg = some (m1, cmds) →
      (m1.containers ≠ m.containers → ∃ cs is ns vs, msg = .dataRefreshed cs is ns vs) ∧
      (m1.containerGroups ≠ m.containerGroups →
        m1.groupByCompose = true ∧
          groupContainersByCompose m1.containers = some m1.containerGroups ∧
          ((∃ cs is ns vs, msg = .dataRefreshed cs is ns vs) ∨
            ∃ k, msg = .key k ∧ m.dialogVisible = false ∧
              keyMatches k m.keys.GroupToggle = true ∧ m.groupByCompose = false))) ∧
    (∀ m1, UpdateContainerGroups m = some m1 → m1.containers = m.containers) := by
  have inv : m.groupsCurrent := by
    induction hm with
    | init =>
      intro h
      cases h
    | step now msg _ hu ih => exact eventStep_groupsCurrent _ _ msg ih (update_step env now _ _ msg _ hu).1
  refine ⟨inv, ?_, ?_⟩
  · intro now msg m1 cmds hu
    have hstep := (update_step env now m m1 msg cmds hu).1
    obtain ⟨s1, s2⟩ := eventStep_snapshot m m1 msg hstep
    refine ⟨s1, fun hne => ?_⟩
    obtain ⟨g1, g2⟩ := s2 hne
    exact ⟨g1, eventStep_groupsCurrent m m1 msg inv hstep g1, g2⟩
  · intro m1 h1
    unfold UpdateContainerGroups at h1
    rcases Option.map_eq_some'.1 h1 with ⟨groups, -, rfl⟩
    rfl

theorem groups_follow_the_snapshot_witness :
    Reachable plainEnv ["ctrl+s"] groupedModel ∧ groupedModel.groupByCompose = true ∧
      groupContainersByCompose groupedModel.containers = some groupedModel.containerGroups :=
  have hr : Reachable plainEnv ["ctrl+s"] groupedModel :=
    reachable_runEvents plainEnv ["ctrl+s"] noon [sampleRefresh, .key "g"] startModel groupedModel
      Reachable.init (by decide)
  ⟨hr, by decide, (groups_follow_the_snapshot plainEnv ["ctrl+s"] groupedModel hr).1 (by decide)⟩

/-! ## The dialog and the pending action -/

theorem eventStep_gateConsistent (m m1 : Model T) (msg : Msg) (hm : m.gateConsistent)
    (h : m.eventStep msg m1) : m1.gateConsistent := by
  have keep : ∀ m2 : Model T, m2.confirmDialog = m.confirmDialog →
      m2.pendingAction = m.pendingAction → m2.gateConsistent := by
    intro m2 hd hp
    unfold Model.gateConsistent Model.dialogVisible at *
    rw [hd, hp]
    exact hm
  rcases h with ⟨-, -, -, hd, hp, -⟩ | ⟨k, -, -, h⟩ | ⟨k, -, -, hv, hp, -⟩ |
    ⟨cs, is, ns, vs, -, -, ⟨-, -, -, hd, hp, -⟩, -⟩
  · exact keep m1 hd hp
  · rcases h with ⟨-, -, -, hd, hp, -⟩ | ⟨hv, hp, -⟩ | ⟨-, -, ⟨-, -, -, hd, hp, -⟩, -⟩ |
      ⟨⟨-, -, -, hd, hp, -⟩, -⟩
    · exact keep m1 hd hp
    · unfold Model.gateConsistent
      rw [hv, hp]
    · exact keep m1 hd hp
    · exact keep m1 hd hp
  · unfold Model.gateConsistent
    rw [hv, hp]
    rfl
  · exact keep m1 hd hp

/-- C26: in every state reachable from the initial state the dialog is
visible if and only if a pending action is set.  So in such a state with the
dialog visible a confirm key (y or Y) is handled, returns exactly one
command, the command of the pending action, which is an action command, and
leaves no dialog and no pending action. -/
theorem dialog_visible_iff_pending (env : Env T) (stop : Binding) (m : Model T)
    (hm : Reachable env stop m) :
    (m.dialogVisible = true ↔ m.pendingAction.isSome = true) ∧
    (m.dialogVisible = true → ∀ now k, k = "y" ∨ k = "Y" →
      ∃ a m1, m.pendingAction = some a ∧ Update env now m (.key k) = some (m1, [a.run]) ∧
        a.run.isAction = true ∧ m1.dialogVisible = false ∧ m1.pendingAction = none) := by
  have inv : m.gateConsistent := by
    induction hm with
    | init => rfl
    | step now msg _ hu ih =>
      exact eventStep_gateConsistent _ _ msg ih (update_step env now _ _ msg _ hu).1
  unfold Model.gateConsistent at inv
  refine ⟨by rw [inv], fun hv now k hk => ?_⟩
  rw [hv] at inv
  cases hp : m.pendingAction with
  | none =>
    rw [hp] at inv
    cases inv
  | some a =>
    refine ⟨a, { m with pendingAction := none }.hideDialog, rfl, ?_, ?_,
      hideDialog_not_visible _, rfl⟩
    · rw [update_key_dialog env now m k hv]
      unfold confirmKey
      rw [if_pos hk, hp]
    · cases a <;> rfl

theorem dialog_visible_iff_pending_witness :
    Reachable plainEnv ["ctrl+s"] armedModel ∧ armedModel.dialogVisible = true ∧
      armedModel.pendingAction.isSome = true :=
  have hr : Reachable plainEnv ["ctrl+s"] armedModel :=
    reachable_runEvents plainEnv ["ctrl+s"] noon [sampleRefresh, .key "d"] startModel armedModel
      Reachable.init (by decide)
  ⟨hr, by decide, (dialog_visible_iff_pending plainEnv ["ctrl+s"] armedModel hr).1.1 (by decide)⟩

/-! ## The palette keys -/

theorem defaultKeys_theme_guards (stop : Binding) (k : String) :
    (keyMatches k (DefaultKeyMap stop).ThemeDark = true →
      keyMatches k (DefaultKeyMap stop).Images = true ∨
        keyMatches k (DefaultKeyMap stop).ThemeDefault = true) ∧
    (keyMatches k (DefaultKeyMap stop).ThemeLight = true →
      keyMatches k (DefaultKeyMap stop).Networks = true ∨
        keyMatches k (DefaultKeyMap stop).ThemeDefault = true) := by
  simp only [keyMatches, DefaultKeyMap, List.contains_cons, List.contains_nil, Bool.or_false,
    Bool.or_eq_true, beq_iff_eq]
  constructor
  · rintro (h | h)
    · exact Or.inr (Or.inl h)
    · exact Or.inl h
  · rintro (h | h)
    · exact Or.inr (Or.inl h)
    · exact Or.inl h

theorem eventStep_theme (m m1 : Model T) (stop : Binding) (msg : Msg)
    (hkeys : m.keys = DefaultKeyMap stop) (h : m.eventStep msg m1) :
    (m1.theme = m.theme ∨ m1.theme = Theme.default) ∧ m1.keys = m.keys := by
  rcases h with ⟨-, -, -, -, -, ht, hk⟩ | ⟨k, -, -, h⟩ | ⟨k, -, -, -, -, -, -, -, -, -, ht, hk⟩ |
    ⟨cs, is, ns, vs, -, -, ⟨-, -, -, -, -, ht, hk⟩, -⟩
  · exact ⟨Or.inl ht, hk⟩
  · rcases h with ⟨-, -, -, -, -, ht, hk⟩ | ⟨-, -, -, -, -, -, -, ht, hk⟩ |
      ⟨-, -, ⟨-, -, -, -, -, ht, hk⟩, -⟩ | ⟨⟨-, -, -, -, -, -, hk⟩, ht⟩
    · exact ⟨Or.inl ht, hk⟩
    · exact ⟨Or.inl ht, hk⟩
    · exact ⟨Or.inl ht, hk⟩
    · refine ⟨?_, hk⟩
      obtain ⟨g1, g2⟩ := defaultKeys_theme_guards stop k
      rw [← hkeys] at g1 g2
      rcases ht with ht | ⟨-, h1, h2, h3⟩ | ⟨-, h1, h2, h3⟩
      · exact Or.inr ht
      · rcases g1 h1 with g | g
        · rw [h2] at g
          cases g
        · rw [h3] at g
          cases g
      · rcases g2 h1 with g | g
        · rw [h2] at g
          cases g
        · rw [h3] at g
          cases g
  · exact ⟨Or.inl ht, hk⟩
  · exact ⟨Or.inl ht, hk⟩

theorem reachable_default_theme (env : Env T) (stop : Binding) (m : Model T)
    (hm : Reachable env stop m) : m.theme = Theme.default ∧ m.keys = DefaultKeyMap stop := by
  induction hm with
  | init => exact ⟨rfl, rfl⟩
  | step now msg _ hu ih =>
    obtain ⟨h1, h2⟩ := eventStep_theme _ _ stop msg ih.2 (update_step env now _ _ msg _ hu).1
    refine ⟨?_, h2.trans ih.2⟩
    rcases h1 with h1 | h1
    · exact h1.trans ih.1
    · exact h1

/-- C29: with the default key map no key event selects the dark or the light
theme.  A key that matches the binding of the dark theme matches the
binding of the images view or of the default theme, and a key that matches
the binding of the light theme matches the binding of the networks view or
of the default theme, which come earlier in the key switch.  With no dialog
visible the key 2 switches to the images view, the key 3 to the networks
view, and the key t, unless the stop binding holds it, sets the default
theme.  After any key the palette is the one before the key or the default
one, and every state reachable from the initial state has the default
palette. -/
theorem dark_and_light_theme_unreachable (env : Env T) (now : Clock) (stop : Binding)
    (m : Model T) (k : String) (hkeys : m.keys = DefaultKeyMap stop) :
    (keyMatches k m.keys.ThemeDark = true →
      keyMatches k m.keys.Images = true ∨ keyMatches k m.keys.ThemeDefault = true) ∧
    (keyMatches k m.keys.ThemeLight = true →
      keyMatches k m.keys.Networks = true ∨ keyMatches k m.keys.ThemeDefault = true) ∧
    (m.dialogVisible = false →
      Update env now m (.key "2") =
        some (passToTable env { m with currentView := ImagesView } (.key "2") []) ∧
      Update env now m (.key "3") =
        some (passToTable env { m with currentView := NetworksView } (.key "3") []) ∧
      ("t" ∉ stop → Update env now m (.key "t") =
        some (passToTable env (m.SetTheme env Theme.default) (.key "t") []))) ∧
    (∀ m1 cmds, Update env now m (.key k) = some (m1, cmds) →
      m1.theme = m.theme ∨ m1.theme = Theme.default) ∧
    (Reachable env stop m → m.theme = Theme.default) := by
  refine ⟨?_, ?_, ?_, ?_, fun hm => (reachable_default_theme env stop m hm).1⟩
  · rw [hkeys]
    exact (defaultKeys_theme_guards stop k).1
  · rw [hkeys]
    exact (defaultKeys_theme_guards stop k).2
  · intro hv
    refine ⟨?_, ?_, ?_⟩
    · simp [Update, msgSwitch, hv, keySwitch, hkeys, keyMatches, DefaultKeyMap]
    · simp [Update, msgSwitch, hv, keySwitch, hkeys, keyMatches, DefaultKeyMap]
    · intro hstop
      simp [Update, msgSwitch, hv, keySwitch, hkeys, keyMatches, DefaultKeyMap, hstop]
  · intro m1 cmds hu
    exact (eventStep_theme m m1 stop _ hkeys (update_step env now m m1 _ cmds hu).1).1

theorem dark_and_light_theme_unreachable_witness :
    startModel.keys = DefaultKeyMap ["ctrl+s"] ∧
      Update plainEnv noon startModel (.key "2") =
        some (passToTable plainEnv { startModel with currentView := ImagesView } (.key "2") []) ∧
      Update plainEnv noon startModel (.key "t") =
        some (passToTable plainEnv (startModel.SetTheme plainEnv Theme.default) (.key "t") []) :=
  have h := (dark_and_light_theme_unreachable plainEnv noon ["ctrl+s"] startModel "t" rfl).2.2.1
    (by decide)
  ⟨rfl, h.1, h.2.2 (by decide)⟩

/-! ## Repository and tag of an image -/

theorem lastColon_append (pre rest : List Char) (h : ':' ∉ pre) :
    lastColon (pre ++ ':' :: rest) = some rest.length := by
  induction pre with
  | nil => simp [lastColon]
  | cons c cs ih =>
    have hc : c ≠ ':' := fun e => h (by simp [e])
    have hcs : ':' ∉ cs := fun e => h (List.mem_cons_of_mem _ e)
    simp only [List.cons_append, lastColon, if_neg hc]
    exact ih hcs

/-- C30: `parseRepoTag` inverts joining a repository and a tag with a colon,
for a non-empty repository and a non-empty tag without a colon; and for
every input neither returned part is the empty string. -/
theorem parseRepoTag_inverts_join (repo tag : String) (hrepo : repo ≠ "") (htag : tag ≠ "")
    (hcolon : ':' ∉ tag.data) :
    parseRepoTag (repo ++ ":" ++ tag) = (repo, tag) ∧
      ∀ s, (parseRepoTag s).1 ≠ "" ∧ (parseRepoTag s).2 ≠ "" := by
  constructor
  · have hdata : (repo ++ ":" ++ tag).data = repo.data ++ ':' :: tag.data := by
      simp [String.data_append]
    have hne : repo ++ ":" ++ tag ≠ "" := by
      intro e
      have := congrArg String.data e
      rw [hdata] at this
      simp at this
    have hlast : lastColon (repo ++ ":" ++ tag).data.reverse = some repo.data.length := by
      rw [hdata, List.reverse_append, List.reverse_cons, List.append_assoc]
      have := lastColon_append tag.data.reverse repo.data.reverse (by simpa using hcolon)
      simpa using this
    unfold parseRepoTag
    rw [if_neg hne, hlast]
    dsimp only
    rw [hdata]
    have h1 : (⟨(repo.data ++ ':' :: tag.data).take repo.data.length⟩ : String) = repo := by
      rw [List.take_left']
      rfl
    have h2 : (⟨(repo.data ++ ':' :: tag.data).drop (repo.data.length + 1)⟩ : String) = tag := by
      have : (repo.data ++ ':' :: tag.data).drop (repo.data.length + 1) = tag.data := by
        rw [← List.drop_drop, List.drop_left']
        · rfl
        · rfl
      rw [this]
    rw [h1, h2, if_neg hrepo, if_neg htag]
  · intro s
    have hnone : ("<none>" : String) ≠ "" := by decide
    unfold parseRepoTag
    split_ifs with h0
    · exact ⟨hnone, hnone⟩
    · split
      · exact ⟨h0, hnone⟩
      · dsimp only
        constructor
        · split_ifs with h1
          · exact hnone
          · exact h1
        · split_ifs with h1
          · exact hnone
          · exact h1

theorem parseRepoTag_inverts_join_witness :
    parseRepoTag ("registry:5000/nginx" ++ ":" ++ "1.25") = ("registry:5000/nginx", "1.25") :=
  (parseRepoTag_inverts_join "registry:5000/nginx" "1.25" (by decide) (by decide)
    (by decide)).1

/-! ## The two cursor walks of the grouped table -/

theorem scanGroupRows_before (cs : List Container) (idx : Nat) (r cursor : Int)
    (h : cursor < r) : scanGroupRows cursor cs idx r = .inr (r + cs.length) := by
  induction cs generalizing idx r with
  | nil => simp [scanGroupRows]
  | cons c rest ih =>
    unfold scanGroupRows
    rw [if_neg (by omega), ih (idx + 1) (r + 1) (by omega)]
    congr 1
    simp only [List.length_cons]
    push_cast
    omega

theorem scanGroups_before (groups : List ContainerGroup) (gi : Nat) (row cursor : Int)
    (h : cursor < row) : scanGroups cursor groups gi row = (-1, -1, false) := by
  induction groups generalizing gi row with
  | nil => rfl
  | cons g gs ih =>
    unfold scanGroups
    rw [if_neg (by omega), scanGroupRows_before _ _ _ _ (by omega)]
    exact ih (gi + 1) _ (by omega)

theorem rowOwners_cons (g : ContainerGroup) (gs : List ContainerGroup) :
    rowOwners (g :: gs) = g :: (List.replicate g.Containers.length g ++ rowOwners gs) := by
  simp [rowOwners, List.replicate_succ]

theorem rowTargets_cons (g : ContainerGroup) (gs : List ContainerGroup) :
    rowTargets (g :: gs) = none :: (g.Containers.map some ++ rowTargets gs) := by
  simp [rowTargets]

theorem scanGroups_spec (pre rest : List ContainerGroup) (row : Int) (n : Nat) :
    (if (scanGroups (row + n) rest pre.length row).1 ≥ 0 ∧
          (scanGroups (row + n) rest pre.length row).1 < (pre ++ rest).length then
        (pre ++ rest).get? (scanGroups (row + n) rest pre.length row).1.toNat
      else none) = (rowOwners rest).get? n ∧
    (if (scanGroups (row + n) rest pre.length row).2.2 = true ∨
          (scanGroups (row + n) rest pre.length row).1 < 0 ∨
          (scanGroups (row + n) rest pre.length row).2.1 < 0 then none
      else
        match (pre ++ rest).get? (scanGroups (row + n) rest pre.length row).1.toNat with
        | some group =>
          if (scanGroups (row + n) rest pre.length row).2.1 < group.Containers.length then
            group.Containers.get? (scanGroups (row + n) rest pre.length row).2.1.toNat
          else none
        | none => none) = ((rowTargets rest).get? n).join := by
  induction rest generalizing pre row n with
  | nil => simp [scanGroups, rowOwners, rowTargets]
  | cons g gs ih =>
    have hget : (pre ++ g :: gs).get? pre.length = some g := by
      rw [List.get?_eq_getElem?, List.getElem?_append_right (le_refl _)]
      simp
    have hlen : (pre.length : Int) < ((pre ++ g :: gs).length : Int) := by
      simp only [List.length_append, List.length_cons]
      push_cast
      omega
    rw [rowOwners_cons, rowTargets_cons]
    unfold scanGroups
    cases n with
    | zero =>
      simp only [Nat.cast_zero, add_zero, if_true]
      refine ⟨?_, ?_⟩
      · rw [if_pos ⟨by omega, hlen⟩]
        simpa using hget
      · simp
    | succ n1 =>
      have hne : ¬ (row = row + ((n1 + 1 : Nat) : Int)) := by omega
      rw [if_neg hne]
      have hcur : row + ((n1 + 1 : Nat) : Int) = (row + 1) + (n1 : Int) := by omega
      rw [hcur, scanGroupRows_eq]
      by_cases hlt : n1 < g.Containers.length
      · rw [if_pos hlt]
        dsimp only
        refine ⟨?_, ?_⟩
        · rw [if_pos ⟨by omega, hlen⟩]
          simp only [Int.toNat_ofNat, hget, List.get?_eq_getElem?, List.getElem?_cons_succ]
          rw [List.getElem?_append_left (by simpa using hlt)]
          simp [List.getElem?_replicate, hlt]
        · have hc : ¬ ((false = true) ∨ (pre.length : Int) < 0 ∨ ((0 + n1 : Nat) : Int) < 0) := by
            simp
          rw [if_neg hc]
          simp only [Int.toNat_ofNat, hget]
          rw [if_pos (by simpa using hlt)]
          simp only [List.get?_eq_getElem?, List.getElem?_cons_succ, Nat.zero_add]
          rw [List.getElem?_append_left (by simpa using hlt)]
          simp [List.getElem?_map]
          cases hcs : g.Containers[n1]? <;> rfl
      · rw [if_neg hlt]
        dsimp only
        have hsplit : (row + 1) + (n1 : Int) =
            (row + 1 + (g.Containers.length : Int)) + ((n1 - g.Containers.length : Nat) : Int) := by
          omega
        have hpre : (pre ++ [g]).length = pre.length + 1 := by simp
        have happ : (pre ++ [g]) ++ gs = pre ++ g :: gs := by simp
        have := ih (pre ++ [g]) (row + 1 + (g.Containers.length : Int)) (n1 - g.Containers.length)
        rw [hpre, happ, ← hsplit] at this
        obtain ⟨t1, t2⟩ := this
        have hle1 : (List.replicate g.Containers.length g).length ≤ n1 := by
          simpa using Nat.le_of_not_lt hlt
        have hle2 : (g.Containers.map some).length ≤ n1 := by
          simpa using Nat.le_of_not_lt hlt
        refine ⟨?_, ?_⟩
        · rw [t1]
          simp only [List.get?_eq_getElem?, List.getElem?_cons_succ]
          rw [List.getElem?_append_right hle1]
          simp
        · rw [t2]
          simp only [List.get?_eq_getElem?, List.getElem?_cons_succ]
          rw [List.getElem?_append_right hle2]
          simp

theorem getSelectedItem_eq (env : Env T) (m : Model T) (hg : m.groupByCompose = true) :
    getSelectedItem env m = scanGroups (env.tableCursor m.containerTable.table) m.containerGroups 0 0 := by
  unfold getSelectedItem
  split_ifs with h
  · rw [hg] at h
    simp only [Bool.not_true, Bool.false_or, decide_eq_true_eq] at h
    rw [List.length_eq_zero.1 h]
    rfl
  · rfl

theorem members_owned (g : ContainerGroup) (cs : List Container) (h : ∀ c ∈ cs, c ∈ g.Containers) :
    List.Forall₂
      (fun src owner => src = RowSource.header owner ∨ ∃ c ∈ owner.Containers, src = RowSource.member c)
      (cs.map RowSource.member) (List.replicate cs.length g) := by
  induction cs with
  | nil => exact List.Forall₂.nil
  | cons c rest ih =>
    exact List.Forall₂.cons (Or.inr ⟨c, h c (List.mem_cons_self _ _), rfl⟩)
      (ih fun x hx => h x (List.mem_cons_of_mem _ hx))

theorem rowSources_owned (groups : List ContainerGroup) :
    List.Forall₂
      (fun src owner => src = RowSource.header owner ∨ ∃ c ∈ owner.Containers, src = RowSource.member c)
      (rowSources groups) (rowOwners groups) := by
  induction groups with
  | nil => exact List.Forall₂.nil
  | cons g rest ih =>
    have h2 : rowSources (g :: rest) = .header g :: (g.Containers.map .member ++ rowSources rest) := by
      simp [rowSources]
    rw [h2, rowOwners_cons]
    exact List.Forall₂.cons (Or.inl rfl)
      (List.rel_append (members_owned g g.Containers fun c hc => hc) ih)

/-- C27: in grouped mode the two cursor walks agree.  `getSelectedContainer`,
built on `getSelectedItem`, and `getSelectedContainerGrouped` return the same
result for every list of groups and every cursor: both none or both the
same container.  `getSelectedGroup` returns the owner of the cursor row in
the flattened rows, where the owner of a header row is the group of the
header and the owner of a member row is the group that holds the member,
and it returns none for a cursor outside the flattened rows. -/
theorem grouped_resolvers_agree (env : Env T) (m : Model T) (hg : m.groupByCompose = true) :
    getSelectedContainer env m = getSelectedContainerGrouped env m ∧
    getSelectedGroup env m =
      (if env.tableCursor m.containerTable.table < 0 then none
        else (rowOwners m.containerGroups).get? (env.tableCursor m.containerTable.table).toNat) ∧
    List.Forall₂
      (fun src owner => src = RowSource.header owner ∨ ∃ c ∈ owner.Containers, src = RowSource.member c)
      (rowSources m.containerGroups) (rowOwners m.containerGroups) ∧
    ((env.tableCursor m.containerTable.table < 0 ∨
        ((rowSources m.containerGroups).length : Int) ≤ env.tableCursor m.containerTable.table) →
      getSelectedGroup env m = none) := by
  have hitem := getSelectedItem_eq env m hg
  have howned := rowSources_owned m.containerGroups
  have hgroup : getSelectedGroup env m =
      (if env.tableCursor m.containerTable.table < 0 then none
        else (rowOwners m.containerGroups).get?
          (env.tableCursor m.containerTable.table).toNat) := by
    unfold getSelectedGroup
    dsimp only
    rw [hitem]
    by_cases hneg : env.tableCursor m.containerTable.table < 0
    · rw [if_pos hneg, scanGroups_before _ _ _ _ hneg]
      simp
    · rw [if_neg hneg]
      have hcur : env.tableCursor m.containerTable.table =
          0 + (((env.tableCursor m.containerTable.table).toNat : Nat) : Int) := by
        omega
      have hspec := (scanGroups_spec [] m.containerGroups 0
        (env.tableCursor m.containerTable.table).toNat).1
      rw [← hcur] at hspec
      simp only [List.length_nil, List.nil_append] at hspec
      exact hspec
  refine ⟨?_, hgroup, howned, ?_⟩
  · unfold getSelectedContainer getSelectedContainerGrouped
    dsimp only
    rw [hitem]
    by_cases hneg : env.tableCursor m.containerTable.table < 0
    · rw [if_pos hneg, scanGroups_before _ _ _ _ hneg]
      simp
    · rw [if_neg hneg]
      have hcur : env.tableCursor m.containerTable.table =
          0 + (((env.tableCursor m.containerTable.table).toNat : Nat) : Int) := by
        omega
      have hspec := (scanGroups_spec [] m.containerGroups 0
        (env.tableCursor m.containerTable.table).toNat).2
      have hscan := scanGroupsForContainer_eq m.containerGroups 0
        (env.tableCursor m.containerTable.table).toNat
      rw [← hcur] at hspec hscan
      simp only [List.length_nil, List.nil_append] at hspec
      rw [hscan]
      exact hspec
  · rw [hgroup]
    rintro (hneg | hbig)
    · rw [if_pos hneg]
    · split_ifs
      · rfl
      · have : (rowOwners m.containerGroups).length ≤
            (env.tableCursor m.containerTable.table).toNat := by
          rw [← howned.length_eq]
          omega
        exact List.get?_eq_none.2 this

theorem grouped_resolvers_agree_witness :
    groupedModel.groupByCompose = true ∧
      getSelectedContainer plainEnv groupedModel =
        getSelectedContainerGrouped plainEnv groupedModel ∧
      getSelectedGroup plainEnv groupedModel = some sampleGroup :=
  have h := grouped_resolvers_agree plainEnv groupedModel (by decide)
  ⟨by decide, h.1, h.2.1.trans (by decide)⟩

/-! ## The groups partition the containers -/

theorem groupInsert_flat (name : String) (c : Container)
    (groups : List (String × List Container)) :
    ((groupInsert name c groups).flatMap Prod.snd).Perm (c :: groups.flatMap Prod.snd) := by
  induction groups with
  | nil => simp [groupInsert]
  | cons g rest ih =>
    obtain ⟨n, cs⟩ := g
    unfold groupInsert
    split_ifs
    · simp only [List.flatMap_cons, List.append_assoc, List.singleton_append]
      exact (List.perm_middle).trans (List.Perm.refl _)
    · simp only [List.flatMap_cons]
      exact ((List.Perm.append_left cs ih).trans List.perm_middle)

theorem groupInsert_entries (name : String) (c : Container)
    (groups : List (String × List Container))
    (h : ∀ e ∈ groups, e.2 ≠ [] ∧ ∀ x ∈ e.2, getComposeProjectName x = e.1)
    (hc : getComposeProjectName c = name) :
    ∀ e ∈ groupInsert name c groups, e.2 ≠ [] ∧ ∀ x ∈ e.2, getComposeProjectName x = e.1 := by
  induction groups with
  | nil =>
    intro e he
    simp only [groupInsert, List.mem_singleton] at he
    subst he
    exact ⟨by simp, fun x hx => by rw [List.mem_singleton.1 hx]; exact hc⟩
  | cons g rest ih =>
    obtain ⟨n, cs⟩ := g
    have hg := h (n, cs) (List.mem_cons_self _ _)
    have hrest : ∀ e ∈ rest, e.2 ≠ [] ∧ ∀ x ∈ e.2, getComposeProjectName x = e.1 :=
      fun e he => h e (List.mem_cons_of_mem _ he)
    intro e he
    unfold groupInsert at he
    split_ifs at he with hn
    · rcases List.mem_cons.1 he with rfl | he
      · refine ⟨by simp, fun x hx => ?_⟩
        rcases List.mem_append.1 hx with hx | hx
        · exact hg.2 x hx
        · rw [List.mem_singleton.1 hx, hc]
          exact hn.symm
      · exact hrest e he
    · rcases List.mem_cons.1 he with rfl | he
      · exact hg
      · exact ih hrest e he

theorem buildGroups_partition (containers : List Container) :
    (∀ e ∈ buildGroups containers, e.2 ≠ [] ∧ ∀ x ∈ e.2, getComposeProjectName x = e.1) ∧
      ((buildGroups containers).flatMap Prod.snd).Perm containers := by
  unfold buildGroups
  have key : ∀ (cs : List Container) (groups : List (String × List Container)),
      (∀ e ∈ groups, e.2 ≠ [] ∧ ∀ x ∈ e.2, getComposeProjectName x = e.1) →
      (∀ e ∈ cs.foldl (fun gs c => groupInsert (getComposeProjectName c) c gs) groups,
        e.2 ≠ [] ∧ ∀ x ∈ e.2, getComposeProjectName x = e.1) ∧
      ((cs.foldl (fun gs c => groupInsert (getComposeProjectName c) c gs) groups).flatMap
        Prod.snd).Perm (groups.flatMap Prod.snd ++ cs) := by
    intro cs
    induction cs with
    | nil =>
      intro groups h
      exact ⟨h, by simp⟩
    | cons c rest ih =>
      intro groups h
      obtain ⟨h1, h2⟩ := ih (groupInsert (getComposeProjectName c) c groups)
        (groupInsert_entries _ c groups h rfl)
      refine ⟨h1, h2.trans ?_⟩
      exact ((groupInsert_flat _ c groups).append_right rest).trans
        (List.perm_middle.symm)
  have := key containers [] (fun e he => by cases he)
  exact ⟨this.1, by simpa using this.2⟩

theorem sortGroupContainers_perm (cs cs1 : List Container)
    (h : sortGroupContainers cs = some cs1) : cs1.Perm cs := by
  unfold sortGroupContainers at h
  split_ifs at h
  · cases h
    exact List.Perm.refl _
  · cases h
    exact sortSlice_perm _ _

theorem mapOpt_groups_flat (entries : List (String × List Container)) (gs : List ContainerGroup)
    (h : mapOpt (fun e : String × List Container =>
      (sortGroupContainers e.2).map (fun cs => ContainerGroup.mk e.1 cs)) entries = some gs) :
    (gs.flatMap fun g => g.Containers).Perm (entries.flatMap Prod.snd) := by
  induction entries generalizing gs with
  | nil =>
    cases h
    exact List.Perm.refl _
  | cons e rest ih =>
    unfold mapOpt at h
    split at h
    · cases h
    · rename_i g hg
      rcases Option.map_eq_some'.1 h with ⟨gs1, hgs1, rfl⟩
      rcases Option.map_eq_some'.1 hg with ⟨cs1, hcs1, rfl⟩
      simp only [List.flatMap_cons]
      exact (sortGroupContainers_perm _ _ hcs1).append (ih gs1 hgs1)

/-- C25: for a container list in which every container has a name,
`groupContainersByCompose` returns a partition of the list: no group is
empty, every container of a group has the project name of the group, and
the containers of all groups, one after the other, are a permutation of the
list, so that no container is dropped or duplicated. -/
theorem grouping_is_a_partition (containers : List Container)
    (hnames : ∀ c ∈ containers, c.Names ≠ []) :
    ∃ groups, groupContainersByCompose containers = some groups ∧
      (∀ g ∈ groups, g.Containers ≠ [] ∧
        ∀ c ∈ g.Containers, getComposeProjectName c = g.Name) ∧
      (groups.flatMap fun g => g.Containers).Perm containers := by
  obtain ⟨groups, hgroups⟩ := groupContainersByCompose_isSome containers hnames
  refine ⟨groups, hgroups, ?_, ?_⟩
  · intro g hg
    unfold groupContainersByCompose groupsFromEntries at hgroups
    rcases Option.map_eq_some'.1 hgroups with ⟨gs, hgs, rfl⟩
    have hg1 : g ∈ gs := (sortSlice_mem _ _ _).1 hg
    obtain ⟨e, he, hfe⟩ := mapOpt_mem _ _ _ hgs g hg1
    rcases Option.map_eq_some'.1 hfe with ⟨cs1, hcs1, rfl⟩
    obtain ⟨hne, hproj⟩ := (buildGroups_partition containers).1 e he
    have hperm := sortGroupContainers_perm _ _ hcs1
    refine ⟨fun hnil => hne ?_, fun c hc => hproj c (hperm.subset hc)⟩
    dsimp only at hnil
    rw [hnil] at hperm
    exact List.Perm.eq_nil hperm.symm
  · unfold groupContainersByCompose groupsFromEntries at hgroups
    rcases Option.map_eq_some'.1 hgroups with ⟨gs, hgs, rfl⟩
    exact ((sortSlice_perm groupLess gs).flatMap_right _).trans
      ((mapOpt_groups_flat _ _ hgs).trans (buildGroups_partition containers).2)

theorem grouping_is_a_partition_witness :
    ∃ groups, groupContainersByCompose scenarioContainers = some groups ∧
      (∀ g ∈ groups, g.Containers ≠ [] ∧
        ∀ c ∈ g.Containers, getComposeProjectName c = g.Name) ∧
      (groups.flatMap fun g => g.Containers).Perm scenarioContainers :=
  grouping_is_a_partition scenarioContainers (by decide)

/-! ## The port summary of a group -/

theorem stringLess_asymm (a b : String) (h : decide (a < b) = true) : decide (b < a) = false := by
  simp only [decide_eq_true_eq] at h
  simpa using le_of_lt h

theorem stringLess_negTrans (a b c : String) (h : decide (a < c) = true) :
    decide (a < b) = true ∨ decide (b < c) = true := by
  simp only [decide_eq_true_eq] at h ⊢
  by_contra hcon
  rw [not_or, not_lt, not_lt] at hcon
  exact absurd h (not_lt.2 (le_trans hcon.2 hcon.1))

theorem sortedPorts_strict (l : List String) (h : l.Nodup) :
    (sortSlice (fun a b => decide (a < b)) l).Pairwise fun a b => a < b := by
  have h1 := sortSlice_sorted (fun a b : String => decide (a < b)) stringLess_asymm
    stringLess_negTrans l
  have h2 : (sortSlice (fun a b : String => decide (a < b)) l).Nodup :=
    (sortSlice_perm _ l).nodup_iff.2 h
  refine (h1.and h2).imp ?_
  intro a b hab
  obtain ⟨hle, hne⟩ := hab
  simp only [decide_eq_false_iff_not, not_lt] at hle
  exact lt_of_le_of_ne hle hne

theorem groupPortStrings_mem (group : ContainerGroup) (s : String) :
    s ∈ groupPortStrings group ↔
      ∃ c ∈ group.Containers, ∃ p ∈ c.Ports, p.PublicPort ≠ 0 ∧
        s = toString p.PublicPort ++ "->" ++ toString p.PrivatePort := by
  unfold groupPortStrings
  simp only [List.mem_flatMap, List.mem_map, List.mem_filter, decide_eq_true_eq]
  constructor
  · rintro ⟨c, hc, p, ⟨hp, hpub⟩, rfl⟩
    exact ⟨c, hc, p, hp, hpub, rfl⟩
  · rintro ⟨c, hc, p, hp, hpub, rfl⟩
    exact ⟨c, hc, p, ⟨hp, hpub⟩, rfl⟩

/-- C24: `getGroupPorts` returns the summary of the list `ports` of the
distinct strings `<public>-><private>` of the ports of the group that have a
public port other than zero, in strictly ascending order: the strings
joined by a comma and a blank when there are at most three (the empty
string when there is none), and for `n > 3` strings the first three joined
the same way, followed by `... (n ports)`. -/
theorem getGroupPorts_spec (group : ContainerGroup) :
    ∃ ports : List String,
      (ports.Pairwise fun a b => a < b) ∧
      (∀ s, s ∈ ports ↔
        ∃ c ∈ group.Containers, ∃ p ∈ c.Ports, p.PublicPort ≠ 0 ∧
          s = toString p.PublicPort ++ "->" ++ toString p.PrivatePort) ∧
      (ports = [] → getGroupPorts group = "") ∧
      (ports.length ≤ 3 → getGroupPorts group = joinStrings ports ", ") ∧
      (3 < ports.length → getGroupPorts group =
        joinStrings (ports.take 3) ", " ++ "... (" ++ toString ports.length ++ " ports)") := by
  refine ⟨sortSlice (fun a b => decide (a < b)) (groupPortStrings group).dedup,
    sortedPorts_strict _ (List.nodup_dedup _), ?_, ?_, ?_, ?_⟩
  · intro s
    rw [sortSlice_mem, List.mem_dedup]
    exact groupPortStrings_mem group s
  · intro h
    unfold getGroupPorts
    dsimp only
    rw [h]
    rfl
  · intro h
    unfold getGroupPorts
    dsimp only
    split_ifs with h0 h3
    · rw [List.length_eq_zero.1 h0]
      rfl
    · omega
    · rfl
  · intro h
    unfold getGroupPorts
    dsimp only
    rw [if_neg (by omega), if_pos (by omega)]

/-! ## The middle range can overflow -/

set_option maxRecDepth 4000 in
theorem ieeeScaleWidth_middle :
    ieeeScaleWidth 12 42 67 = 7 ∧ ieeeScaleWidth 30 42 67 = 18 ∧
      ieeeScaleWidth 25 42 67 = 15 := by
  decide

/-- C28: in the middle range the layout can overflow.  With the float
arithmetic of the language, minimum widths [12, 15, 15], preferred widths
[12, 30, 25] and available width 42, which lies between the two sums 42 and
67, `distributeColumnWidths` returns the widths [12, 18, 15]: the first
column is raised from 7 to its minimum, and the widths sum to 45, more than
the available 42. -/
theorem middle_range_can_overflow (env : Env T) (t1 t2 t3 : String)
    (henv : ∀ w avail total, env.scaleWidth w avail total = ieeeScaleWidth w avail total) :
    ([12, 15, 15] : List Int).sum ≤ 42 ∧ 42 < ([12, 30, 25] : List Int).sum ∧
      ∃ cols, distributeColumnWidths env [t1, t2, t3] [12, 15, 15] [12, 30, 25] 42 = some cols ∧
        cols = [⟨t1, 12⟩, ⟨t2, 18⟩, ⟨t3, 15⟩] ∧ 42 < (cols.map fun col => col.Width).sum := by
  obtain ⟨h1, h2, h3⟩ := ieeeScaleWidth_middle
  refine ⟨by decide, by decide, _, ?_, rfl, by simp⟩
  unfold distributeColumnWidths
  simp [fitColumns, henv, h1, h2, h3]

theorem middle_range_can_overflow_witness :
    ∃ cols, distributeColumnWidths ieeeEnv ["ID", "Name", "Size"] [12, 15, 15] [12, 30, 25] 42 =
        some cols ∧
      cols = [⟨"ID", 12⟩, ⟨"Name", 18⟩, ⟨"Size", 15⟩] ∧ 42 < (cols.map fun col => col.Width).sum :=
  (middle_range_can_overflow ieeeEnv "ID" "Name" "Size" (fun _ _ _ => rfl)).2.2

/-! ## Scaling down from the minimum widths -/

theorem f64Normalize_spec (fuel n d : Nat) (e : Int) (hn : 0 < n) (hd : 0 < d)
    (h1 : d * 4503599627370496 ≤ n * 2 ^ fuel)
    (h2 : n < d * 9007199254740992 * 2 ^ fuel) :
    0 < (f64Normalize fuel n d e).2.1 ∧
      (f64Normalize fuel n d e).2.1 * 4503599627370496 ≤ (f64Normalize fuel n d e).1 ∧
      (f64Normalize fuel n d e).1 < (f64Normalize fuel n d e).2.1 * 9007199254740992 ∧
      ((f64Normalize fuel n d e).1 : ℚ) / (f64Normalize fuel n d e).2.1 *
          (2 : ℚ) ^ (f64Normalize fuel n d e).2.2 = (n : ℚ) / d * (2 : ℚ) ^ e := by
  induction fuel generalizing n d e with
  | zero =>
    simp only [pow_zero, mul_one] at h1 h2
    exact ⟨hd, h1, h2, rfl⟩
  | succ fuel ih =>
    have hP : 0 < 2 ^ fuel := Nat.pow_pos (by norm_num)
    rw [pow_succ] at h1 h2
    unfold f64Normalize
    split_ifs with c1 c2
    · have := ih (2 * n) d (e - 1) (by omega) hd (by nlinarith) (by nlinarith)
      refine ⟨this.1, this.2.1, this.2.2.1, ?_⟩
      rw [this.2.2.2, zpow_sub_one₀ (by norm_num : (2 : ℚ) ≠ 0)]
      push_cast
      field_simp
      ring
    · have := ih n (2 * d) (e + 1) hn (by omega) (by nlinarith) (by nlinarith)
      refine ⟨this.1, this.2.1, this.2.2.1, ?_⟩
      rw [this.2.2.2, zpow_add_one₀ (by norm_num : (2 : ℚ) ≠ 0)]
      push_cast
      field_simp
      ring
    · exact ⟨hd, not_lt.1 c1, not_le.1 c2, rfl⟩

theorem roundHalfEven_le (n d K : Nat) (hd : 0 < d) (h : n ≤ K * d) : roundHalfEven n d ≤ K := by
  have hq : n / d ≤ K := by
    calc n / d ≤ K * d / d := Nat.div_le_div_right h
      _ = K := Nat.mul_div_cancel _ hd
  unfold roundHalfEven
  rcases Nat.lt_or_ge (n / d) K with hlt | hge
  · split_ifs <;> omega
  · have hqK : n / d = K := le_antisymm hq hge
    have hmod : n % d = 0 := by
      have := Nat.div_add_mod n d
      rw [hqK] at this
      have : d * K + n % d ≤ K * d := by omega
      have h3 : d * K = K * d := Nat.mul_comm _ _
      omega
    rw [hmod]
    simp [hd, hqK]

theorem roundHalfEven_ge (n d : Nat) : n / d ≤ roundHalfEven n d := by
  unfold roundHalfEven
  split_ifs <;> omega

theorem roundHalfEven_le_succ (n d : Nat) : roundHalfEven n d ≤ n / d + 1 := by
  unfold roundHalfEven
  split_ifs <;> omega

theorem round_bounds (n d : Nat) (e : Int) (hd : 0 < d) (hlo : d * 4503599627370496 ≤ n)
    (hhi : n < d * 9007199254740992) :
    4503599627370496 ≤ roundHalfEven n d ∧ roundHalfEven n d ≤ 9007199254740992 ∧
      (∀ Y : Nat, Y < 9007199254740992 → (n : ℚ) / d * (2 : ℚ) ^ e ≤ Y →
        (roundHalfEven n d : ℚ) * (2 : ℚ) ^ e ≤ Y) ∧
      (∀ Y : Nat, Y < 9007199254740992 → (Y : ℚ) ≤ (n : ℚ) / d * (2 : ℚ) ^ e →
        (Y : ℚ) ≤ (roundHalfEven n d : ℚ) * (2 : ℚ) ^ e) := by
  have hdq : (0 : ℚ) < d := by exact_mod_cast hd
  have hfloor_lo : 4503599627370496 ≤ n / d := (Nat.le_div_iff_mul_le hd).2 (by omega)
  have hfloor_hi : n / d < 9007199254740992 := (Nat.div_lt_iff_lt_mul hd).2 (by omega)
  have hm_lo : 4503599627370496 ≤ roundHalfEven n d := le_trans hfloor_lo (roundHalfEven_ge n d)
  have hm_hi : roundHalfEven n d ≤ 9007199254740992 :=
    le_trans (roundHalfEven_le_succ n d) (by omega)
  have hm_loq : (4503599627370496 : ℚ) ≤ (roundHalfEven n d : ℚ) := by exact_mod_cast hm_lo
  have hfrac_lo : (4503599627370496 : ℚ) ≤ (n : ℚ) / d := by
    rw [le_div_iff₀ hdq]
    have : ((d * 4503599627370496 : Nat) : ℚ) ≤ (n : ℚ) := by exact_mod_cast hlo
    push_cast at this
    linarith
  refine ⟨hm_lo, hm_hi, ?_, ?_⟩
  · intro Y hY hx
    have hYq : (Y : ℚ) < 9007199254740992 := by exact_mod_cast hY
    rcases le_or_lt e 0 with he | he
    · obtain ⟨k, rfl⟩ := Int.exists_eq_neg_ofNat he
      rw [zpow_neg, zpow_natCast] at hx ⊢
      have hpow : (0 : ℚ) < (2 : ℚ) ^ k := by positivity
      rw [← div_eq_mul_inv, div_le_iff₀ hpow] at hx ⊢
      rw [div_le_iff₀ hdq] at hx
      have hnat : n ≤ (Y * 2 ^ k) * d := by
        have : (n : ℚ) ≤ ((Y * 2 ^ k * d : Nat) : ℚ) := by
          push_cast
          linarith
        exact_mod_cast this
      have := roundHalfEven_le n d (Y * 2 ^ k) hd hnat
      have : (roundHalfEven n d : ℚ) ≤ ((Y * 2 ^ k : Nat) : ℚ) := by exact_mod_cast this
      push_cast at this
      linarith
    · obtain ⟨k, rfl⟩ := Int.eq_ofNat_of_zero_le (le_of_lt he)
      rw [zpow_natCast] at hx
      have hk : 1 ≤ k := by omega
      have hpow : (2 : ℚ) ≤ (2 : ℚ) ^ k := by
        calc (2 : ℚ) = 2 ^ 1 := by norm_num
          _ ≤ 2 ^ k := pow_le_pow_right₀ (by norm_num) hk
      have : (4503599627370496 : ℚ) * 2 ≤ (n : ℚ) / d * (2 : ℚ) ^ k :=
        mul_le_mul hfrac_lo hpow (by norm_num) (le_trans (by norm_num) hfrac_lo)
      exfalso
      linarith
  · intro Y hY hx
    have hYq : (Y : ℚ) < 9007199254740992 := by exact_mod_cast hY
    rcases le_or_lt e 0 with he | he
    · obtain ⟨k, rfl⟩ := Int.exists_eq_neg_ofNat he
      rw [zpow_neg, zpow_natCast] at hx ⊢
      have hpow : (0 : ℚ) < (2 : ℚ) ^ k := by positivity
      rw [← div_eq_mul_inv, le_div_iff₀ hpow] at hx ⊢
      rw [le_div_iff₀ hdq] at hx
      have hnat : (Y * 2 ^ k) * d ≤ n := by
        have : ((Y * 2 ^ k * d : Nat) : ℚ) ≤ (n : ℚ) := by
          push_cast
          linarith
        exact_mod_cast this
      have h3 : Y * 2 ^ k ≤ n / d := (Nat.le_div_iff_mul_le hd).2 hnat
      have h4 := le_trans h3 (roundHalfEven_ge n d)
      have : ((Y * 2 ^ k : Nat) : ℚ) ≤ (roundHalfEven n d : ℚ) := by exact_mod_cast h4
      push_cast at this
      linarith
    · obtain ⟨k, rfl⟩ := Int.eq_ofNat_of_zero_le (le_of_lt he)
      rw [zpow_natCast]
      have hk : 1 ≤ k := by omega
      have hpow : (2 : ℚ) ≤ (2 : ℚ) ^ k := by
        calc (2 : ℚ) = 2 ^ 1 := by norm_num
          _ ≤ 2 ^ k := pow_le_pow_right₀ (by norm_num) hk
      have : (4503599627370496 : ℚ) * 2 ≤ (roundHalfEven n d : ℚ) * (2 : ℚ) ^ k :=
        mul_le_mul hm_loq hpow (by norm_num) (le_trans (by norm_num) hm_loq)
      linarith

theorem f64Round_pos (num : Int) (den : Nat) (e : Int) (hnum : 0 < num) (hden : 0 < den)
    (h1 : den * 4503599627370496 ≤ num.natAbs * 2 ^ 2200)
    (h2 : num.natAbs < den * 9007199254740992 * 2 ^ 2200) :
    4503599627370496 ≤ (f64Round num den e).mant ∧
      (f64Round num den e).mant ≤ 9007199254740992 ∧
      (∀ Y : Nat, Y < 9007199254740992 → (num : ℚ) / den * (2 : ℚ) ^ e ≤ Y →
        (f64Round num den e).val ≤ Y) ∧
      (∀ Y : Nat, Y < 9007199254740992 → (Y : ℚ) ≤ (num : ℚ) / den * (2 : ℚ) ^ e →
        (Y : ℚ) ≤ (f64Round num den e).val) := by
  have hnat : 0 < num.natAbs := Int.natAbs_pos.2 (ne_of_gt hnum)
  obtain ⟨s1, s2, s3, s4⟩ := f64Normalize_spec 2200 num.natAbs den e hnat hden h1 h2
  have habs : ((num.natAbs : Nat) : ℚ) = (num : ℚ) := by
    rw [Nat.cast_natAbs, abs_of_pos hnum]
  rw [habs] at s4
  obtain ⟨b1, b2, b3, b4⟩ := round_bounds _ _ (f64Normalize 2200 num.natAbs den e).2.2 s1 s2 s3
  rw [s4] at b3 b4
  unfold f64Round F64.val
  rw [if_neg (ne_of_gt hnum)]
  simp only [if_neg (not_lt.2 (le_of_lt hnum))]
  refine ⟨by exact_mod_cast b1, by exact_mod_cast b2, ?_, ?_⟩
  · intro Y hY hx
    have := b3 Y hY hx
    push_cast
    exact this
  · intro Y hY hx
    have := b4 Y hY hx
    push_cast
    exact this

theorem fuel_enough (n d k : Nat) (hk : 107 ≤ k) (hn : 1 ≤ n)
    (hn2 : n ≤ 81129638414606681695789005144064) (hd : 1 ≤ d) (hd2 : d ≤ 9007199254740992) :
    d * 4503599627370496 ≤ n * 2 ^ k ∧ n < d * 9007199254740992 * 2 ^ k := by
  have hpow : (2 : Nat) ^ 107 ≤ 2 ^ k := Nat.pow_le_pow_right (by norm_num) hk
  have hbig : 162259276829213363391578010288128 ≤ 2 ^ k :=
    le_trans (by norm_num) hpow
  constructor
  · calc d * 4503599627370496 ≤ 9007199254740992 * 4503599627370496 :=
        Nat.mul_le_mul_right _ hd2
      _ ≤ 162259276829213363391578010288128 := by norm_num
      _ ≤ 2 ^ k := hbig
      _ ≤ n * 2 ^ k := Nat.le_mul_of_pos_left _ hn
  · calc n < 162259276829213363391578010288128 := by omega
      _ ≤ 2 ^ k := hbig
      _ ≤ d * 9007199254740992 * 2 ^ k := Nat.le_mul_of_pos_left _ (by omega)

theorem f64Round_nonpos (num : Int) (den : Nat) (e : Int) (hnum : num ≤ 0) :
    (f64Round num den e).mant ≤ 0 := by
  unfold f64Round
  split_ifs with h0 hneg
  · exact le_refl _
  · dsimp only
    omega
  · omega

theorem f64OfInt_pos (x : Int) (h0 : 0 < x) (h1 : x < 9007199254740992) :
    4503599627370496 ≤ (f64OfInt x).mant ∧ (f64OfInt x).mant ≤ 9007199254740992 ∧
      (f64OfInt x).val = x := by
  have hfuel := fuel_enough x.natAbs 1 2200 (by norm_num) (by omega) (by omega) (le_refl _)
    (by norm_num)
  obtain ⟨b1, b2, b3, b4⟩ := f64Round_pos x 1 0 h0 (by norm_num) hfuel.1 hfuel.2
  have hx : ((x.toNat : Nat) : ℚ) = (x : ℚ) := by
    have : ((x.toNat : Nat) : Int) = x := Int.toNat_of_nonneg (le_of_lt h0)
    exact_mod_cast congrArg (fun z : Int => (z : ℚ)) this
  have hval : (x : ℚ) / ((1 : Nat) : ℚ) * (2 : ℚ) ^ (0 : Int) = x := by simp
  have u := b3 x.toNat (by omega) (by rw [hval, hx])
  have l := b4 x.toNat (by omega) (by rw [hval, hx])
  rw [hx] at u l
  exact ⟨b1, b2, le_antisymm u l⟩

theorem f64ToInt_le (p : F64) (w : Int) (hm : 0 ≤ p.mant) (h : p.val ≤ w) : f64ToInt p ≤ w := by
  unfold f64ToInt
  unfold F64.val at h
  split_ifs with he
  · obtain ⟨k, hk⟩ := Int.eq_ofNat_of_zero_le he
    rw [hk] at h ⊢
    rw [zpow_natCast] at h
    simp only [Int.toNat_ofNat]
    have : ((p.mant * 2 ^ k : Int) : ℚ) ≤ (w : ℚ) := by
      push_cast
      exact h
    exact_mod_cast this
  · obtain ⟨k, hk⟩ := Int.exists_eq_neg_ofNat (le_of_lt (not_le.1 he))
    rw [hk] at h ⊢
    rw [zpow_neg, zpow_natCast] at h
    simp only [neg_neg, Int.toNat_ofNat]
    have hpow : (0 : ℚ) < (2 : ℚ) ^ k := by positivity
    have hpowi : (0 : Int) < 2 ^ k := by positivity
    rw [← div_eq_mul_inv, div_le_iff₀ hpow] at h
    rw [Int.tdiv_eq_ediv hm (le_of_lt hpowi)]
    apply Int.ediv_le_of_le_mul hpowi
    have : ((p.mant : Int) : ℚ) ≤ ((w * 2 ^ k : Int) : ℚ) := by
      push_cast
      exact h
    exact_mod_cast this

theorem f64ToInt_nonpos (p : F64) (hm : p.mant ≤ 0) : f64ToInt p ≤ 0 := by
  unfold f64ToInt
  split_ifs with he
  · exact Int.mul_nonpos_of_nonpos_of_nonneg hm (by positivity)
  · have h1 : (-p.mant).tdiv (2 ^ (-p.exp).toNat) ≥ 0 :=
      Int.tdiv_nonneg (by omega) (by positivity)
    rw [Int.neg_tdiv] at h1
    omega

theorem ieeeScaleWidth_le (w avail total : Int) (hw : 0 < w) (hwt : w ≤ total)
    (hav : avail < total) (htot : total < 9007199254740992) :
    ieeeScaleWidth w avail total ≤ w := by
  unfold ieeeScaleWidth
  obtain ⟨t1, t2, t3⟩ := f64OfInt_pos total (by omega) htot
  obtain ⟨w1, w2, w3⟩ := f64OfInt_pos w hw (by omega)
  have htneg : ¬ (f64OfInt total).mant < 0 := by omega
  rcases le_or_lt avail 0 with ha | ha
  · have a1 : (f64OfInt avail).mant ≤ 0 := f64Round_nonpos avail 1 0 ha
    have q1 : (f64Div (f64OfInt avail) (f64OfInt total)).mant ≤ 0 := by
      unfold f64Div
      rw [if_neg htneg]
      exact f64Round_nonpos _ _ _ a1
    have p1 : (f64Mul (f64OfInt w) (f64Div (f64OfInt avail) (f64OfInt total))).mant ≤ 0 := by
      unfold f64Mul
      exact f64Round_nonpos _ _ _ (Int.mul_nonpos_of_nonneg_of_nonpos (by omega) q1)
    exact le_trans (f64ToInt_nonpos _ p1) (le_of_lt hw)
  · obtain ⟨a1, a2, a3⟩ := f64OfInt_pos avail ha (by omega)
    -- the quotient is at most one
    have hq : 4503599627370496 ≤ (f64Div (f64OfInt avail) (f64OfInt total)).mant ∧
        (f64Div (f64OfInt avail) (f64OfInt total)).mant ≤ 9007199254740992 ∧
        (f64Div (f64OfInt avail) (f64OfInt total)).val ≤ 1 := by
      unfold f64Div
      rw [if_neg htneg]
      have hfuel := fuel_enough (f64OfInt avail).mant.natAbs (f64OfInt total).mant.natAbs
        2200 (by norm_num) (by omega) (by omega) (by omega) (by omega)
      obtain ⟨b1, b2, b3, -⟩ := f64Round_pos (f64OfInt avail).mant (f64OfInt total).mant.natAbs
        ((f64OfInt avail).exp - (f64OfInt total).exp) (by omega) (by omega) hfuel.1 hfuel.2
      refine ⟨b1, b2, ?_⟩
      have := b3 1 (by norm_num) ?_
      · simpa using this
      · have habs : (((f64OfInt total).mant.natAbs : Nat) : ℚ) = ((f64OfInt total).mant : ℚ) := by
          rw [Nat.cast_natAbs, abs_of_pos (by omega)]
        rw [habs, zpow_sub₀ (by norm_num : (2 : ℚ) ≠ 0)]
        unfold F64.val at a3 t3
        have hpt : (0 : ℚ) < (2 : ℚ) ^ (f64OfInt total).exp := by positivity
        have hmt : (0 : ℚ) < ((f64OfInt total).mant : ℚ) := by
          have : (0 : Int) < (f64OfInt total).mant := by omega
          exact_mod_cast this
        have hlt : (avail : ℚ) < (total : ℚ) := by exact_mod_cast hav
        have hrw : ((f64OfInt avail).mant : ℚ) / ((f64OfInt total).mant : ℚ) *
            ((2 : ℚ) ^ (f64OfInt avail).exp / (2 : ℚ) ^ (f64OfInt total).exp) =
            (avail : ℚ) / (total : ℚ) := by
          rw [← a3, ← t3]
          field_simp
        rw [hrw]
        have htq : (0 : ℚ) < (total : ℚ) := by
          have : (0 : Int) < total := by omega
          exact_mod_cast this
        rw [Nat.cast_one, div_le_one htq]
        exact le_of_lt hlt
    obtain ⟨q1, q2, q3⟩ := hq
    -- the product is at most w
    have hp : 0 ≤ (f64Mul (f64OfInt w) (f64Div (f64OfInt avail) (f64OfInt total))).mant ∧
        (f64Mul (f64OfInt w) (f64Div (f64OfInt avail) (f64OfInt total))).val ≤ w := by
      unfold f64Mul
      have hprod_lo : (1 : Int) ≤ (f64OfInt w).mant *
          (f64Div (f64OfInt avail) (f64OfInt total)).mant := by nlinarith
      have hprod_hi : (f64OfInt w).mant * (f64Div (f64OfInt avail) (f64OfInt total)).mant ≤
          81129638414606681695789005144064 := by nlinarith
      have hfuel := fuel_enough
        ((f64OfInt w).mant * (f64Div (f64OfInt avail) (f64OfInt total)).mant).natAbs 1
        2200 (by norm_num) (by omega) (by omega) (le_refl _) (by norm_num)
      obtain ⟨b1, -, b3, -⟩ := f64Round_pos
        ((f64OfInt w).mant * (f64Div (f64OfInt avail) (f64OfInt total)).mant) 1
        ((f64OfInt w).exp + (f64Div (f64OfInt avail) (f64OfInt total)).exp) (by omega)
        (by norm_num) hfuel.1 hfuel.2
      refine ⟨by omega, ?_⟩
      have hwn : ((w.toNat : Nat) : ℚ) = (w : ℚ) := by
        have : ((w.toNat : Nat) : Int) = w := Int.toNat_of_nonneg (le_of_lt hw)
        exact_mod_cast congrArg (fun z : Int => (z : ℚ)) this
      have := b3 w.toNat (by omega) ?_
      · rw [hwn] at this
        exact this
      · rw [hwn, zpow_add₀ (by norm_num : (2 : ℚ) ≠ 0)]
        unfold F64.val at w3 q3
        have hwq : (0 : ℚ) ≤ (w : ℚ) := by
          have : (0 : Int) ≤ w := le_of_lt hw
          exact_mod_cast this
        have hrw : (((f64OfInt w).mant * (f64Div (f64OfInt avail) (f64OfInt total)).mant : Int) : ℚ) /
            ((1 : Nat) : ℚ) * ((2 : ℚ) ^ (f64OfInt w).exp *
              (2 : ℚ) ^ (f64Div (f64OfInt avail) (f64OfInt total)).exp) =
            (w : ℚ) * (((f64Div (f64OfInt avail) (f64OfInt total)).mant : ℚ) *
              (2 : ℚ) ^ (f64Div (f64OfInt avail) (f64OfInt total)).exp) := by
          rw [← w3]
          push_cast
          ring
        rw [hrw]
        calc (w : ℚ) * (((f64Div (f64OfInt avail) (f64OfInt total)).mant : ℚ) *
              (2 : ℚ) ^ (f64Div (f64OfInt avail) (f64OfInt total)).exp) ≤ (w : ℚ) * 1 :=
              mul_le_mul_of_nonneg_left q3 hwq
          _ = w := mul_one _
    exact f64ToInt_le _ w hp.1 hp.2

theorem shrinkColumns_bounds (env : Env T) (W total : Int) (titles : List String)
    (minWidths : List Int)
    (henv : ∀ w avail total, env.scaleWidth w avail total = ieeeScaleWidth w avail total)
    (hlen : titles.length = minWidths.length) (hpos : ∀ w ∈ minWidths, 0 < w ∧ w ≤ total)
    (hW : W < total) (htotal : total < 9007199254740992) :
    List.Forall₂ (fun (col : Column) (lo : Int) => 8 ≤ col.Width ∧ col.Width ≤ max 8 lo)
      (shrinkColumns env W total titles minWidths) minWidths := by
  induction titles generalizing minWidths with
  | nil =>
    cases minWidths with
    | nil => simp [shrinkColumns]
    | cons lo los => simp at hlen
  | cons t ts ih =>
    cases minWidths with
    | nil => simp at hlen
    | cons lo los =>
      simp only [List.length_cons, Nat.add_right_cancel_iff] at hlen
      simp only [shrinkColumns]
      refine List.Forall₂.cons ?_
        (ih los hlen fun w hw => hpos w (List.mem_cons_of_mem _ hw))
      obtain ⟨h0, h1⟩ := hpos lo (List.mem_cons_self _ _)
      have hle := ieeeScaleWidth_le lo W total h0 h1 hW htotal
      rw [henv]
      dsimp only
      split_ifs with h
      · exact ⟨le_refl _, le_max_left _ _⟩
      · exact ⟨not_lt.1 h, le_trans hle (le_max_right _ _)⟩

/-- C23, amended: with the float arithmetic of the language, for every column
specification with lists of equal length and positive minimum widths whose
sum is below `2^53` (so that every width is a float), and every available
width `W` below the sum of the minimum widths, `distributeColumnWidths`
returns one column per minimum width, each at least 8 wide and at most as
wide as the larger of 8 and the minimum width of the column.  The sum can
exceed `W`: for the minimum widths [12, 15, 15] and `W = 10` the three
widths are at least 8 each. -/
theorem shrink_branch_bounds (env : Env T) (titles : List String)
    (minWidths preferredWidths : List Int) (W : Int)
    (henv : ∀ w avail total, env.scaleWidth w avail total = ieeeScaleWidth w avail total)
    (hmin : titles.length = minWidths.length) (hpref : titles.length = preferredWidths.length)
    (hpos : ∀ w ∈ minWidths, 0 < w) (hW : W < minWidths.sum)
    (hsum : minWidths.sum < 9007199254740992) :
    (∃ cols, distributeColumnWidths env titles minWidths preferredWidths W = some cols ∧
      List.Forall₂ (fun (col : Column) (lo : Int) => 8 ≤ col.Width ∧ col.Width ≤ max 8 lo)
        cols minWidths) ∧
    ∃ cols, distributeColumnWidths env ["ID", "Names", "Image"] [12, 15, 15] [12, 30, 25] 10 =
        some cols ∧ 10 < (cols.map fun col => col.Width).sum := by
  constructor
  · refine ⟨shrinkColumns env W minWidths.sum titles minWidths, ?_, ?_⟩
    · unfold distributeColumnWidths
      have h1 : ¬ (titles.length ≠ minWidths.length ∨
          titles.length ≠ preferredWidths.length) := by
        rw [not_or, not_not, not_not]
        exact ⟨hmin, hpref⟩
      simp only [if_neg h1, if_pos hW]
    · exact shrinkColumns_bounds env W minWidths.sum titles minWidths henv hmin
        (fun w hw => ⟨hpos w hw,
          List.single_le_sum (fun x hx => le_of_lt (hpos x hx)) w hw⟩) hW hsum
  · refine ⟨shrinkColumns env 10 42 ["ID", "Names", "Image"] [12, 15, 15], ?_, ?_⟩
    · unfold distributeColumnWidths
      simp
    · simp only [shrinkColumns, List.map_cons, List.map_nil, List.sum_cons, List.sum_nil]
      split_ifs <;> omega

theorem shrink_branch_bounds_witness :
    ∃ cols, distributeColumnWidths ieeeEnv ["ID", "Names", "Image"] [12, 15, 15] [12, 30, 25] 40 =
        some cols ∧
      List.Forall₂ (fun (col : Column) (lo : Int) => 8 ≤ col.Width ∧ col.Width ≤ max 8 lo)
        cols [12, 15, 15] :=
  (shrink_branch_bounds ieeeEnv ["ID", "Names", "Image"] [12, 15, 15] [12, 30, 25] 40
    (fun _ _ _ => rfl) rfl rfl (by decide) (by decide) (by decide)).1


set_option maxRecDepth 4000 in
/-- C23, as stated, fails for widths that are not floats: with the minimum
widths [9007199254740995, 1] and the available width 9007199254740995, one
below their sum, `float64` rounds the first width and the available width
up to 9007199254740996, the scale is 1, and the first column comes out one
wider than its minimum. -/
theorem huge_width_scales_up :
    (9007199254740995 : Int) < ([9007199254740995, 1] : List Int).sum ∧
      distributeColumnWidths ieeeEnv ["ID", "Names"] [9007199254740995, 1]
          [9007199254740995, 1] 9007199254740995 =
        some [⟨"ID", 9007199254740996⟩, ⟨"Names", 8⟩] ∧
      ¬ ((9007199254740996 : Int) ≤ max 8 9007199254740995) := by
  decide

end DockerStatus
